import Mathlib

/-!
# brace-topia: a shallow embedding of `src/src/brace-topia.c`

The C program keeps a square `dim × dim` grid of characters (`'.'` vacant,
`'e'` endline, `'n'` newline).  Each cycle it copies the grid, then visits the
cells in row-major order and calls `move` for every occupied cell whose
happiness (`check_neighbors`) is below `strength/100`.

Conventions of the embedding

* C `int` values that are array indices or loop counters are `Nat`; a test
  `row-1 >= 0` of the source is written `1 ≤ row`.  Other `int`s are `Int`.
* A `char ***` grid is a function `Nat → Nat → Char`; only cells with both
  indices below `dim` are ever read or written by the code.
* The mutable globals `last_checked_row`, `last_checked_col` and the grid
  being written are threaded through as an explicit state.
* `float` and `double` values are exact fractions; every arithmetic operation
  is the exact operation followed by IEEE-754 round-to-nearest-even to 24
  (binary32) or 53 (binary64) significant bits, expressions being evaluated in
  the precision of their type.  Exponent range limits are not modelled: no
  value of the program comes near them.
* `for (i = 0; i < n; i++)` loops are `forLoop n`.
* The cycle loop of `print_mode` has an `int` counter compared with
  `max_cycle`; its increment is taken in 32-bit two's complement, and the loop
  is given a number of iterations it may run.
* `main` is modelled from the results of `getopt` on: each option carries the
  `long` that `strtol` returns for its argument, and the cast `(int)` narrows
  it to 32 bits in two's complement (`long` has 64 bits, `int` has 32).
* For index safety the functions are given a second time with every grid
  access checked (`grid_read`, `grid_write`), the indices of
  `check_neighbors` being `Int` there.
-/

namespace BraceTopia

/-! ## Floating point -/

/-- Exact value `num / den` of a finite binary floating-point number. -/
structure Fp where
  num : Int
  den : Nat
  deriving DecidableEq, Repr

/-- Floor of the base-two logarithm, by repeated halving (`fuel` bounds the
number of halvings). -/
def log2Fuel : Nat → Nat → Nat
  | 0, _ => 0
  | fuel + 1, n => if n < 2 then 0 else 1 + log2Fuel fuel (n / 2)

/-- Floor of the base-two logarithm of `n` (`0` for `n = 0`). -/
def ilog2 (n : Nat) : Nat := log2Fuel n n

/-- Nearest integer to `n / d`, ties to the even integer. -/
def rne (n d : Nat) : Nat :=
  let q := n / d
  let r := n % d
  if 2 * r < d then q
  else if d < 2 * r then q + 1
  else if q % 2 = 0 then q else q + 1

/-- Round the positive fraction `m / d` to `p` significant bits: the fraction
is scaled by a power of two into `[2^(p-1), 2^p)`, rounded to the nearest
integer (ties to even) and scaled back. -/
def roundPos (p m d : Nat) : Fp :=
  if d ≤ m then
    let e := ilog2 (m / d)
    if p ≤ e then
      let b := e + 1 - p
      ⟨(rne m (d * 2 ^ b) * 2 ^ b : Nat), 1⟩
    else
      let a := p - 1 - e
      ⟨(rne (m * 2 ^ a) d : Nat), 2 ^ a⟩
  else
    let t := ilog2 (d / m)
    let k := if d ≤ m * 2 ^ t then t else t + 1
    let a := k + (p - 1)
    ⟨(rne (m * 2 ^ a) d : Nat), 2 ^ a⟩

namespace Fp

/-- Round the fraction `n / d` to `p` significant bits, round-to-nearest-even. -/
def round (p : Nat) (n : Int) (d : Nat) : Fp :=
  if n = 0 ∨ d = 0 then ⟨0, 1⟩
  else
    let r := roundPos p n.natAbs d
    if n < 0 then ⟨-r.num, r.den⟩ else r

/-- Conversion of a C `int` to a floating type of precision `p`. -/
def ofInt (p : Nat) (i : Int) : Fp := round p i 1

/-- Floating-point addition at precision `p`. -/
def add (p : Nat) (a b : Fp) : Fp :=
  round p (a.num * b.den + b.num * a.den) (a.den * b.den)

/-- Floating-point subtraction at precision `p`. -/
def sub (p : Nat) (a b : Fp) : Fp :=
  round p (a.num * b.den - b.num * a.den) (a.den * b.den)

/-- Floating-point multiplication at precision `p`. -/
def mul (p : Nat) (a b : Fp) : Fp :=
  round p (a.num * b.num) (a.den * b.den)

/-- Floating-point division at precision `p` (the divisor is never zero in the
program). -/
def div (p : Nat) (a b : Fp) : Fp :=
  round p (a.num * b.den * Int.sign b.num) (a.den * b.num.natAbs)

/-- Conversion of a floating value to a C `int`: truncation toward zero. -/
def toInt (a : Fp) : Int := Int.tdiv a.num a.den

/-- The C comparison `a < b` of two floating values. -/
def lt (a b : Fp) : Bool := decide (a.num * b.den < b.num * a.den)

/-- The rational number a floating value stands for. -/
def toRat (a : Fp) : ℚ := (a.num : ℚ) / (a.den : ℚ)

end Fp

/-- Significand width of a C `float` (IEEE-754 binary32). -/
def FLT : Nat := 24

/-- Significand width of a C `double` (IEEE-754 binary64). -/
def DBL : Nat := 53

/-! ## Grids and loops -/

/-- The pointee of a `char ***` grid: `g r c` is `(*grid)[r][c]`. -/
abbrev Grid := Nat → Nat → Char

/-- The assignment `(*grid)[r][c] = v`. -/
def Grid.set (g : Grid) (r c : Nat) (v : Char) : Grid :=
  fun r' c' => if r' = r ∧ c' = c then v else g r' c'

/-- The loop `for (i = 0; i < n; i++) s = body i s`. -/
def forLoop {σ : Type} : Nat → (Nat → σ → σ) → σ → σ
  | 0, _, s => s
  | n + 1, body, s => body n (forLoop n body s)

/-- The cells of the grid in row-major order (the order in which the program
prints and scans them). -/
def cells (dim : Nat) (g : Grid) : List Char :=
  (List.range dim).flatMap (fun r => (List.range dim).map (fun c => g r c))

/-- Number of cells of the `dim × dim` grid holding the character `ch`. -/
def countCells (dim : Nat) (g : Grid) (ch : Char) : Nat :=
  (cells dim g).count ch

/-- A grid given by its rows, for concrete examples; cells outside the rows
read as `'.'`. -/
def gridOfRows (rows : List (List Char)) : Grid :=
  fun r c => (rows.getD r []).getD c '.'

/-! ## `check_neighbors` -/

/-- One of the eight `if` statements of `check_neighbors`, acting on the pair
`(total, same)`: when the neighbour lies inside the grid (`inb`) and holds
`'e'` or `'n'`, `total` is incremented, and `same` as well when the neighbour
equals `value`. -/
def tally (value : Char) (inb : Bool) (nb : Char) (ts : Nat × Nat) : Nat × Nat :=
  if inb = true ∧ (nb = 'e' ∨ nb = 'n') then
    (ts.1 + 1, if nb = value then ts.2 + 1 else ts.2)
  else ts

/-- The pair `(total, same)` when `check_neighbors` reaches line 223. -/
def neighbor_counts (dim : Nat) (grid : Grid) (row col : Nat) : Nat × Nat :=
  let value := grid row col
  let ts : Nat × Nat := (0, 0)
  let ts := tally value (decide (1 ≤ row ∧ 1 ≤ col)) (grid (row - 1) (col - 1)) ts
  let ts := tally value (decide (1 ≤ row)) (grid (row - 1) col) ts
  let ts := tally value (decide (1 ≤ row ∧ col + 1 < dim)) (grid (row - 1) (col + 1)) ts
  let ts := tally value (decide (1 ≤ col)) (grid row (col - 1)) ts
  let ts := tally value (decide (col + 1 < dim)) (grid row (col + 1)) ts
  let ts := tally value (decide (row + 1 < dim ∧ 1 ≤ col)) (grid (row + 1) (col - 1)) ts
  let ts := tally value (decide (row + 1 < dim)) (grid (row + 1) col) ts
  let ts := tally value (decide (row + 1 < dim ∧ col + 1 < dim)) (grid (row + 1) (col + 1)) ts
  ts

/-- The function `check_neighbors` (lines 161-227): `1` when `total == 0`,
otherwise the `float` quotient `(float)same/total`. -/
def check_neighbors (dim : Nat) (grid : Grid) (row col : Nat) : Fp :=
  let ts := neighbor_counts dim grid row col
  let total := ts.1
  let same := ts.2
  if total = 0 then Fp.ofInt FLT 1
  else Fp.div FLT (Fp.ofInt FLT same) (Fp.ofInt FLT total)

/-! ## `move` -/

/-- The part of the program state that `move` reads and writes: the grid being
written and the two cursor globals. -/
structure MoveState where
  grid2 : Grid
  last_checked_row : Nat
  last_checked_col : Nat

/-- Outcome of the two nested loops of `move`: the vacancy they stop at, or
the cursor they leave behind when they run to the end. -/
inductive Scan where
  | found (row col : Nat)
  | exhausted (row col : Nat)
  deriving DecidableEq, Repr

/-- The inner loop of `move` (lines 139-147) with `n` iterations left, standing
at column `col` of row `row`: the column at which it finds `'.'` in `grid`,
if it does. It is run with `n = dim - col`. -/
def scanCols (grid : Grid) (row : Nat) : Nat → Nat → Option Nat
  | 0, _ => none
  | n + 1, col => if grid row col = '.' then some col else scanCols grid row n (col + 1)

/-- The outer loop of `move` (lines 138-149) with `n` iterations left, standing
at `(row, col)`. When the inner loop finds nothing the column is reset to `0`
and the row advances. It is run with `n = dim - row`. -/
def scanRows (grid : Grid) (dim : Nat) : Nat → Nat → Nat → Scan
  | 0, row, col => Scan.exhausted row col
  | n + 1, row, col =>
    match scanCols grid row (dim - col) col with
    | some c => Scan.found row c
    | none => scanRows grid dim n (row + 1) 0

/-- The function `move` (lines 134-151). The vacancy is looked for in `grid`,
from the cursor on; when one is found at `(r, c)` the character
`(*grid)[old_row][old_col]` is written there in `grid2`, then `'.'` is written
at `(old_row, old_col)` in `grid2`, the cursor becomes `(r, c + 1)` and `1` is
returned. Otherwise `0` is returned. -/
def move (dim : Nat) (grid : Grid) (st : MoveState) (old_row old_col : Nat) :
    Nat × MoveState :=
  match scanRows grid dim (dim - st.last_checked_row) st.last_checked_row
      st.last_checked_col with
  | Scan.found r c =>
    (1, ⟨(st.grid2.set r c (grid old_row old_col)).set old_row old_col '.', r, c + 1⟩)
  | Scan.exhausted r c => (0, ⟨st.grid2, r, c⟩)

/-! ## One cycle -/

/-- The `float` value `(float)strength/100`. -/
def threshold (strength : Int) : Fp :=
  Fp.div FLT (Fp.ofInt FLT strength) (Fp.ofInt FLT 100)

/-- The condition of line 291: the cell is `'n'` or `'e'` and its happiness is
less than `(float)strength/100`. -/
def unhappy (dim : Nat) (strength : Int) (grid : Grid) (j k : Nat) : Bool :=
  decide ((grid j k = 'n' ∨ grid j k = 'e') ∧
    Fp.lt (check_neighbors dim grid j k) (threshold strength) = true)

/-- The body of the move loops (lines 290-294) on the pair
`(moves, state of move)`. -/
def visit (dim : Nat) (strength : Int) (grid : Grid) (j k : Nat)
    (s : Nat × MoveState) : Nat × MoveState :=
  if unhappy dim strength grid j k = true then
    let r := move dim grid s.2 j k
    (s.1 + r.1, r.2)
  else s

/-- Move resolution of one cycle (lines 238-239 and 267-296): the cursor is
reset, `moves` is reset, `grid2` is a copy of `grid`, and every cell is
visited in row-major order. -/
def resolve (dim : Nat) (strength : Int) (grid : Grid) : Nat × MoveState :=
  forLoop dim (fun j s => forLoop dim (fun k s => visit dim strength grid j k s) s)
    (0, ⟨grid, 0, 0⟩)

/-- The grid that replaces `grid` at the end of a cycle (lines 298-299). -/
def next_grid (dim : Nat) (strength : Int) (grid : Grid) : Grid :=
  (resolve dim strength grid).2.grid2

/-- The value of `moves` at the end of a cycle. -/
def moves (dim : Nat) (strength : Int) (grid : Grid) : Nat :=
  (resolve dim strength grid).1

/-- The grid at the start of iteration `i` of the cycle loop of `print_mode`
and `infinite_mode`. -/
def grid_at (dim : Nat) (strength : Int) (grid : Grid) : Nat → Grid
  | 0 => grid
  | i + 1 => next_grid dim strength (grid_at dim strength grid i)

/-- A relocation: the cell an agent left and the cell it was written to. -/
abbrev Reloc := (Nat × Nat) × (Nat × Nat)

/-- The cell at which a call of `move` in state `st` finds its vacancy. -/
def move_target (dim : Nat) (grid : Grid) (st : MoveState) : Option (Nat × Nat) :=
  match scanRows grid dim (dim - st.last_checked_row) st.last_checked_row
      st.last_checked_col with
  | Scan.found r c => some (r, c)
  | Scan.exhausted _ _ => none

/-- The loop body `visit` together with a log of the relocations performed so
far, oldest first. -/
def visit_log (dim : Nat) (strength : Int) (grid : Grid) (j k : Nat)
    (s : (Nat × MoveState) × List Reloc) : (Nat × MoveState) × List Reloc :=
  (visit dim strength grid j k s.1,
    if unhappy dim strength grid j k = true then
      match move_target dim grid s.1.2 with
      | some t => s.2 ++ [((j, k), t)]
      | none => s.2
    else s.2)

/-- The loops of `resolve` with the log of relocations. -/
def resolve_log (dim : Nat) (strength : Int) (grid : Grid) :
    (Nat × MoveState) × List Reloc :=
  forLoop dim (fun j s => forLoop dim (fun k s => visit_log dim strength grid j k s) s)
    ((0, ⟨grid, 0, 0⟩), [])

/-- The relocations of one cycle, in the order they are performed. -/
def relocations (dim : Nat) (strength : Int) (grid : Grid) : List Reloc :=
  (resolve_log dim strength grid).2

/-- Row-major index of a cell. -/
def idx (dim : Nat) (p : Nat × Nat) : Nat := p.1 * dim + p.2

/-! ## `get_initial_grid` -/

/-- The `double` value `p/100.0` of a percentage `p`. -/
def percent (p : Int) : Fp := Fp.div DBL (Fp.ofInt DBL p) (Fp.ofInt DBL 100)

/-- The value of `num_vacant` (line 71): the `double` product
`dim*dim*(percent_vacant/100.0)` converted to `int`. -/
def num_vacant (dim : Nat) (percent_vacant : Int) : Int :=
  (Fp.mul DBL (Fp.ofInt DBL ((dim : Int) * dim)) (percent percent_vacant)).toInt

/-- The value of `num_endline` (line 72): the `double` product
`dim*dim*(1-(percent_vacant/100.0))*(percent_endline/100.0)` converted to
`int`. -/
def num_endline (dim : Nat) (percent_vacant percent_endline : Int) : Int :=
  (Fp.mul DBL
    (Fp.mul DBL (Fp.ofInt DBL ((dim : Int) * dim))
      (Fp.sub DBL (Fp.ofInt DBL 1) (percent percent_vacant)))
    (percent percent_endline)).toInt

/-- The character stored by the fill loop when the counter is `count`
(lines 78-84). -/
def fill_char (nv ne : Int) (count : Int) : Char :=
  if count < nv then '.'
  else if count < nv + ne then 'e'
  else 'n'

/-- The fill loops (lines 73-87) on the pair `(grid, count)`; `g0` is the
freshly allocated, not yet written grid. -/
def fill (dim : Nat) (nv ne : Int) (g0 : Grid) : Grid × Int :=
  forLoop dim (fun i s => forLoop dim (fun j s =>
    (s.1.set i j (fill_char nv ne s.2), s.2 + 1)) s) (g0, 0)

/-- The shuffle loops (lines 90-98) on the pair `(grid, number of calls of
random() so far)`; `rnd n` is the value returned by call number `n` of
`random()`. -/
def shuffle (dim : Nat) (rnd : Nat → Nat) (grid : Grid) : Grid × Nat :=
  forLoop dim (fun i s => forLoop dim (fun j s =>
    let rand_row := rnd s.2 % dim
    let rand_col := rnd (s.2 + 1) % dim
    let temp := s.1 i j
    let g := s.1.set i j (s.1 rand_row rand_col)
    (g.set rand_row rand_col temp, s.2 + 2)) s) (grid, 0)

/-- The function `get_initial_grid` (lines 50-101). -/
def get_initial_grid (dim : Nat) (percent_vacant percent_endline : Int)
    (rnd : Nat → Nat) (g0 : Grid) : Grid :=
  (shuffle dim rnd
    (fill dim (num_vacant dim percent_vacant)
      (num_endline dim percent_vacant percent_endline) g0).1).1

/-- The writes of the relocations of `log`, replayed in order on `g`: each
entry writes the agent read from `grid` at the target and `'.'` at the
origin, as `move` does. -/
def apply_log (grid : Grid) (log : List Reloc) (g : Grid) : Grid :=
  log.foldl (fun g e => (g.set e.2.1 e.2.2 (grid e.1.1 e.1.2)).set e.1.1 e.1.2 '.') g

/-- A cell `(r', c')` lies at or after the cursor `(row, col)` in row-major
order. -/
def at_or_after (row col r' c' : Nat) : Prop :=
  row < r' ∨ (r' = row ∧ col ≤ c')

/-- A cell `(r', c')` lies strictly before the cell `(r, c)` in row-major
order. -/
def before (r c r' c' : Nat) : Prop :=
  r' < r ∨ (r' = r ∧ c' < c)

/-- Invariant of the move loops of a cycle when the cells of row-major index
below `i` have been visited: `s` is the pair `(moves, state of move)` with the
log of relocations. -/
structure PassInv (dim : Nat) (strength : Int) (grid : Grid) (i : Nat)
    (s : (Nat × MoveState) × List Reloc) : Prop where
  moves_eq : s.1.1 = s.2.length
  grid2_eq : s.1.2.grid2 = apply_log grid s.2 grid
  col_le : s.1.2.last_checked_col ≤ dim
  origin : ∀ e ∈ s.2, e.1.1 < dim ∧ e.1.2 < dim ∧ idx dim e.1 < i ∧
    unhappy dim strength grid e.1.1 e.1.2 = true
  target : ∀ e ∈ s.2, e.2.1 < dim ∧ e.2.2 < dim ∧ grid e.2.1 e.2.2 = '.' ∧
    idx dim e.2 < s.1.2.last_checked_row * dim + s.1.2.last_checked_col
  sorted : s.2.Pairwise (fun a b => idx dim a.1 < idx dim b.1 ∧ idx dim a.2 < idx dim b.2)

/-- What the invariant of the move loops says of the log alone: origins are
occupied cells of `grid`, targets are vacant cells of `grid`, and both are
listed in increasing row-major order. -/
structure LogOK (dim : Nat) (grid : Grid) (log : List Reloc) : Prop where
  origin : ∀ e ∈ log, e.1.1 < dim ∧ e.1.2 < dim ∧ (grid e.1.1 e.1.2 = 'n' ∨ grid e.1.1 e.1.2 = 'e')
  target : ∀ e ∈ log, e.2.1 < dim ∧ e.2.2 < dim ∧ grid e.2.1 e.2.2 = '.'
  sorted : log.Pairwise (fun a b => idx dim a.1 < idx dim b.1 ∧ idx dim a.2 < idx dim b.2)

/-- Where the log sends a cell: the target of the relocation whose origin it
is, or the cell itself when it is the origin of none. -/
def dest (log : List Reloc) (p : Nat × Nat) : Nat × Nat :=
  match log.find? (fun e => decide (e.1 = p)) with
  | some e => e.2
  | none => p

/-- The occupied cells of a `dim × dim` grid. -/
def occupied (dim : Nat) (g : Grid) : Set (Nat × Nat) :=
  {p | p.1 < dim ∧ p.2 < dim ∧ (g p.1 p.2 = 'e' ∨ g p.1 p.2 = 'n')}

/-- A `2 × 2` grid on which two agents are relocated in one cycle. -/
def two_movers : Grid := gridOfRows [['.', 'e'], ['n', '.']]

/-- The state of `move` in the cycle of `two_movers` with `strength = 50` when
the loops reach cell `(1, 0)`: the cells `(0, 0)` and `(0, 1)` have been
visited. -/
def two_movers_state : MoveState :=
  (visit 2 50 two_movers 0 1 (visit 2 50 two_movers 0 0 (0, ⟨two_movers, 0, 0⟩))).2

/-- A `3 × 3` grid whose only agents are in two opposite corners. -/
def corners : Grid := gridOfRows [['e', '.', '.'], ['.', '.', '.'], ['.', '.', 'n']]

/-- A `2 × 2` grid full of `'e'`. -/
def all_e : Grid := gridOfRows [['e', 'e'], ['e', 'e']]

/-- A grid standing for freshly allocated memory in the examples. -/
def unwritten : Grid := fun _ _ => ' '

/-- The offsets `(dr, dc)` with `dr, dc` in `{-1, 0, 1}` and `(dr, dc) ≠ (0, 0)`. -/
def offsets : List (Int × Int) :=
  (List.product [-1, 0, 1] [-1, 0, 1]).filter (fun d => decide (d ≠ (0, 0)))

/-- Reference definition: the positions `(row + dr, col + dc)` that lie inside
`[0, dim) × [0, dim)`. -/
def ref_neighbours (dim row col : Nat) : List (Int × Int) :=
  (offsets.map (fun d => ((row : Int) + d.1, (col : Int) + d.2))).filter
    (fun p => decide (0 ≤ p.1 ∧ p.1 < (dim : Int) ∧ 0 ≤ p.2 ∧ p.2 < (dim : Int)))

/-- Reference definition of `total`: the number of neighbours holding `'e'`
or `'n'`. -/
def ref_total (dim : Nat) (grid : Grid) (row col : Nat) : Nat :=
  (ref_neighbours dim row col).countP
    (fun p => decide (grid p.1.toNat p.2.toNat = 'e' ∨ grid p.1.toNat p.2.toNat = 'n'))

/-- Reference definition of `same`: the number of neighbours holding `'e'` or
`'n'` and the same character as `(row, col)`. -/
def ref_same (dim : Nat) (grid : Grid) (row col : Nat) : Nat :=
  (ref_neighbours dim row col).countP
    (fun p => decide ((grid p.1.toNat p.2.toNat = 'e' ∨ grid p.1.toNat p.2.toNat = 'n') ∧
      grid p.1.toNat p.2.toNat = grid row col))

/-- A `3 × 3` grid whose centre agent has two occupied neighbours, one of its
own type. -/
def half_happy : Grid := gridOfRows [['e', 'n', '.'], ['.', 'e', '.'], ['.', '.', '.']]

/-- A `2 × 2` grid with three agents and one vacancy. -/
def crowded : Grid := gridOfRows [['e', 'n'], ['n', '.']]

/-- The state of `move` in the cycle of `crowded` with `strength = 60` after
the cell `(0, 0)` has been visited: its agent has taken the only vacancy. -/
def crowded_state : MoveState := (visit 2 60 crowded 0 0 (0, ⟨crowded, 0, 0⟩)).2

/-! ## Machine integers -/

/-- The largest value of an `int`. -/
def INT_MAX : Int := 2147483647

/-- The `int` that holds the mathematical value `x` in 32-bit two's
complement. -/
def wrap32 (x : Int) : Int := (x + 2147483648) % 4294967296 - 2147483648

/-! ## `main` -/

/-- The constants `EXIT_SUCCESS` and `EXIT_FAILURE` of `stdlib.h`. -/
def EXIT_SUCCESS : Nat := 0

def EXIT_FAILURE : Nat := 1

/-- The constant `DEFAULT_DELAY` (line 22). -/
def DEFAULT_DELAY : Int := 900000

/-- The globals that the options set (lines 24-37). -/
structure Config where
  delay : Int
  max_cycle : Int
  use_infinite_mode : Bool
  dim : Int
  strength : Int
  percent_vacant : Int
  percent_endline : Int
  deriving DecidableEq, Repr

/-- The initial values of the globals; `max_cycle` has no initialiser and
starts at `0`. -/
def defaults : Config := ⟨DEFAULT_DELAY, 0, true, 15, 50, 20, 60⟩

/-- One result of `getopt(argc, argv, "ht:c:d:s:v:e:")` as the `switch` of
`main` sees it: the option letter, with the `long` value
`strtol(optarg, NULL, 10)` of its argument (a 64-bit `long`), or `none` when
`optarg` is `NULL`; `unknown` is the result `'?'`. -/
inductive Opt where
  | h
  | t (arg : Option Int)
  | c (arg : Option Int)
  | d (arg : Option Int)
  | s (arg : Option Int)
  | v (arg : Option Int)
  | e (arg : Option Int)
  | unknown
  deriving DecidableEq, Repr

/-- The `switch` of `main` (lines 410-502) for one option: the exit status
when the case returns, the updated globals when it ends in `break`. The
cast `(int)strtol(optarg, NULL, 10)` narrows the `long` to 32 bits
(`wrap32`) before the value is stored and tested. -/
def option_case (cfg : Config) : Opt → Except Nat Config
  | Opt.h => Except.error EXIT_FAILURE
  | Opt.t none => Except.error EXIT_FAILURE
  | Opt.t (some x) =>
    Except.ok ⟨if wrap32 x < 0 then DEFAULT_DELAY else wrap32 x, cfg.max_cycle,
      cfg.use_infinite_mode, cfg.dim, cfg.strength, cfg.percent_vacant, cfg.percent_endline⟩
  | Opt.c none => Except.error EXIT_FAILURE
  | Opt.c (some x) =>
    if wrap32 x < 0 then Except.error (1 + EXIT_FAILURE)
    else Except.ok ⟨cfg.delay, wrap32 x, false, cfg.dim, cfg.strength, cfg.percent_vacant,
      cfg.percent_endline⟩
  | Opt.d none => Except.error EXIT_FAILURE
  | Opt.d (some x) =>
    if wrap32 x < 5 ∨ wrap32 x > 39 then Except.error (1 + EXIT_FAILURE)
    else Except.ok ⟨cfg.delay, cfg.max_cycle, cfg.use_infinite_mode, wrap32 x, cfg.strength,
      cfg.percent_vacant, cfg.percent_endline⟩
  | Opt.s none => Except.error EXIT_FAILURE
  | Opt.s (some x) =>
    if wrap32 x < 1 ∨ wrap32 x > 99 then Except.error (1 + EXIT_FAILURE)
    else Except.ok ⟨cfg.delay, cfg.max_cycle, cfg.use_infinite_mode, cfg.dim, wrap32 x,
      cfg.percent_vacant, cfg.percent_endline⟩
  | Opt.v none => Except.error EXIT_FAILURE
  | Opt.v (some x) =>
    if wrap32 x < 1 ∨ wrap32 x > 99 then Except.error (1 + EXIT_FAILURE)
    else Except.ok ⟨cfg.delay, cfg.max_cycle, cfg.use_infinite_mode, cfg.dim, cfg.strength,
      wrap32 x, cfg.percent_endline⟩
  | Opt.e none => Except.error EXIT_FAILURE
  | Opt.e (some x) =>
    if wrap32 x < 1 ∨ wrap32 x > 99 then Except.error (1 + EXIT_FAILURE)
    else Except.ok ⟨cfg.delay, cfg.max_cycle, cfg.use_infinite_mode, cfg.dim, cfg.strength,
      cfg.percent_vacant, wrap32 x⟩
  | Opt.unknown => Except.error EXIT_FAILURE

/-- The `while` loop of `main` (line 409) over the successive results of
`getopt`. -/
def getopt_loop (cfg : Config) : List Opt → Except Nat Config
  | [] => Except.ok cfg
  | o :: rest =>
    match option_case cfg o with
    | Except.error status => Except.error status
    | Except.ok cfg1 => getopt_loop cfg1 rest

/-- The function `main` (lines 405-520): its exit status, and the values of
the globals with which `get_initial_grid` and then `infinite_mode` or
`print_mode` are called; `none` when `main` returns from the option loop, so
that no grid is created and no cycle is run. The status `EXIT_SUCCESS` is
returned when the mode function returns. -/
def main (opts : List Opt) : Nat × Option Config :=
  match getopt_loop defaults opts with
  | Except.error status => (status, none)
  | Except.ok cfg => (EXIT_SUCCESS, some cfg)

/-- Reference definition: a numeric option whose value is out of range
(`-c` negative, `-d` outside `[5, 39]`, `-s`, `-v` or `-e` outside
`[1, 99]`). -/
def out_of_range : Opt → Bool
  | Opt.c (some x) => decide (x < 0)
  | Opt.d (some x) => decide (x < 5 ∨ 39 < x)
  | Opt.s (some x) => decide (x < 1 ∨ 99 < x)
  | Opt.v (some x) => decide (x < 1 ∨ 99 < x)
  | Opt.e (some x) => decide (x < 1 ∨ 99 < x)
  | _ => false

/-- Reference definition: a numeric option whose value is inside its range;
`-t` has no range. -/
def in_range : Opt → Bool
  | Opt.t (some _) => true
  | Opt.c (some x) => decide (0 ≤ x)
  | Opt.d (some x) => decide (5 ≤ x ∧ x ≤ 39)
  | Opt.s (some x) => decide (1 ≤ x ∧ x ≤ 99)
  | Opt.v (some x) => decide (1 ≤ x ∧ x ≤ 99)
  | Opt.e (some x) => decide (1 ≤ x ∧ x ≤ 99)
  | _ => false

/-- The option with its value as the program holds it after the cast
`(int)`. -/
def Opt.narrow : Opt → Opt
  | Opt.t (some x) => Opt.t (some (wrap32 x))
  | Opt.c (some x) => Opt.c (some (wrap32 x))
  | Opt.d (some x) => Opt.d (some (wrap32 x))
  | Opt.s (some x) => Opt.s (some (wrap32 x))
  | Opt.v (some x) => Opt.v (some (wrap32 x))
  | Opt.e (some x) => Opt.e (some (wrap32 x))
  | o => o

/-- The value of the option, when it has one, is representable as an
`int`. -/
def fits_int : Opt → Bool
  | Opt.t (some x) => decide (-2147483648 ≤ x ∧ x ≤ 2147483647)
  | Opt.c (some x) => decide (-2147483648 ≤ x ∧ x ≤ 2147483647)
  | Opt.d (some x) => decide (-2147483648 ≤ x ∧ x ≤ 2147483647)
  | Opt.s (some x) => decide (-2147483648 ≤ x ∧ x ≤ 2147483647)
  | Opt.v (some x) => decide (-2147483648 ≤ x ∧ x ≤ 2147483647)
  | Opt.e (some x) => decide (-2147483648 ≤ x ∧ x ≤ 2147483647)
  | _ => true

/-- The ranges in which `main` keeps the globals. -/
def Config.valid (cfg : Config) : Prop :=
  0 ≤ cfg.delay ∧ 0 ≤ cfg.max_cycle ∧ 5 ≤ cfg.dim ∧ cfg.dim ≤ 39 ∧
  1 ≤ cfg.strength ∧ cfg.strength ≤ 99 ∧ 1 ≤ cfg.percent_vacant ∧ cfg.percent_vacant ≤ 99 ∧
  1 ≤ cfg.percent_endline ∧ cfg.percent_endline ≤ 99

/-! ## `print_mode` -/

/-- The body of the printing loops (lines 247-250) on the pair
`(total_happiness, total_people)`. -/
def stats_body (dim : Nat) (grid : Grid) (j k : Nat) (s : Fp × Nat) : Fp × Nat :=
  if grid j k ≠ '.' then (Fp.add FLT s.1 (check_neighbors dim grid j k), s.2 + 1) else s

/-- The values of `total_happiness` and `total_people` after the printing
loops (lines 241-253). -/
def stats (dim : Nat) (grid : Grid) : Fp × Nat :=
  forLoop dim (fun j s => forLoop dim (fun k s => stats_body dim grid j k s) s)
    (Fp.ofInt FLT 0, 0)

/-- The value of `total_people` after the printing loops. -/
def total_people (dim : Nat) (grid : Grid) : Nat := (stats dim grid).2

/-- The number printed as the teams' happiness (lines 257-261): the `float`
quotient `total_happiness/total_people`, or the constant `0.0` of the `else`
branch. -/
inductive Happiness where
  | mean (value : Fp)
  | zero
  deriving DecidableEq, Repr

/-- The `if` of lines 257-261. -/
def happiness_line (dim : Nat) (grid : Grid) : Happiness :=
  if (stats dim grid).2 ≠ 0 then
    Happiness.mean (Fp.div FLT (stats dim grid).1 (Fp.ofInt FLT (stats dim grid).2))
  else Happiness.zero

/-- What one iteration of the cycle loop renders: the grid, the cycle index,
the count of moves and the happiness. -/
structure Frame where
  grid : Grid
  cycle : Int
  moves : Nat
  happiness : Happiness

/-- The cycle loop of `print_mode` (line 237) with `fuel` iterations allowed,
standing at the index `i` with the variable `moves` and the grid `grid`: the
frames rendered, and whether the loop has ended (so that `print_mode`
returns) within these iterations. The increment `i++` is taken in 32-bit two's
complement. -/
def print_loop (dim : Nat) (strength : Int) (max_cycle : Int) :
    Nat → Int → Nat → Grid → List Frame × Bool
  | 0, _, _, _ => ([], false)
  | fuel + 1, i, shown, grid =>
    if i ≤ max_cycle then
      let rest := print_loop dim strength max_cycle fuel (wrap32 (i + 1))
        (moves dim strength grid) (next_grid dim strength grid)
      (⟨grid, i, shown, happiness_line dim grid⟩ :: rest.1, rest.2)
    else ([], true)

/-- The function `print_mode` (lines 234-305), with `fuel` iterations of its
cycle loop allowed. -/
def print_mode (dim : Nat) (strength : Int) (max_cycle : Int) (fuel : Nat) (grid : Grid) :
    List Frame × Bool :=
  print_loop dim strength max_cycle fuel 0 0 grid

/-- The value of `moves` printed in cycle `i`: `0` in cycle `0`, then the
number of relocations of the cycle before. -/
def shown_moves (dim : Nat) (strength : Int) (grid : Grid) : Nat → Nat
  | 0 => 0
  | i + 1 => moves dim strength (grid_at dim strength grid i)

/-- Reference definition: the frame of cycle `i` of a run that starts from
`grid`. -/
def frame_at (dim : Nat) (strength : Int) (grid : Grid) (i : Nat) : Frame :=
  ⟨grid_at dim strength grid i, i, shown_moves dim strength grid i,
    happiness_line dim (grid_at dim strength grid i)⟩

/-! ## The two grids of a cycle -/

/-- The memory a cycle works on: the block of the pre-cycle grid `*grid`, the
block of the new grid `*grid2`, and the two cursor globals. -/
structure Mem where
  grid : Grid
  grid2 : Grid
  last_checked_row : Nat
  last_checked_col : Nat

/-- The function `move` (lines 134-151) acting on the memory: it reads
`(*grid)` and writes `(*grid2)` and the cursor. -/
def move_mem (dim : Nat) (m : Mem) (old_row old_col : Nat) : Nat × Mem :=
  match scanRows m.grid dim (dim - m.last_checked_row) m.last_checked_row
      m.last_checked_col with
  | Scan.found r c =>
    (1, ⟨m.grid, (m.grid2.set r c (m.grid old_row old_col)).set old_row old_col '.', r, c + 1⟩)
  | Scan.exhausted r c => (0, ⟨m.grid, m.grid2, r, c⟩)

/-- What is observed of the move loops: the cells for which `move` is called,
and the happiness computed at line 291 for each cell it is computed for, in
the order of the loops. -/
structure Trace where
  attempts : List (Nat × Nat)
  readings : List ((Nat × Nat) × Fp)

/-- The body of the move loops (lines 290-294) acting on the memory, with the
trace: `current` and the happiness are read from the memory as it is when the
cell is visited. -/
def visit_mem (dim : Nat) (strength : Int) (j k : Nat) (s : (Nat × Mem) × Trace) :
    (Nat × Mem) × Trace :=
  let current := s.1.2.grid j k
  if current = 'n' ∨ current = 'e' then
    let h := check_neighbors dim s.1.2.grid j k
    if Fp.lt h (threshold strength) = true then
      let r := move_mem dim s.1.2 j k
      ((s.1.1 + r.1, r.2), ⟨s.2.attempts ++ [(j, k)], s.2.readings ++ [((j, k), h)]⟩)
    else (s.1, ⟨s.2.attempts, s.2.readings ++ [((j, k), h)]⟩)
  else s

/-- Move resolution of one cycle acting on the memory (lines 238-239 and
267-296): `grid2` starts as a copy of `grid`. -/
def resolve_mem (dim : Nat) (strength : Int) (grid : Grid) : (Nat × Mem) × Trace :=
  forLoop dim (fun j s => forLoop dim (fun k s => visit_mem dim strength j k s) s)
    ((0, ⟨grid, grid, 0, 0⟩), ⟨[], []⟩)

/-- The cell of row-major index `i`. -/
def cell (dim i : Nat) : Nat × Nat := (i / dim, i % dim)

/-- The first `n` cells in row-major order. -/
def positions (dim n : Nat) : List (Nat × Nat) := (List.range n).map (cell dim)

/-- Relation between a state of the loops on the memory and a state of the
loops of `resolve`, and what the trace holds when the first `i` cells have
been visited. -/
structure MemInv (dim : Nat) (strength : Int) (grid : Grid) (i : Nat)
    (s : (Nat × Mem) × Trace) (t : Nat × MoveState) : Prop where
  frozen : s.1.2.grid = grid
  moves_eq : s.1.1 = t.1
  grid2_eq : s.1.2.grid2 = t.2.grid2
  row_eq : s.1.2.last_checked_row = t.2.last_checked_row
  col_eq : s.1.2.last_checked_col = t.2.last_checked_col
  attempts_eq : s.2.attempts =
    (positions dim i).filter (fun p => unhappy dim strength grid p.1 p.2)
  readings_eq : s.2.readings =
    ((positions dim i).filter (fun p => decide (grid p.1 p.2 = 'n' ∨ grid p.1 p.2 = 'e'))).map
      (fun p => (p, check_neighbors dim grid p.1 p.2))

/-! ## The closed form of a cycle -/

/-- Reference definition: the cells that are unhappy in `grid`, in row-major
order. -/
def unhappy_cells (dim : Nat) (strength : Int) (grid : Grid) : List (Nat × Nat) :=
  (positions dim (dim * dim)).filter (fun p => unhappy dim strength grid p.1 p.2)

/-- Reference definition: the vacant cells of `grid`, in row-major order. -/
def vacant_cells (dim : Nat) (grid : Grid) : List (Nat × Nat) :=
  (positions dim (dim * dim)).filter (fun p => decide (grid p.1 p.2 = '.'))

/-- Reference definition: the naive pairing of the `k`-th unhappy cell with
the `k`-th vacant cell. -/
def naive_pairing (dim : Nat) (strength : Int) (grid : Grid) : List Reloc :=
  List.zip (unhappy_cells dim strength grid) (vacant_cells dim grid)

/-- Invariant of the move loops for the closed form, when the first `i` cells
have been visited: the log pairs the unhappy cells met so far with the first
vacant cells, and the vacant cells before the cursor are the ones taken. -/
structure ZipInv (dim : Nat) (strength : Int) (grid : Grid) (i : Nat)
    (s : (Nat × MoveState) × List Reloc) : Prop where
  log_eq : s.2 = List.zip ((positions dim i).filter (fun p => unhappy dim strength grid p.1 p.2))
    (vacant_cells dim grid)
  taken : ((positions dim (s.1.2.last_checked_row * dim + s.1.2.last_checked_col)).filter
    (fun p => decide (grid p.1 p.2 = '.'))).length = s.2.length
  cur_le : s.1.2.last_checked_row * dim + s.1.2.last_checked_col ≤ dim * dim
  col_le : s.1.2.last_checked_col ≤ dim

/-! ## Bounds-checked accesses -/

/-- The read `(*grid)[r][c]` with its bounds checked: `none` when `r` or `c`
is outside `[0, dim)`. -/
def grid_read (dim : Nat) (grid : Grid) (r c : Int) : Option Char :=
  if 0 ≤ r ∧ r < (dim : Int) ∧ 0 ≤ c ∧ c < (dim : Int) then some (grid r.toNat c.toNat)
  else none

/-- The assignment `(*grid)[r][c] = v` with its bounds checked. -/
def grid_write (dim : Nat) (grid : Grid) (r c : Int) (v : Char) : Option Grid :=
  if 0 ≤ r ∧ r < (dim : Int) ∧ 0 ≤ c ∧ c < (dim : Int) then some (grid.set r.toNat c.toNat v)
  else none

/-- One of the eight `if` statements of `check_neighbors` with checked reads:
the cell `(r, c)` is read only when the guard (the conjuncts before it in the
`&&` chain) holds. -/
def tally_checked (dim : Nat) (grid : Grid) (value : Char) (guard : Bool) (r c : Int)
    (ts : Nat × Nat) : Option (Nat × Nat) :=
  if guard = true then
    match grid_read dim grid r c with
    | none => none
    | some nb =>
      some (if nb = 'e' ∨ nb = 'n' then (ts.1 + 1, if nb = value then ts.2 + 1 else ts.2)
        else ts)
  else some ts

/-- The pair `(total, same)` of `check_neighbors` with checked reads, the
arguments `row` and `col` being any `int`s. -/
def neighbor_counts_checked (dim : Nat) (grid : Grid) (row col : Int) : Option (Nat × Nat) :=
  (grid_read dim grid row col).bind fun value =>
  (tally_checked dim grid value (decide (row - 1 ≥ 0 ∧ col - 1 ≥ 0)) (row - 1) (col - 1)
    (0, 0)).bind fun ts =>
  (tally_checked dim grid value (decide (row - 1 ≥ 0)) (row - 1) col ts).bind fun ts =>
  (tally_checked dim grid value (decide (row - 1 ≥ 0 ∧ col + 1 < (dim : Int))) (row - 1) (col + 1)
    ts).bind fun ts =>
  (tally_checked dim grid value (decide (col - 1 ≥ 0)) row (col - 1) ts).bind fun ts =>
  (tally_checked dim grid value (decide (col + 1 < (dim : Int))) row (col + 1) ts).bind fun ts =>
  (tally_checked dim grid value (decide (row + 1 < (dim : Int) ∧ col - 1 ≥ 0)) (row + 1) (col - 1)
    ts).bind fun ts =>
  (tally_checked dim grid value (decide (row + 1 < (dim : Int))) (row + 1) col ts).bind fun ts =>
  tally_checked dim grid value (decide (row + 1 < (dim : Int) ∧ col + 1 < (dim : Int))) (row + 1)
    (col + 1) ts

/-- The function `check_neighbors` with checked reads. -/
def check_neighbors_checked (dim : Nat) (grid : Grid) (row col : Int) : Option Fp :=
  (neighbor_counts_checked dim grid row col).map fun ts =>
    if ts.1 = 0 then Fp.ofInt FLT 1
    else Fp.div FLT (Fp.ofInt FLT ts.2) (Fp.ofInt FLT ts.1)

/-- The inner loop of `move` with checked reads, with `n` iterations left. -/
def scanCols_checked (dim : Nat) (grid : Grid) (row : Nat) : Nat → Nat → Option (Option Nat)
  | 0, _ => some none
  | n + 1, col =>
    match grid_read dim grid row col with
    | none => none
    | some ch => if ch = '.' then some (some col) else scanCols_checked dim grid row n (col + 1)

/-- The outer loop of `move` with checked reads, with `n` iterations left. -/
def scanRows_checked (dim : Nat) (grid : Grid) : Nat → Nat → Nat → Option Scan
  | 0, row, col => some (Scan.exhausted row col)
  | n + 1, row, col =>
    match scanCols_checked dim grid row (dim - col) col with
    | none => none
    | some (some c) => some (Scan.found row c)
    | some none => scanRows_checked dim grid n (row + 1) 0

/-- The function `move` with checked reads and writes. -/
def move_checked (dim : Nat) (grid : Grid) (st : MoveState) (old_row old_col : Nat) :
    Option (Nat × MoveState) :=
  match scanRows_checked dim grid (dim - st.last_checked_row) st.last_checked_row
      st.last_checked_col with
  | none => none
  | some (Scan.found r c) =>
    (grid_read dim grid old_row old_col).bind fun v =>
    (grid_write dim st.grid2 r c v).bind fun g1 =>
    (grid_write dim g1 old_row old_col '.').bind fun g2 =>
    some (1, ⟨g2, r, c + 1⟩)
  | some (Scan.exhausted r c) => some (0, ⟨st.grid2, r, c⟩)

/-- The cursor lies in `[0, dim] × [0, dim]`. -/
def cursor_ok (dim : Nat) (st : MoveState) : Bool :=
  decide (st.last_checked_row ≤ dim ∧ st.last_checked_col ≤ dim)

/-- The body of the move loops with checked accesses; the cursor is checked
at the entry to and at the exit from `move`. -/
def visit_checked (dim : Nat) (strength : Int) (grid : Grid) (j k : Nat)
    (s : Nat × MoveState) : Option (Nat × MoveState) :=
  (grid_read dim grid j k).bind fun current =>
  if current = 'n' ∨ current = 'e' then
    (check_neighbors_checked dim grid j k).bind fun h =>
    if Fp.lt h (threshold strength) = true then
      if cursor_ok dim s.2 = true then
        (move_checked dim grid s.2 j k).bind fun r =>
        if cursor_ok dim r.2 = true then some (s.1 + r.1, r.2) else none
      else none
    else some s
  else some s

/-- Move resolution of one cycle with checked accesses. -/
def resolve_checked (dim : Nat) (strength : Int) (grid : Grid) : Option (Nat × MoveState) :=
  forLoop dim (fun j s => forLoop dim (fun k s =>
    s.bind (visit_checked dim strength grid j k)) s) (some (0, ⟨grid, 0, 0⟩))

/-! # Lemmas -/

/-! ## Loops -/

theorem forLoop_induction {σ : Type} (P : Nat → σ → Prop) (n : Nat)
    (body : Nat → σ → σ) (s : σ) (h0 : P 0 s)
    (hstep : ∀ i, i < n → ∀ t, P i t → P (i + 1) (body i t)) :
    P n (forLoop n body s) := by
  induction n with
  | zero => exact h0
  | succ m ih =>
    exact hstep m (Nat.lt_succ_self m) _
      (ih (fun i hi t ht => hstep i (Nat.lt_succ_of_lt hi) t ht))

/-- Invariant rule for the row-major double loop: `P i s` reads "the cells of
row-major index below `i` have been visited and the state is `s`". -/
theorem forLoop2_induction {σ : Type} (P : Nat → σ → Prop) (dim : Nat)
    (body : Nat → Nat → σ → σ) (s : σ) (h0 : P 0 s)
    (hstep : ∀ j k, j < dim → k < dim → ∀ t, P (j * dim + k) t →
      P (j * dim + k + 1) (body j k t)) :
    P (dim * dim) (forLoop dim (fun j t => forLoop dim (fun k t => body j k t) t) s) := by
  refine forLoop_induction (fun j t => P (j * dim) t) dim _ s (by simpa using h0) ?_
  intro j hj t ht
  have h := forLoop_induction (fun k u => P (j * dim + k) u) dim
    (fun k u => body j k u) t (by simpa using ht)
    (fun k hk u hu => hstep j k hj hk u hu)
  have e : (j + 1) * dim = j * dim + dim := by ring
  simpa [e] using h

/-! ## Writes -/

theorem Grid.set_same (g : Grid) (r c : Nat) (v : Char) : (g.set r c v) r c = v := by
  simp [Grid.set]

theorem Grid.set_other (g : Grid) (r c r' c' : Nat) (v : Char)
    (h : ¬ (r' = r ∧ c' = c)) : (g.set r c v) r' c' = g r' c' := by
  simp [Grid.set, h]

/-! ## The vacancy scan of `move` -/

theorem scanCols_some (grid : Grid) (row : Nat) :
    ∀ (n col c : Nat), scanCols grid row n col = some c →
      col ≤ c ∧ c < col + n ∧ grid row c = '.' ∧
        ∀ c', col ≤ c' → c' < c → grid row c' ≠ '.' := by
  intro n
  induction n with
  | zero => intro col c h; simp [scanCols] at h
  | succ m ih =>
    intro col c h
    unfold scanCols at h
    by_cases hv : grid row col = '.'
    · rw [if_pos hv] at h
      have hc : col = c := Option.some.inj h
      subst hc
      exact ⟨le_refl _, by omega, hv, fun c' h1 h2 => absurd h1 (by omega)⟩
    · rw [if_neg hv] at h
      obtain ⟨h1, h2, h3, h4⟩ := ih (col + 1) c h
      refine ⟨by omega, by omega, h3, ?_⟩
      intro c' hc1 hc2
      by_cases hcc : c' = col
      · subst hcc; exact hv
      · exact h4 c' (by omega) hc2

theorem scanCols_none (grid : Grid) (row : Nat) :
    ∀ (n col : Nat), scanCols grid row n col = none →
      ∀ c', col ≤ c' → c' < col + n → grid row c' ≠ '.' := by
  intro n
  induction n with
  | zero => intro col _ c' h1 h2; omega
  | succ m ih =>
    intro col h c' h1 h2
    unfold scanCols at h
    by_cases hv : grid row col = '.'
    · rw [if_pos hv] at h; cases h
    · rw [if_neg hv] at h
      by_cases hcc : c' = col
      · subst hcc; exact hv
      · exact ih (col + 1) h c' (by omega) (by omega)

theorem scanRows_found (grid : Grid) (dim : Nat) :
    ∀ (n row col r c : Nat), scanRows grid dim n row col = Scan.found r c →
      row ≤ r ∧ r < row + n ∧ c < dim ∧ grid r c = '.' ∧ at_or_after row col r c ∧
        ∀ r' c', c' < dim → at_or_after row col r' c' → before r c r' c' →
          grid r' c' ≠ '.' := by
  intro n
  induction n with
  | zero => intro row col r c h; simp [scanRows] at h
  | succ m ih =>
    intro row col r c h
    unfold scanRows at h
    cases hs : scanCols grid row (dim - col) col with
    | some c0 =>
      rw [hs] at h
      simp only [Scan.found.injEq] at h
      obtain ⟨hr, hc⟩ := h
      subst hr; subst hc
      obtain ⟨h1, h2, h3, h4⟩ := scanCols_some grid row _ _ _ hs
      refine ⟨le_refl _, by omega, by omega, h3, Or.inr ⟨rfl, h1⟩, ?_⟩
      intro r' c' _ ha hb
      rcases ha with ha | ⟨ha1, ha2⟩
      · rcases hb with hb | ⟨hb1, _⟩ <;> omega
      · subst ha1
        rcases hb with hb | ⟨_, hb2⟩
        · omega
        · exact h4 c' ha2 hb2
    | none =>
      rw [hs] at h
      simp only at h
      obtain ⟨h1, h2, h3, h4, h5, h6⟩ := ih (row + 1) 0 r c h
      refine ⟨by omega, by omega, h3, h4, Or.inl (by omega), ?_⟩
      intro r' c' hc' ha hb
      rcases ha with ha | ⟨ha1, ha2⟩
      · exact h6 r' c' hc' (by unfold at_or_after; omega) hb
      · subst ha1
        exact scanCols_none grid r' _ _ hs c' ha2 (by omega)

theorem scanRows_exhausted (grid : Grid) (dim : Nat) :
    ∀ (n row col r c : Nat), scanRows grid dim n row col = Scan.exhausted r c →
      ((n = 0 ∧ r = row ∧ c = col) ∨ (0 < n ∧ r = row + n ∧ c = 0)) ∧
        ∀ r' c', c' < dim → r' < row + n → at_or_after row col r' c' →
          grid r' c' ≠ '.' := by
  intro n
  induction n with
  | zero =>
    intro row col r c h
    simp only [scanRows, Scan.exhausted.injEq] at h
    refine ⟨Or.inl ⟨rfl, h.1.symm, h.2.symm⟩, ?_⟩
    intro r' c' _ h1 h2
    rcases h2 with h2 | ⟨h2, _⟩ <;> omega
  | succ m ih =>
    intro row col r c h
    unfold scanRows at h
    cases hs : scanCols grid row (dim - col) col with
    | some c0 => rw [hs] at h; simp at h
    | none =>
      rw [hs] at h
      simp only at h
      obtain ⟨h1, h2⟩ := ih (row + 1) 0 r c h
      refine ⟨Or.inr ⟨by omega, by omega, by omega⟩, ?_⟩
      intro r' c' hc' hr' ha
      rcases ha with ha | ⟨ha1, ha2⟩
      · exact h2 r' c' hc' (by omega) (by unfold at_or_after; omega)
      · subst ha1
        exact scanCols_none grid r' _ _ hs c' ha2 (by omega)

/-- Row-major order of cells of the grid, in terms of the index. -/
theorem idx_le_of_at_or_after (dim row col r c : Nat) (hcol : col ≤ dim)
    (h : at_or_after row col r c) : row * dim + col ≤ r * dim + c := by
  rcases h with h | ⟨h1, h2⟩
  · have : (row + 1) * dim ≤ r * dim := Nat.mul_le_mul_right dim h
    have e : (row + 1) * dim = row * dim + dim := by ring
    omega
  · subst h1; omega

theorem at_or_after_of_idx_le (dim row col r c : Nat) (hc : c < dim)
    (h : row * dim + col ≤ r * dim + c) : at_or_after row col r c := by
  unfold at_or_after
  by_cases h1 : row < r
  · exact Or.inl h1
  · by_cases h2 : r = row
    · subst h2; exact Or.inr ⟨rfl, by omega⟩
    · exfalso
      have h3 : r + 1 ≤ row := by omega
      have : (r + 1) * dim ≤ row * dim := Nat.mul_le_mul_right dim h3
      have e : (r + 1) * dim = r * dim + dim := by ring
      omega

theorem before_of_idx_lt (dim r c r' c' : Nat) (hc : c < dim)
    (h : r' * dim + c' < r * dim + c) : before r c r' c' := by
  unfold before
  by_cases h1 : r' < r
  · exact Or.inl h1
  · by_cases h2 : r' = r
    · subst h2; exact Or.inr ⟨rfl, by omega⟩
    · exfalso
      have h3 : r + 1 ≤ r' := by omega
      have : (r + 1) * dim ≤ r' * dim := Nat.mul_le_mul_right dim h3
      have e : (r + 1) * dim = r * dim + dim := by ring
      omega

/-- The index determines the cell. -/
theorem idx_inj (dim r c r' c' : Nat) (hc : c < dim) (hc' : c' < dim)
    (h : r * dim + c = r' * dim + c') : r = r' ∧ c = c' := by
  have h1 := at_or_after_of_idx_le dim r c r' c' hc' (le_of_eq h)
  have h2 := at_or_after_of_idx_le dim r' c' r c hc (le_of_eq h.symm)
  unfold at_or_after at h1 h2
  omega

/-! ## `move` -/

theorem move_of_target_some (dim : Nat) (grid : Grid) (st : MoveState)
    (old_row old_col r c : Nat) (h : move_target dim grid st = some (r, c)) :
    move dim grid st old_row old_col =
      (1, ⟨(st.grid2.set r c (grid old_row old_col)).set old_row old_col '.', r, c + 1⟩) := by
  unfold move_target at h
  unfold move
  cases hs : scanRows grid dim (dim - st.last_checked_row) st.last_checked_row
      st.last_checked_col with
  | found r0 c0 =>
    rw [hs] at h
    simp only [Option.some.injEq, Prod.mk.injEq] at h
    obtain ⟨h1, h2⟩ := h
    subst h1; subst h2
    rfl
  | exhausted r0 c0 => rw [hs] at h; simp at h

theorem move_of_target_none (dim : Nat) (grid : Grid) (st : MoveState)
    (old_row old_col : Nat) (h : move_target dim grid st = none) :
    (move dim grid st old_row old_col).1 = 0 ∧
      (move dim grid st old_row old_col).2.grid2 = st.grid2 := by
  unfold move_target at h
  unfold move
  cases hs : scanRows grid dim (dim - st.last_checked_row) st.last_checked_row
      st.last_checked_col with
  | found r0 c0 => rw [hs] at h; simp at h
  | exhausted r0 c0 => exact ⟨rfl, rfl⟩

/-- What `move` finds: an in-bounds cell that is vacant in `grid`, at or after
the cursor, with no vacant cell of `grid` between the cursor and it. -/
theorem move_target_spec (dim : Nat) (grid : Grid) (st : MoveState) (r c : Nat)
    (h : move_target dim grid st = some (r, c)) :
    r < dim ∧ c < dim ∧ grid r c = '.' ∧
      at_or_after st.last_checked_row st.last_checked_col r c ∧
      ∀ r' c', c' < dim → at_or_after st.last_checked_row st.last_checked_col r' c' →
        before r c r' c' → grid r' c' ≠ '.' := by
  unfold move_target at h
  cases hs : scanRows grid dim (dim - st.last_checked_row) st.last_checked_row
      st.last_checked_col with
  | found r0 c0 =>
    rw [hs] at h
    simp only [Option.some.injEq, Prod.mk.injEq] at h
    obtain ⟨h1, h2⟩ := h
    subst h1; subst h2
    obtain ⟨h1, h2, h3, h4, h5, h6⟩ := scanRows_found grid dim _ _ _ _ _ hs
    exact ⟨by omega, h3, h4, h5, h6⟩
  | exhausted r0 c0 => rw [hs] at h; simp at h

/-- A failed call of `move` leaves a cursor that is not earlier than before. -/
theorem move_none_cursor (dim : Nat) (grid : Grid) (st : MoveState)
    (old_row old_col : Nat) (hcol : st.last_checked_col ≤ dim)
    (h : move_target dim grid st = none) :
    (move dim grid st old_row old_col).2.last_checked_col ≤ dim ∧
      st.last_checked_row * dim + st.last_checked_col ≤
        (move dim grid st old_row old_col).2.last_checked_row * dim +
          (move dim grid st old_row old_col).2.last_checked_col := by
  unfold move_target at h
  unfold move
  cases hs : scanRows grid dim (dim - st.last_checked_row) st.last_checked_row
      st.last_checked_col with
  | found r0 c0 => rw [hs] at h; simp at h
  | exhausted r0 c0 =>
    obtain ⟨h1, _⟩ := scanRows_exhausted grid dim _ _ _ _ _ hs
    simp only
    rcases h1 with ⟨_, h2, h3⟩ | ⟨h1, h2, h3⟩
    · subst h2; subst h3; exact ⟨hcol, le_refl _⟩
    · subst h2; subst h3
      refine ⟨Nat.zero_le _, ?_⟩
      have : (st.last_checked_row + 1) * dim ≤
          (st.last_checked_row + (dim - st.last_checked_row)) * dim :=
        Nat.mul_le_mul_right dim (by omega)
      have e : (st.last_checked_row + 1) * dim = st.last_checked_row * dim + dim := by ring
      omega

/-! ## The move loops -/

theorem forLoop_fst {σ τ : Type} (n : Nat) (body : Nat → σ → σ)
    (body' : Nat → σ × τ → σ × τ) (h : ∀ i s, (body' i s).1 = body i s.1) (s : σ × τ) :
    (forLoop n body' s).1 = forLoop n body s.1 := by
  induction n with
  | zero => rfl
  | succ m ih => simp only [forLoop]; rw [h, ih]

/-- Forgetting the log, the logged loops are the loops of `resolve`. -/
theorem resolve_log_fst (dim : Nat) (strength : Int) (grid : Grid) :
    (resolve_log dim strength grid).1 = resolve dim strength grid := by
  unfold resolve_log resolve
  refine forLoop_fst dim _ _ ?_ _
  intro j s
  exact forLoop_fst dim _ _ (fun k t => rfl) s

theorem passInv_step (dim : Nat) (strength : Int) (grid : Grid) (j k : Nat)
    (hj : j < dim) (hk : k < dim) (s : (Nat × MoveState) × List Reloc)
    (h : PassInv dim strength grid (j * dim + k) s) :
    PassInv dim strength grid (j * dim + k + 1) (visit_log dim strength grid j k s) := by
  unfold visit_log visit
  by_cases hu : unhappy dim strength grid j k = true
  · simp only [hu, if_true]
    cases ht : move_target dim grid s.1.2 with
    | none =>
      obtain ⟨m1, m2⟩ := move_of_target_none dim grid s.1.2 j k ht
      obtain ⟨c1, c2⟩ := move_none_cursor dim grid s.1.2 j k h.col_le ht
      refine ⟨?_, ?_, c1, ?_, ?_, h.sorted⟩
      · simp only [m1]; exact h.moves_eq
      · simp only [m2]; exact h.grid2_eq
      · intro e he
        obtain ⟨a, b, c, d⟩ := h.origin e he
        exact ⟨a, b, by omega, d⟩
      · intro e he
        obtain ⟨a, b, c, d⟩ := h.target e he
        exact ⟨a, b, c, by simp only; omega⟩
    | some t =>
      obtain ⟨r, c⟩ := t
      have hm := move_of_target_some dim grid s.1.2 j k r c ht
      obtain ⟨t1, t2, t3, t4, _⟩ := move_target_spec dim grid s.1.2 r c ht
      have hle := idx_le_of_at_or_after dim _ _ r c h.col_le t4
      simp only [hm]
      refine ⟨?_, ?_, by simp only; omega, ?_, ?_, ?_⟩
      · simp only [List.length_append, List.length_singleton]
        rw [h.moves_eq]
      · simp only [apply_log, List.foldl_append, List.foldl_cons, List.foldl_nil]
        rw [h.grid2_eq]
        rfl
      · intro e he
        rcases List.mem_append.1 he with he | he
        · obtain ⟨a, b, c, d⟩ := h.origin e he
          exact ⟨a, b, by omega, d⟩
        · rw [List.mem_singleton] at he
          subst he
          exact ⟨hj, hk, by simp [idx], hu⟩
      · intro e he
        rcases List.mem_append.1 he with he | he
        · obtain ⟨a, b, c, d⟩ := h.target e he
          exact ⟨a, b, c, by simp only; omega⟩
        · rw [List.mem_singleton] at he
          subst he
          exact ⟨t1, t2, t3, by simp only [idx]; omega⟩
      · rw [List.pairwise_append]
        refine ⟨h.sorted, List.pairwise_singleton _ _, ?_⟩
        intro a ha b hb
        rw [List.mem_singleton] at hb
        subst hb
        obtain ⟨_, _, o3, _⟩ := h.origin a ha
        obtain ⟨_, _, _, g4⟩ := h.target a ha
        exact ⟨by simp only [idx] at o3 ⊢; omega, by simp only [idx] at g4 ⊢; omega⟩
  · simp only [hu]
    refine ⟨h.moves_eq, h.grid2_eq, h.col_le, ?_, h.target, h.sorted⟩
    intro e he
    obtain ⟨a, b, c, d⟩ := h.origin e he
    exact ⟨a, b, by omega, d⟩

/-- The invariant holds when the move loops of a cycle end. -/
theorem passInv_resolve_log (dim : Nat) (strength : Int) (grid : Grid) :
    PassInv dim strength grid (dim * dim) (resolve_log dim strength grid) := by
  unfold resolve_log
  refine forLoop2_induction (PassInv dim strength grid) dim
    (fun j k s => visit_log dim strength grid j k s) _ ?_ ?_
  · exact ⟨rfl, rfl, Nat.zero_le _, by simp, by simp, List.Pairwise.nil⟩
  · intro j k hj hk t ht
    exact passInv_step dim strength grid j k hj hk t ht

theorem unhappy_occupied (dim : Nat) (strength : Int) (grid : Grid) (j k : Nat)
    (h : unhappy dim strength grid j k = true) : grid j k = 'n' ∨ grid j k = 'e' := by
  unfold unhappy at h
  exact (of_decide_eq_true h).1

theorem PassInv.logOK {dim : Nat} {strength : Int} {grid : Grid} {i : Nat}
    {s : (Nat × MoveState) × List Reloc} (h : PassInv dim strength grid i s) :
    LogOK dim grid s.2 := by
  refine ⟨?_, ?_, h.sorted⟩
  · intro e he
    obtain ⟨a, b, _, d⟩ := h.origin e he
    exact ⟨a, b, unhappy_occupied dim strength grid _ _ d⟩
  · intro e he
    obtain ⟨a, b, c, _⟩ := h.target e he
    exact ⟨a, b, c⟩

theorem relocations_logOK (dim : Nat) (strength : Int) (grid : Grid) :
    LogOK dim grid (relocations dim strength grid) :=
  (passInv_resolve_log dim strength grid).logOK

/-! ## Replaying a log -/

theorem occupied_ne_vacant {ch : Char} (h : ch = 'n' ∨ ch = 'e') : ch ≠ '.' := by
  rcases h with h | h <;> (subst h; decide)

theorem vacant_not_occupied {ch : Char} (h : ch = '.') (h' : ch = 'e' ∨ ch = 'n') : False := by
  subst h
  rcases h' with h' | h' <;> (revert h'; decide)

theorem apply_log_append (grid : Grid) (l : List Reloc) (e : Reloc) (g : Grid) :
    apply_log grid (l ++ [e]) g =
      ((apply_log grid l g).set e.2.1 e.2.2 (grid e.1.1 e.1.2)).set e.1.1 e.1.2 '.' := by
  simp [apply_log, List.foldl_append]

theorem apply_log_cons (grid : Grid) (l : List Reloc) (e : Reloc) (g : Grid) :
    apply_log grid (e :: l) g =
      apply_log grid l ((g.set e.2.1 e.2.2 (grid e.1.1 e.1.2)).set e.1.1 e.1.2 '.') := by
  simp [apply_log]

/-- A cell that is neither an origin nor a target of the log is not written. -/
theorem apply_log_other (grid : Grid) (log : List Reloc) (r c : Nat) :
    ∀ (g : Grid), (∀ e ∈ log, (r, c) ≠ e.1 ∧ (r, c) ≠ e.2) →
      apply_log grid log g r c = g r c := by
  induction log with
  | nil => intro g _; rfl
  | cons e l ih =>
    intro g h
    rw [apply_log_cons, ih _ (fun b hb => h b (List.mem_cons_of_mem _ hb))]
    obtain ⟨h1, h2⟩ := h e (List.mem_cons_self _ _)
    rw [Grid.set_other _ _ _ _ _ _ (fun hh => h1 (Prod.ext hh.1 hh.2)),
      Grid.set_other _ _ _ _ _ _ (fun hh => h2 (Prod.ext hh.1 hh.2))]

theorem LogOK.tail {dim : Nat} {grid : Grid} {e : Reloc} {l : List Reloc}
    (h : LogOK dim grid (e :: l)) : LogOK dim grid l :=
  ⟨fun b hb => h.origin b (List.mem_cons_of_mem _ hb),
   fun b hb => h.target b (List.mem_cons_of_mem _ hb),
   (List.pairwise_cons.1 h.sorted).2⟩

theorem LogOK.init {dim : Nat} {grid : Grid} {e : Reloc} {l : List Reloc}
    (h : LogOK dim grid (l ++ [e])) : LogOK dim grid l :=
  ⟨fun b hb => h.origin b (List.mem_append_left _ hb),
   fun b hb => h.target b (List.mem_append_left _ hb),
   (List.pairwise_append.1 h.sorted).1⟩

/-- An origin is never a target. -/
theorem LogOK.origin_ne_target {dim : Nat} {grid : Grid} {log : List Reloc}
    (h : LogOK dim grid log) {a b : Reloc} (ha : a ∈ log) (hb : b ∈ log) : a.1 ≠ b.2 := by
  intro hab
  have h1 := occupied_ne_vacant (h.origin a ha).2.2
  have h2 := (h.target b hb).2.2
  rw [hab] at h1
  exact h1 h2

/-- After the replay every origin holds `'.'`. -/
theorem apply_log_origin (dim : Nat) (grid : Grid) (log : List Reloc) :
    ∀ (g : Grid), LogOK dim grid log → ∀ e ∈ log,
      apply_log grid log g e.1.1 e.1.2 = '.' := by
  induction log with
  | nil => intro g _ e he; simp at he
  | cons a l ih =>
    intro g h e he
    rw [apply_log_cons]
    rcases List.mem_cons.1 he with he | he
    · subst he
      rw [apply_log_other, Grid.set_same]
      intro b hb
      have hs := (List.pairwise_cons.1 h.sorted).1 b hb
      refine ⟨fun hh => ?_, h.origin_ne_target (List.mem_cons_self _ _)
        (List.mem_cons_of_mem _ hb)⟩
      have : e.1 = b.1 := hh
      rw [this] at hs
      exact lt_irrefl _ hs.1
    · exact ih _ h.tail e he

/-- After the replay every target holds the agent read from `grid` at its
origin. -/
theorem apply_log_target (dim : Nat) (grid : Grid) (log : List Reloc) :
    ∀ (g : Grid), LogOK dim grid log → ∀ e ∈ log,
      apply_log grid log g e.2.1 e.2.2 = grid e.1.1 e.1.2 := by
  induction log with
  | nil => intro g _ e he; simp at he
  | cons a l ih =>
    intro g h e he
    rw [apply_log_cons]
    rcases List.mem_cons.1 he with he | he
    · subst he
      rw [apply_log_other]
      · have hne : ¬ (e.2.1 = e.1.1 ∧ e.2.2 = e.1.2) := fun hh =>
          h.origin_ne_target (List.mem_cons_self _ _) (List.mem_cons_self _ _)
            (Prod.ext hh.1.symm hh.2.symm)
        rw [Grid.set_other _ _ _ _ _ _ hne, Grid.set_same]
      · intro b hb
        have hs := (List.pairwise_cons.1 h.sorted).1 b hb
        refine ⟨fun hh => h.origin_ne_target (List.mem_cons_of_mem _ hb)
          (List.mem_cons_self _ _) hh.symm, fun hh => ?_⟩
        have : e.2 = b.2 := hh
        rw [this] at hs
        exact lt_irrefl _ hs.2
    · exact ih _ h.tail e he

/-! ## Counting cells -/

theorem count_map_range (f : Nat → Char) (ch : Char) (n : Nat) :
    ((List.range n).map f).count ch =
      ∑ c in Finset.range n, if f c = ch then 1 else 0 := by
  induction n with
  | zero => simp
  | succ m ih =>
    rw [List.range_succ, List.map_append, List.count_append, ih, Finset.sum_range_succ]
    simp [List.count_singleton]

theorem count_flatMap_range (F : Nat → List Char) (ch : Char) (n : Nat) :
    ((List.range n).flatMap F).count ch = ∑ r in Finset.range n, (F r).count ch := by
  induction n with
  | zero => simp
  | succ m ih =>
    rw [List.range_succ, List.flatMap_append, List.count_append, ih, Finset.sum_range_succ]
    simp

/-- The count of a character as a sum over the cells of the grid. -/
theorem countCells_eq_sum (dim : Nat) (g : Grid) (ch : Char) :
    countCells dim g ch =
      ∑ x in Finset.range dim ×ˢ Finset.range dim, if g x.1 x.2 = ch then 1 else 0 := by
  unfold countCells cells
  rw [count_flatMap_range, Finset.sum_product]
  exact Finset.sum_congr rfl (fun r _ => count_map_range (fun c => g r c) ch dim)

/-- Rearranging the cells of the grid by a permutation of the positions does
not change any count. -/
theorem countCells_of_equiv (dim : Nat) (g g' : Grid) (σ : Equiv.Perm (Nat × Nat))
    (hσ : ∀ x, x ∈ Finset.range dim ×ˢ Finset.range dim ↔
      σ x ∈ Finset.range dim ×ˢ Finset.range dim)
    (hg : ∀ x ∈ Finset.range dim ×ˢ Finset.range dim, g' x.1 x.2 = g (σ x).1 (σ x).2)
    (ch : Char) : countCells dim g' ch = countCells dim g ch := by
  rw [countCells_eq_sum, countCells_eq_sum]
  exact Finset.sum_equiv σ hσ (fun x hx => by rw [hg x hx])

/-- Exchanging the contents of two cells of the grid does not change any
count. -/
theorem countCells_swap (dim : Nat) (g g' : Grid) (p q : Nat × Nat)
    (hp : p.1 < dim ∧ p.2 < dim) (hq : q.1 < dim ∧ q.2 < dim)
    (h1 : g' p.1 p.2 = g q.1 q.2) (h2 : g' q.1 q.2 = g p.1 p.2)
    (h3 : ∀ x : Nat × Nat, x ≠ p → x ≠ q → g' x.1 x.2 = g x.1 x.2) (ch : Char) :
    countCells dim g' ch = countCells dim g ch := by
  have hmem : ∀ y : Nat × Nat, y ∈ Finset.range dim ×ˢ Finset.range dim ↔
      (y.1 < dim ∧ y.2 < dim) := by
    intro y; simp [Finset.mem_product]
  refine countCells_of_equiv dim g g' (Equiv.swap p q) ?_ ?_ ch
  · intro x
    by_cases hxp : x = p
    · subst hxp; rw [Equiv.swap_apply_left, hmem, hmem]; exact ⟨fun _ => hq, fun _ => hp⟩
    · by_cases hxq : x = q
      · subst hxq; rw [Equiv.swap_apply_right, hmem, hmem]; exact ⟨fun _ => hp, fun _ => hq⟩
      · rw [Equiv.swap_apply_of_ne_of_ne hxp hxq]
  · intro x _
    by_cases hxp : x = p
    · subst hxp; rw [Equiv.swap_apply_left]; exact h1
    · by_cases hxq : x = q
      · subst hxq; rw [Equiv.swap_apply_right]; exact h2
      · rw [Equiv.swap_apply_of_ne_of_ne hxp hxq]; exact h3 x hxp hxq

theorem cells_perm_of_count (dim : Nat) (g g' : Grid)
    (h : ∀ ch, countCells dim g' ch = countCells dim g ch) :
    (cells dim g').Perm (cells dim g) :=
  List.perm_iff_count.2 h

/-- Replaying a well-formed log on `grid` itself keeps every count: each step
exchanges an agent and a vacancy. -/
theorem countCells_apply_log (dim : Nat) (grid : Grid) (log : List Reloc)
    (h : LogOK dim grid log) (ch : Char) :
    countCells dim (apply_log grid log grid) ch = countCells dim grid ch := by
  induction log using List.reverseRecOn with
  | nil => rfl
  | append_singleton l e ih =>
    have hl := h.init
    have he : e ∈ l ++ [e] := List.mem_append_right _ (List.mem_singleton_self e)
    have hsort := (List.pairwise_append.1 h.sorted).2.2
    have ho : apply_log grid l grid e.1.1 e.1.2 = grid e.1.1 e.1.2 := by
      apply apply_log_other
      intro b hb
      have hs := hsort b hb e (List.mem_singleton_self e)
      refine ⟨fun hh => ?_, h.origin_ne_target he (List.mem_append_left _ hb)⟩
      have : e.1 = b.1 := hh
      rw [this] at hs
      exact lt_irrefl _ hs.1
    have ht : apply_log grid l grid e.2.1 e.2.2 = '.' := by
      rw [apply_log_other, (h.target e he).2.2]
      intro b hb
      have hs := hsort b hb e (List.mem_singleton_self e)
      refine ⟨fun hh => h.origin_ne_target (List.mem_append_left _ hb) he hh.symm,
        fun hh => ?_⟩
      have : e.2 = b.2 := hh
      rw [this] at hs
      exact lt_irrefl _ hs.2
    have hne : e.1 ≠ e.2 := h.origin_ne_target he he
    rw [apply_log_append, ← ih hl]
    refine countCells_swap dim _ _ e.1 e.2 ⟨(h.origin e he).1, (h.origin e he).2.1⟩
      ⟨(h.target e he).1, (h.target e he).2.1⟩ ?_ ?_ ?_ ch
    · rw [Grid.set_same, ht]
    · rw [Grid.set_other _ _ _ _ _ _ (fun hh => hne (Prod.ext hh.1.symm hh.2.symm)),
        Grid.set_same, ho]
    · intro x hx1 hx2
      rw [Grid.set_other _ _ _ _ _ _ (fun hh => hx1 (Prod.ext hh.1 hh.2)),
        Grid.set_other _ _ _ _ _ _ (fun hh => hx2 (Prod.ext hh.1 hh.2))]

/-- The grid written by a cycle is the replay of its relocations. -/
theorem next_grid_eq_apply_log (dim : Nat) (strength : Int) (grid : Grid) :
    next_grid dim strength grid = apply_log grid (relocations dim strength grid) grid := by
  unfold next_grid relocations
  rw [← resolve_log_fst]
  exact (passInv_resolve_log dim strength grid).grid2_eq

theorem moves_eq_length (dim : Nat) (strength : Int) (grid : Grid) :
    moves dim strength grid = (relocations dim strength grid).length := by
  unfold moves relocations
  rw [← resolve_log_fst]
  exact (passInv_resolve_log dim strength grid).moves_eq

/-- One cycle keeps the count of every character. -/
theorem countCells_next_grid (dim : Nat) (strength : Int) (grid : Grid) (ch : Char) :
    countCells dim (next_grid dim strength grid) ch = countCells dim grid ch := by
  rw [next_grid_eq_apply_log]
  exact countCells_apply_log dim grid _ (relocations_logOK dim strength grid) ch

theorem countCells_grid_at (dim : Nat) (strength : Int) (grid : Grid) (ch : Char) (i : Nat) :
    countCells dim (grid_at dim strength grid i) ch = countCells dim grid ch := by
  induction i with
  | zero => rfl
  | succ n ih => rw [grid_at, countCells_next_grid, ih]

/-! ## The relocations as a map on cells -/

theorem LogOK.origin_inj {dim : Nat} {grid : Grid} {log : List Reloc}
    (h : LogOK dim grid log) : ∀ a ∈ log, ∀ b ∈ log, a.1 = b.1 → a = b := by
  have hp : log.Pairwise (fun a b : Reloc => a.1 = b.1 → a = b) :=
    h.sorted.imp (fun {a b} hab e => by rw [e] at hab; exact absurd hab.1 (lt_irrefl _))
  exact List.Pairwise.forall_of_forall (R := fun a b : Reloc => a.1 = b.1 → a = b)
    (fun x y hxy e => (hxy e.symm).symm) (fun _ _ _ => rfl) hp

theorem LogOK.target_inj {dim : Nat} {grid : Grid} {log : List Reloc}
    (h : LogOK dim grid log) : ∀ a ∈ log, ∀ b ∈ log, a.2 = b.2 → a = b := by
  have hp : log.Pairwise (fun a b : Reloc => a.2 = b.2 → a = b) :=
    h.sorted.imp (fun {a b} hab e => by rw [e] at hab; exact absurd hab.2 (lt_irrefl _))
  exact List.Pairwise.forall_of_forall (R := fun a b : Reloc => a.2 = b.2 → a = b)
    (fun x y hxy e => (hxy e.symm).symm) (fun _ _ _ => rfl) hp

theorem dest_of_mem {dim : Nat} {grid : Grid} {log : List Reloc}
    (h : LogOK dim grid log) {e : Reloc} (he : e ∈ log) : dest log e.1 = e.2 := by
  unfold dest
  cases hf : log.find? (fun b => decide (b.1 = e.1)) with
  | none =>
    have := List.find?_eq_none.1 hf e he
    simp at this
  | some b =>
    have hb := List.mem_of_find?_eq_some hf
    have hp := List.find?_some hf
    have : b = e := h.origin_inj b hb e he (of_decide_eq_true hp)
    rw [this]

theorem dest_of_not_origin {log : List Reloc} {p : Nat × Nat}
    (h : ∀ e ∈ log, e.1 ≠ p) : dest log p = p := by
  unfold dest
  cases hf : log.find? (fun b => decide (b.1 = p)) with
  | none => rfl
  | some b =>
    have hb := List.mem_of_find?_eq_some hf
    have hp := List.find?_some hf
    exact absurd (of_decide_eq_true hp) (h b hb)

/-- The relocations of a well-formed log carry the occupied cells of `grid`
one-to-one onto the occupied cells of the replayed grid, keeping the type of
each agent. -/
theorem dest_bijOn (dim : Nat) (grid : Grid) (log : List Reloc) (h : LogOK dim grid log) :
    Set.BijOn (dest log) (occupied dim grid) (occupied dim (apply_log grid log grid)) ∧
      ∀ p ∈ occupied dim grid,
        apply_log grid log grid (dest log p).1 (dest log p).2 = grid p.1 p.2 := by
  have key : ∀ p ∈ occupied dim grid,
      (dest log p).1 < dim ∧ (dest log p).2 < dim ∧
        apply_log grid log grid (dest log p).1 (dest log p).2 = grid p.1 p.2 := by
    intro p hp
    by_cases ho : ∃ e ∈ log, e.1 = p
    · obtain ⟨e, he, hep⟩ := ho
      subst hep
      rw [dest_of_mem h he]
      exact ⟨(h.target e he).1, (h.target e he).2.1, apply_log_target dim grid log grid h e he⟩
    · have ho' : ∀ e ∈ log, e.1 ≠ p := fun e he hep => ho ⟨e, he, hep⟩
      rw [dest_of_not_origin ho']
      refine ⟨hp.1, hp.2.1, apply_log_other grid log p.1 p.2 grid ?_⟩
      intro e he
      refine ⟨fun hh => ho' e he hh.symm, fun hh => ?_⟩
      have h1 := (h.target e he).2.2
      have h2 : e.2 = p := hh.symm
      rw [h2] at h1
      exact vacant_not_occupied h1 hp.2.2
  refine ⟨⟨?_, ?_, ?_⟩, fun p hp => (key p hp).2.2⟩
  · intro p hp
    obtain ⟨k1, k2, k3⟩ := key p hp
    exact ⟨k1, k2, by rw [k3]; exact hp.2.2⟩
  · intro p hp q hq hpq
    have vac : ∀ e ∈ log, ∀ x ∈ occupied dim grid, e.2 ≠ x := by
      intro e he x hx hex
      have h1 := (h.target e he).2.2
      rw [hex] at h1
      exact vacant_not_occupied h1 hx.2.2
    by_cases ho : ∃ e ∈ log, e.1 = p
    · obtain ⟨e, he, hep⟩ := ho
      subst hep
      rw [dest_of_mem h he] at hpq
      by_cases ho2 : ∃ b ∈ log, b.1 = q
      · obtain ⟨b, hb, hbq⟩ := ho2
        subst hbq
        rw [dest_of_mem h hb] at hpq
        rw [h.target_inj e he b hb hpq]
      · rw [dest_of_not_origin (fun b hb hbq => ho2 ⟨b, hb, hbq⟩)] at hpq
        exact absurd hpq (vac e he q hq)
    · rw [dest_of_not_origin (fun b hb hbp => ho ⟨b, hb, hbp⟩)] at hpq
      by_cases ho2 : ∃ b ∈ log, b.1 = q
      · obtain ⟨b, hb, hbq⟩ := ho2
        subst hbq
        rw [dest_of_mem h hb] at hpq
        exact absurd hpq.symm (vac b hb p hp)
      · rw [dest_of_not_origin (fun b hb hbq => ho2 ⟨b, hb, hbq⟩)] at hpq
        exact hpq
  · intro q hq
    by_cases ho : ∃ e ∈ log, e.1 = q
    · obtain ⟨e, he, heq⟩ := ho
      subst heq
      have h1 := apply_log_origin dim grid log grid h e he
      exact (vacant_not_occupied h1 hq.2.2).elim
    · by_cases ht : ∃ e ∈ log, e.2 = q
      · obtain ⟨e, he, heq⟩ := ht
        subst heq
        exact ⟨e.1, ⟨(h.origin e he).1, (h.origin e he).2.1, (h.origin e he).2.2.symm⟩,
          dest_of_mem h he⟩
      · have hq' : apply_log grid log grid q.1 q.2 = grid q.1 q.2 :=
          apply_log_other grid log q.1 q.2 grid
            (fun e he => ⟨fun hh => ho ⟨e, he, hh.symm⟩, fun hh => ht ⟨e, he, hh.symm⟩⟩)
        refine ⟨q, ⟨hq.1, hq.2.1, ?_⟩, dest_of_not_origin (fun e he hh => ho ⟨e, he, hh⟩)⟩
        rw [← hq']; exact hq.2.2

/-! ## Claims on the cycle -/

/-- C1 (conservation). For every grid, every `dim` and every `strength`, the
grid written by one cycle has exactly as many `'.'`, `'e'` and `'n'` cells as
the pre-cycle grid, its cells being a rearrangement of the pre-cycle cells;
hence every grid of a run has the counts of the initial grid. -/
theorem C1_conservation (dim : Nat) (strength : Int) (grid : Grid) :
    (countCells dim (next_grid dim strength grid) '.' = countCells dim grid '.' ∧
      countCells dim (next_grid dim strength grid) 'e' = countCells dim grid 'e' ∧
      countCells dim (next_grid dim strength grid) 'n' = countCells dim grid 'n') ∧
    (cells dim (next_grid dim strength grid)).Perm (cells dim grid) ∧
    ∀ i : Nat,
      countCells dim (grid_at dim strength grid i) '.' = countCells dim grid '.' ∧
      countCells dim (grid_at dim strength grid i) 'e' = countCells dim grid 'e' ∧
      countCells dim (grid_at dim strength grid i) 'n' = countCells dim grid 'n' :=
  ⟨⟨countCells_next_grid dim strength grid '.', countCells_next_grid dim strength grid 'e',
      countCells_next_grid dim strength grid 'n'⟩,
    cells_perm_of_count dim grid _ (countCells_next_grid dim strength grid),
    fun i => ⟨countCells_grid_at dim strength grid '.' i,
      countCells_grid_at dim strength grid 'e' i,
      countCells_grid_at dim strength grid 'n' i⟩⟩

/-- C2 (no double-move). In one cycle the origins of the relocations are
pairwise distinct occupied cells of the pre-cycle grid, the targets are
pairwise distinct cells that are vacant in the pre-cycle grid, the grid
written by the cycle holds at every target the agent of its origin and `'.'`
at every origin and is unchanged elsewhere, `moves` counts the relocations,
and `dest` is a type-preserving bijection from the occupied cells of the
pre-cycle grid onto the occupied cells of the next grid. -/
theorem C2_no_double_move (dim : Nat) (strength : Int) (grid : Grid) :
    ((relocations dim strength grid).map Prod.fst).Nodup ∧
    ((relocations dim strength grid).map Prod.snd).Nodup ∧
    (∀ e ∈ relocations dim strength grid,
      e.1 ∈ occupied dim grid ∧
      (e.2.1 < dim ∧ e.2.2 < dim ∧ grid e.2.1 e.2.2 = '.') ∧
      next_grid dim strength grid e.2.1 e.2.2 = grid e.1.1 e.1.2 ∧
      next_grid dim strength grid e.1.1 e.1.2 = '.') ∧
    (∀ r c, (∀ e ∈ relocations dim strength grid, (r, c) ≠ e.1 ∧ (r, c) ≠ e.2) →
      next_grid dim strength grid r c = grid r c) ∧
    moves dim strength grid = (relocations dim strength grid).length ∧
    Set.BijOn (dest (relocations dim strength grid)) (occupied dim grid)
      (occupied dim (next_grid dim strength grid)) ∧
    (∀ p ∈ occupied dim grid,
      next_grid dim strength grid (dest (relocations dim strength grid) p).1
        (dest (relocations dim strength grid) p).2 = grid p.1 p.2) := by
  have h := relocations_logOK dim strength grid
  have hb := dest_bijOn dim grid _ h
  rw [next_grid_eq_apply_log]
  refine ⟨?_, ?_, ?_, ?_, moves_eq_length dim strength grid, hb.1, hb.2⟩
  · rw [List.Nodup, List.pairwise_map]
    exact h.sorted.imp (fun {a b} hab e => by rw [e] at hab; exact lt_irrefl _ hab.1)
  · rw [List.Nodup, List.pairwise_map]
    exact h.sorted.imp (fun {a b} hab e => by rw [e] at hab; exact lt_irrefl _ hab.2)
  · intro e he
    exact ⟨⟨(h.origin e he).1, (h.origin e he).2.1, (h.origin e he).2.2.symm⟩, h.target e he,
      apply_log_target dim grid _ grid h e he, apply_log_origin dim grid _ grid h e he⟩
  · intro r c hrc
    exact apply_log_other grid _ r c grid hrc

/-- C5 (monotonic cursor). Within one cycle, for every two consecutive
successful relocations the row-major index of the vacancy found for the
later one is not smaller than that of the earlier one; in fact the indices of
the vacancies found increase strictly along the whole cycle. -/
theorem C5_monotonic_cursor (dim : Nat) (strength : Int) (grid : Grid) :
    List.Chain' (fun a b : Reloc => idx dim a.2 ≤ idx dim b.2)
      (relocations dim strength grid) ∧
    List.Pairwise (fun a b : Reloc => idx dim a.2 < idx dim b.2)
      (relocations dim strength grid) := by
  have h := (relocations_logOK dim strength grid).sorted
  exact ⟨(h.imp (fun {a b} hab => le_of_lt hab.2)).chain',
    h.imp (fun {a b} hab => hab.2)⟩

/-! ## Floating-point values -/

theorem roundPos_den_pos (p m d : Nat) : 0 < (roundPos p m d).den := by
  unfold roundPos
  dsimp only
  split
  · split
    · exact Nat.one_pos
    · exact Nat.pos_pow_of_pos _ (by decide)
  · exact Nat.pos_pow_of_pos _ (by decide)

theorem roundPos_num_nonneg (p m d : Nat) : 0 ≤ (roundPos p m d).num := by
  unfold roundPos
  dsimp only
  split
  · split <;> exact Int.natCast_nonneg _
  · exact Int.natCast_nonneg _

theorem Fp.round_den_pos (p : Nat) (n : Int) (d : Nat) : 0 < (Fp.round p n d).den := by
  unfold Fp.round
  split
  · exact Nat.one_pos
  · split
    · exact roundPos_den_pos _ _ _
    · exact roundPos_den_pos _ _ _

theorem Fp.lt_iff (a b : Fp) (ha : 0 < a.den) (hb : 0 < b.den) :
    Fp.lt a b = true ↔ a.toRat < b.toRat := by
  unfold Fp.lt Fp.toRat
  have ha' : (0 : ℚ) < (a.den : ℚ) := by exact_mod_cast ha
  have hb' : (0 : ℚ) < (b.den : ℚ) := by exact_mod_cast hb
  rw [decide_eq_true_iff, div_lt_div_iff₀ ha' hb']
  constructor
  · intro h; exact_mod_cast h
  · intro h; exact_mod_cast h

theorem Fp.toRat_unit (a : Fp) (h0 : 0 ≤ a.num) (h1 : a.num ≤ a.den) (h2 : 0 < a.den) :
    0 ≤ a.toRat ∧ a.toRat ≤ 1 := by
  unfold Fp.toRat
  have h2' : (0 : ℚ) < (a.den : ℚ) := by exact_mod_cast h2
  have h0' : (0 : ℚ) ≤ (a.num : ℚ) := by exact_mod_cast h0
  have h1' : (a.num : ℚ) ≤ (a.den : ℚ) := by exact_mod_cast h1
  exact ⟨div_nonneg h0' (le_of_lt h2'), (div_le_one h2').2 h1'⟩

/-- The `float` quotient of two counts `same ≤ total ≤ 8` lies in `[0, 1]`. -/
theorem quotient_unit : ∀ t : Nat, t < 9 → ∀ s : Nat, s < 9 → s ≤ t → t ≠ 0 →
    0 ≤ (Fp.div FLT (Fp.ofInt FLT s) (Fp.ofInt FLT t)).num ∧
      (Fp.div FLT (Fp.ofInt FLT s) (Fp.ofInt FLT t)).num ≤
        ((Fp.div FLT (Fp.ofInt FLT s) (Fp.ofInt FLT t)).den : Int) := by
  decide

theorem one_toRat : (Fp.ofInt FLT 1).toRat = 1 := by
  have h : Fp.ofInt FLT 1 = ⟨8388608, 8388608⟩ := by decide
  rw [h]
  norm_num [Fp.toRat]

/-! ## `check_neighbors` -/

theorem tally_bounds (value : Char) (inb : Bool) (nb : Char) (ts : Nat × Nat) (n : Nat)
    (h : ts.2 ≤ ts.1 ∧ ts.1 ≤ n) :
    (tally value inb nb ts).2 ≤ (tally value inb nb ts).1 ∧
      (tally value inb nb ts).1 ≤ n + 1 := by
  unfold tally
  split
  · split <;> simp only <;> omega
  · omega

theorem tally_skip (value : Char) (inb : Bool) (nb : Char) (ts : Nat × Nat)
    (h : inb = true → nb ≠ 'e' ∧ nb ≠ 'n') : tally value inb nb ts = ts := by
  unfold tally
  rw [if_neg]
  rintro ⟨h1, h2⟩
  rcases h2 with h2 | h2
  · exact (h h1).1 h2
  · exact (h h1).2 h2

theorem neighbor_counts_bounds (dim : Nat) (grid : Grid) (row col : Nat) :
    (neighbor_counts dim grid row col).2 ≤ (neighbor_counts dim grid row col).1 ∧
      (neighbor_counts dim grid row col).1 ≤ 8 := by
  unfold neighbor_counts
  have h0 : ((0, 0) : Nat × Nat).2 ≤ ((0, 0) : Nat × Nat).1 ∧ ((0, 0) : Nat × Nat).1 ≤ 0 :=
    ⟨le_refl _, le_refl _⟩
  exact tally_bounds _ _ _ _ 7 (tally_bounds _ _ _ _ 6 (tally_bounds _ _ _ _ 5
    (tally_bounds _ _ _ _ 4 (tally_bounds _ _ _ _ 3 (tally_bounds _ _ _ _ 2
      (tally_bounds _ _ _ _ 1 (tally_bounds _ _ _ _ 0 h0)))))))

theorem check_neighbors_den_pos (dim : Nat) (grid : Grid) (row col : Nat) :
    0 < (check_neighbors dim grid row col).den := by
  unfold check_neighbors
  simp only
  split
  · exact Fp.round_den_pos _ _ _
  · exact Fp.round_den_pos _ _ _

theorem threshold_den_pos (strength : Int) : 0 < (threshold strength).den :=
  Fp.round_den_pos _ _ _

/-- C3 (happiness bounds). For every grid and every in-bounds cell,
`same ≤ total`, the value returned by `check_neighbors` lies in `[0, 1]`, and
it is exactly `1` when no in-bounds neighbour of the cell holds `'e'` or
`'n'`. -/
theorem C3_happiness_bounds (dim : Nat) (grid : Grid) (row col : Nat)
    (hrow : row < dim) (hcol : col < dim) :
    (neighbor_counts dim grid row col).2 ≤ (neighbor_counts dim grid row col).1 ∧
    0 ≤ (check_neighbors dim grid row col).toRat ∧
    (check_neighbors dim grid row col).toRat ≤ 1 ∧
    ((∀ r c, r < dim → c < dim → (r ≠ row ∨ c ≠ col) → row ≤ r + 1 → r ≤ row + 1 →
        col ≤ c + 1 → c ≤ col + 1 → grid r c ≠ 'e' ∧ grid r c ≠ 'n') →
      (check_neighbors dim grid row col).toRat = 1) := by
  have hb := neighbor_counts_bounds dim grid row col
  have hunit : 0 ≤ (check_neighbors dim grid row col).toRat ∧
      (check_neighbors dim grid row col).toRat ≤ 1 := by
    unfold check_neighbors
    simp only
    split
    · rw [one_toRat]; exact ⟨zero_le_one, le_refl _⟩
    · rename_i ht
      have hq := quotient_unit (neighbor_counts dim grid row col).1 (by omega)
        (neighbor_counts dim grid row col).2 (by omega) hb.1 ht
      exact Fp.toRat_unit _ hq.1 hq.2 (Fp.round_den_pos _ _ _)
  refine ⟨hb.1, hunit.1, hunit.2, ?_⟩
  intro hiso
  have hz : neighbor_counts dim grid row col = (0, 0) := by
    unfold neighbor_counts
    simp only
    rw [tally_skip _ _ _ (0, 0) (fun h => hiso _ _ (by omega) (by omega)
        (by have := of_decide_eq_true h; omega) (by omega) (by omega) (by omega) (by omega)),
      tally_skip _ _ _ (0, 0) (fun h => hiso _ _ (by omega) (by omega)
        (by have := of_decide_eq_true h; omega) (by omega) (by omega) (by omega) (by omega)),
      tally_skip _ _ _ (0, 0) (fun h => hiso _ _ (by omega)
        (by have := of_decide_eq_true h; omega)
        (by have := of_decide_eq_true h; omega) (by omega) (by omega) (by omega) (by omega)),
      tally_skip _ _ _ (0, 0) (fun h => hiso _ _ (by omega) (by omega)
        (by have := of_decide_eq_true h; omega) (by omega) (by omega) (by omega) (by omega)),
      tally_skip _ _ _ (0, 0) (fun h => hiso _ _ (by omega)
        (by have := of_decide_eq_true h; omega)
        (by omega) (by omega) (by omega) (by omega) (by omega)),
      tally_skip _ _ _ (0, 0) (fun h => hiso _ _ (by have := of_decide_eq_true h; omega)
        (by omega) (by omega) (by omega) (by omega) (by omega) (by omega)),
      tally_skip _ _ _ (0, 0) (fun h => hiso _ _ (by have := of_decide_eq_true h; omega)
        (by omega) (by omega) (by omega) (by omega) (by omega) (by omega)),
      tally_skip _ _ _ (0, 0) (fun h => hiso _ _ (by have := of_decide_eq_true h; omega)
        (by have := of_decide_eq_true h; omega)
        (by omega) (by omega) (by omega) (by omega) (by omega))]
  unfold check_neighbors
  simp only [hz, if_true]
  exact one_toRat

/-- Witness of C3 on the grid `corners`: the agent in the corner `(0, 0)` has
no occupied neighbour and its happiness is `1`. -/
theorem C3_happiness_bounds_witness :
    (0 < 3 ∧ 0 < 3) ∧
    (neighbor_counts 3 corners 0 0).2 ≤ (neighbor_counts 3 corners 0 0).1 ∧
    0 ≤ (check_neighbors 3 corners 0 0).toRat ∧
    (check_neighbors 3 corners 0 0).toRat ≤ 1 ∧
    (check_neighbors 3 corners 0 0).toRat = 1 := by
  have h := C3_happiness_bounds 3 corners 0 0 (by decide) (by decide)
  refine ⟨⟨by decide, by decide⟩, h.1, h.2.1, h.2.2.1, h.2.2.2 ?_⟩
  intro r c hr hc hne _ h2 _ h4
  interval_cases r <;> interval_cases c <;> first | omega | decide

/-! ## Stable grids -/

theorem not_unhappy_of_le (dim : Nat) (strength : Int) (grid : Grid) (j k : Nat)
    (h : (grid j k = 'e' ∨ grid j k = 'n') →
      (threshold strength).toRat ≤ (check_neighbors dim grid j k).toRat) :
    unhappy dim strength grid j k = false := by
  unfold unhappy
  rw [decide_eq_false_iff_not]
  rintro ⟨h1, h2⟩
  have h3 := h (h1.symm)
  rw [Fp.lt_iff _ _ (check_neighbors_den_pos _ _ _ _) (threshold_den_pos _)] at h2
  exact absurd h2 (not_lt.2 h3)

/-- When no cell of the grid is unhappy the move loops leave their initial
state. -/
theorem resolve_of_no_unhappy (dim : Nat) (strength : Int) (grid : Grid)
    (h : ∀ j k, j < dim → k < dim → unhappy dim strength grid j k = false) :
    resolve dim strength grid = (0, ⟨grid, 0, 0⟩) := by
  unfold resolve
  refine forLoop2_induction (fun _ s => s = ((0, ⟨grid, 0, 0⟩) : Nat × MoveState)) dim
    (fun j k s => visit dim strength grid j k s) _ rfl ?_
  intro j k hj hk t ht
  show visit dim strength grid j k t = _
  unfold visit
  rw [h j k hj hk]
  simpa using ht

/-- C4 (idempotent stability). If every occupied cell of the grid has a
happiness greater than or equal to `strength/100`, the move resolution of one
cycle writes a grid equal to the input cell for cell and counts `0` moves. -/
theorem C4_idempotent_stability (dim : Nat) (strength : Int) (grid : Grid)
    (h : ∀ j k, j < dim → k < dim → (grid j k = 'e' ∨ grid j k = 'n') →
      (threshold strength).toRat ≤ (check_neighbors dim grid j k).toRat) :
    (∀ r c, next_grid dim strength grid r c = grid r c) ∧ moves dim strength grid = 0 := by
  have hr := resolve_of_no_unhappy dim strength grid
    (fun j k hj hk => not_unhappy_of_le dim strength grid j k (h j k hj hk))
  unfold next_grid moves
  rw [hr]
  exact ⟨fun _ _ => rfl, rfl⟩

theorem Fp.le_of_lt_false (a b : Fp) (ha : 0 < a.den) (hb : 0 < b.den)
    (h : Fp.lt a b = false) : b.toRat ≤ a.toRat := by
  rw [← not_lt, ← Fp.lt_iff a b ha hb, h]
  decide

/-- Witness of C4: on the grid `all_e` with `strength = 50` every agent has
happiness `1 ≥ 1/2`, and the cycle changes nothing. -/
theorem C4_idempotent_stability_witness :
    (∀ j k, j < 2 → k < 2 → (all_e j k = 'e' ∨ all_e j k = 'n') →
      (threshold 50).toRat ≤ (check_neighbors 2 all_e j k).toRat) ∧
    (∀ r c, next_grid 2 50 all_e r c = all_e r c) ∧ moves 2 50 all_e = 0 := by
  have hyp : ∀ j k, j < 2 → k < 2 → (all_e j k = 'e' ∨ all_e j k = 'n') →
      (threshold 50).toRat ≤ (check_neighbors 2 all_e j k).toRat := by
    intro j k hj hk _
    apply Fp.le_of_lt_false _ _ (check_neighbors_den_pos _ _ _ _) (threshold_den_pos _)
    interval_cases j <;> interval_cases k <;> decide
  exact ⟨hyp, C4_idempotent_stability 2 50 all_e hyp⟩

/-! ## The vacancy search -/

/-- A call of `move` returns `1` exactly when its scan finds a vacancy. -/
theorem move_eq_one_iff (dim : Nat) (grid : Grid) (st : MoveState) (old_row old_col : Nat) :
    (move dim grid st old_row old_col).1 = 1 ↔
      ∃ r c, move_target dim grid st = some (r, c) := by
  cases ht : move_target dim grid st with
  | none =>
    rw [(move_of_target_none dim grid st old_row old_col ht).1]
    simp
  | some t =>
    obtain ⟨r, c⟩ := t
    rw [move_of_target_some dim grid st old_row old_col r c ht]
    simp

/-- The first vacant cell of `grid` at or after the cursor is the one `move`
finds. -/
theorem move_target_of_first (dim : Nat) (grid : Grid) (st : MoveState) (r c : Nat)
    (hr : r < dim) (hc : c < dim) (hv : grid r c = '.')
    (ha : at_or_after st.last_checked_row st.last_checked_col r c)
    (hfirst : ∀ r' c', c' < dim →
      at_or_after st.last_checked_row st.last_checked_col r' c' →
      before r c r' c' → grid r' c' ≠ '.') :
    move_target dim grid st = some (r, c) := by
  unfold move_target
  cases hs : scanRows grid dim (dim - st.last_checked_row) st.last_checked_row
      st.last_checked_col with
  | found r0 c0 =>
    obtain ⟨_, _, h3, h4, h5, h6⟩ := scanRows_found grid dim _ _ _ _ _ hs
    simp only [Option.some.injEq, Prod.mk.injEq]
    by_cases hb1 : before r c r0 c0
    · exact absurd h4 (hfirst r0 c0 h3 h5 hb1)
    · by_cases hb2 : before r0 c0 r c
      · exact absurd hv (h6 r c hc ha hb2)
      · unfold before at hb1 hb2
        omega
  | exhausted r0 c0 =>
    obtain ⟨_, h2⟩ := scanRows_exhausted grid dim _ _ _ _ _ hs
    have hlt : r < st.last_checked_row + (dim - st.last_checked_row) := by omega
    exact absurd hv (h2 r c hc hlt ha)

theorem two_movers_cursor :
    two_movers_state.last_checked_row = 0 ∧ two_movers_state.last_checked_col = 1 := by
  decide

/-- C6 fails on the grid `two_movers` with `dim = 2`, `strength = 50`. The
move loops visit `(0, 0)`, `(0, 1)`, `(1, 0)`, `(1, 1)`; the first relocation
moves the agent of `(0, 1)` to `(0, 0)` and leaves the cursor at `(0, 1)`. When `move` is called for the agent of `(1, 0)`, the cell
`(0, 1)` is vacant in `grid2` and is the first vacant cell of `grid2` from the
cursor on, yet `move` passes it and writes the agent at `(1, 1)`. -/
theorem C6_counterexample :
    resolve 2 50 two_movers =
      visit 2 50 two_movers 1 1 (visit 2 50 two_movers 1 0
        (visit 2 50 two_movers 0 1 (visit 2 50 two_movers 0 0 (0, ⟨two_movers, 0, 0⟩)))) ∧
    relocations 2 50 two_movers = [((0, 1), (0, 0)), ((1, 0), (1, 1))] ∧
    unhappy 2 50 two_movers 1 0 = true ∧
    two_movers_state.last_checked_row = 0 ∧ two_movers_state.last_checked_col = 1 ∧
    two_movers_state.grid2 0 1 = '.' ∧
    move_target 2 two_movers_state.grid2 two_movers_state = some (0, 1) ∧
    move_target 2 two_movers two_movers_state = some (1, 1) ∧
    (move 2 two_movers two_movers_state 1 0).1 = 1 ∧
    (move 2 two_movers two_movers_state 1 0).2.grid2 1 1 = 'n' ∧
    (move 2 two_movers two_movers_state 1 0).2.grid2 0 1 = '.' ∧
    cells 2 (next_grid 2 50 two_movers) = ['e', '.', '.', 'n'] :=
  ⟨rfl, by decide⟩

/-- C6, amended. Whenever a call of `move` returns `1`, the cell it has
written, one position before the cursor it leaves, is the first cell in
row-major order from the saved cursor on that is vacant in the pre-cycle grid
`grid`; and in a cycle no relocation targets a cell that a relocation of that
cycle vacates: every target is vacant in the pre-cycle grid. -/
theorem C6_vacancy_search (dim : Nat) (strength : Int) (grid : Grid) (st : MoveState)
    (old_row old_col : Nat) (h : (move dim grid st old_row old_col).1 = 1) :
    (∃ r c, r < dim ∧ c < dim ∧
      (move dim grid st old_row old_col).2.last_checked_row = r ∧
      (move dim grid st old_row old_col).2.last_checked_col = c + 1 ∧
      (move dim grid st old_row old_col).2.grid2 =
        (st.grid2.set r c (grid old_row old_col)).set old_row old_col '.' ∧
      grid r c = '.' ∧
      at_or_after st.last_checked_row st.last_checked_col r c ∧
      ∀ r' c', c' < dim → at_or_after st.last_checked_row st.last_checked_col r' c' →
        before r c r' c' → grid r' c' ≠ '.') ∧
    (∀ a ∈ relocations dim strength grid, ∀ b ∈ relocations dim strength grid,
      b.2 ≠ a.1 ∧ grid b.2.1 b.2.2 = '.') := by
  constructor
  · obtain ⟨r, c, ht⟩ := (move_eq_one_iff dim grid st old_row old_col).1 h
    obtain ⟨h1, h2, h3, h4, h5⟩ := move_target_spec dim grid st r c ht
    rw [move_of_target_some dim grid st old_row old_col r c ht]
    exact ⟨r, c, h1, h2, rfl, rfl, rfl, h3, h4, h5⟩
  · intro a ha b hb
    have hl := relocations_logOK dim strength grid
    exact ⟨fun e => hl.origin_ne_target ha hb e.symm, (hl.target b hb).2.2⟩

/-- Witness of the amended C6 on `two_movers`, at the second relocation. -/
theorem C6_vacancy_search_witness :
    (move 2 two_movers two_movers_state 1 0).1 = 1 ∧
    ((∃ r c, r < 2 ∧ c < 2 ∧
      (move 2 two_movers two_movers_state 1 0).2.last_checked_row = r ∧
      (move 2 two_movers two_movers_state 1 0).2.last_checked_col = c + 1 ∧
      (move 2 two_movers two_movers_state 1 0).2.grid2 =
        (two_movers_state.grid2.set r c (two_movers 1 0)).set 1 0 '.' ∧
      two_movers r c = '.' ∧
      at_or_after two_movers_state.last_checked_row two_movers_state.last_checked_col r c ∧
      ∀ r' c', c' < 2 →
        at_or_after two_movers_state.last_checked_row two_movers_state.last_checked_col r' c' →
        before r c r' c' → two_movers r' c' ≠ '.') ∧
    (∀ a ∈ relocations 2 50 two_movers, ∀ b ∈ relocations 2 50 two_movers,
      b.2 ≠ a.1 ∧ two_movers b.2.1 b.2.2 = '.')) :=
  ⟨by decide, C6_vacancy_search 2 50 two_movers two_movers_state 1 0 (by decide)⟩

/-- C7 (successful relocation). When `(r, c)` is the first vacant cell of
`grid` from the cursor on, `move` returns `1`, writes at `(r, c)` of `grid2`
the agent read from `grid` at `(old_row, old_col)`, writes `'.'` at
`(old_row, old_col)`, leaves every other cell of `grid2` unchanged, and leaves
the cursor at `(r, c + 1)`, one position past `(r, c)` in row-major order. -/
theorem C7_move_postcondition (dim : Nat) (grid : Grid) (st : MoveState)
    (old_row old_col r c : Nat)
    (hr : r < dim) (hc : c < dim) (hv : grid r c = '.')
    (ha : at_or_after st.last_checked_row st.last_checked_col r c)
    (hfirst : ∀ r' c', c' < dim →
      at_or_after st.last_checked_row st.last_checked_col r' c' →
      before r c r' c' → grid r' c' ≠ '.') :
    (move dim grid st old_row old_col).1 = 1 ∧
    (move dim grid st old_row old_col).2.grid2 r c = grid old_row old_col ∧
    (move dim grid st old_row old_col).2.grid2 old_row old_col = '.' ∧
    (∀ r' c', ¬ (r' = r ∧ c' = c) → ¬ (r' = old_row ∧ c' = old_col) →
      (move dim grid st old_row old_col).2.grid2 r' c' = st.grid2 r' c') ∧
    (move dim grid st old_row old_col).2.last_checked_row = r ∧
    (move dim grid st old_row old_col).2.last_checked_col = c + 1 ∧
    idx dim ((move dim grid st old_row old_col).2.last_checked_row,
      (move dim grid st old_row old_col).2.last_checked_col) = idx dim (r, c) + 1 := by
  rw [move_of_target_some dim grid st old_row old_col r c
    (move_target_of_first dim grid st r c hr hc hv ha hfirst)]
  refine ⟨rfl, ?_, Grid.set_same _ _ _ _, ?_, rfl, rfl, by simp only [idx]; omega⟩
  · by_cases he : r = old_row ∧ c = old_col
    · obtain ⟨h1, h2⟩ := he
      subst h1; subst h2
      simp only
      rw [Grid.set_same, hv]
    · simp only
      rw [Grid.set_other _ _ _ _ _ _ he, Grid.set_same]
  · intro r' c' h1 h2
    simp only
    rw [Grid.set_other _ _ _ _ _ _ h2, Grid.set_other _ _ _ _ _ _ h1]

/-- Witness of C7 on `two_movers`: the second relocation of the cycle, from
`(1, 0)` to `(1, 1)` with the cursor at `(0, 1)`. -/
theorem C7_move_postcondition_witness :
    (move 2 two_movers two_movers_state 1 0).1 = 1 ∧
    (move 2 two_movers two_movers_state 1 0).2.grid2 1 1 = two_movers 1 0 ∧
    (move 2 two_movers two_movers_state 1 0).2.grid2 1 0 = '.' ∧
    (∀ r' c', ¬ (r' = 1 ∧ c' = 1) → ¬ (r' = 1 ∧ c' = 0) →
      (move 2 two_movers two_movers_state 1 0).2.grid2 r' c' =
        two_movers_state.grid2 r' c') ∧
    (move 2 two_movers two_movers_state 1 0).2.last_checked_row = 1 ∧
    (move 2 two_movers two_movers_state 1 0).2.last_checked_col = 1 + 1 ∧
    idx 2 ((move 2 two_movers two_movers_state 1 0).2.last_checked_row,
      (move 2 two_movers two_movers_state 1 0).2.last_checked_col) = idx 2 (1, 1) + 1 := by
  refine C7_move_postcondition 2 two_movers two_movers_state 1 0 1 1 (by decide) (by decide)
    (by decide) ?_ ?_
  · rw [two_movers_cursor.1, two_movers_cursor.2]
    exact Or.inl (by decide)
  · intro r' c' hc' h1 h2
    rw [two_movers_cursor.1, two_movers_cursor.2] at h1
    unfold at_or_after at h1
    unfold before at h2
    have hr' : r' < 2 := by omega
    interval_cases r' <;> interval_cases c' <;> first | omega | decide

/-! ## `get_initial_grid`: the fill -/

/-- The cells in row-major order, by index. -/
theorem cells_eq_map_range (dim : Nat) (g : Grid) :
    cells dim g = (List.range (dim * dim)).map (fun i => g (i / dim) (i % dim)) := by
  unfold cells
  have key : ∀ n : Nat, (List.range n).flatMap (fun r => (List.range dim).map (fun c => g r c)) =
      (List.range (n * dim)).map (fun i => g (i / dim) (i % dim)) := by
    intro n
    induction n with
    | zero => simp
    | succ m ih =>
      have e : (m + 1) * dim = m * dim + dim := by ring
      rw [List.range_succ, List.flatMap_append, ih, e, List.range_add, List.map_append]
      congr 1
      simp only [List.flatMap_cons, List.flatMap_nil, List.append_nil, List.map_map]
      apply List.map_congr_left
      intro c hc
      have hc' : c < dim := List.mem_range.1 hc
      have hd : 0 < dim := by omega
      simp only [Function.comp]
      rw [Nat.mul_comm m dim, Nat.mul_add_div hd, Nat.mul_add_mod, Nat.div_eq_of_lt hc',
        Nat.mod_eq_of_lt hc', Nat.add_zero]
  exact key dim

/-- After the fill loops, `count` is `dim * dim` and every cell of the grid
holds the character chosen for its row-major index. -/
theorem fill_spec (dim : Nat) (nv ne : Int) (g0 : Grid) :
    (fill dim nv ne g0).2 = ((dim * dim : Nat) : Int) ∧
      ∀ r c, c < dim → r * dim + c < dim * dim →
        (fill dim nv ne g0).1 r c = fill_char nv ne ((r * dim + c : Nat) : Int) := by
  unfold fill
  refine forLoop2_induction
    (fun i (s : Grid × Int) => s.2 = ((i : Nat) : Int) ∧
      ∀ r c, c < dim → r * dim + c < i →
        s.1 r c = fill_char nv ne ((r * dim + c : Nat) : Int))
    dim (fun i j s => (s.1.set i j (fill_char nv ne s.2), s.2 + 1)) (g0, 0) ?_ ?_
  · exact ⟨rfl, fun r c _ h => absurd h (Nat.not_lt_zero _)⟩
  · intro j k _ hk t ht
    obtain ⟨h1, h2⟩ := ht
    refine ⟨by simp only [h1]; push_cast; ring, ?_⟩
    intro r c hc hlt
    by_cases he : r = j ∧ c = k
    · obtain ⟨e1, e2⟩ := he
      subst e1; subst e2
      simp only [Grid.set_same, h1]
    · simp only
      rw [Grid.set_other _ _ _ _ _ _ he]
      apply h2 r c hc
      have hne : r * dim + c ≠ j * dim + k := fun e => he (idx_inj dim r c j k hc hk e)
      omega

theorem cells_fill (dim : Nat) (nv ne : Int) (g0 : Grid) :
    cells dim (fill dim nv ne g0).1 =
      (List.range (dim * dim)).map (fun i => fill_char nv ne ((i : Nat) : Int)) := by
  rw [cells_eq_map_range]
  apply List.map_congr_left
  intro i hi
  have hi' : i < dim * dim := List.mem_range.1 hi
  have hd : 0 < dim := by
    rcases Nat.eq_zero_or_pos dim with h | h
    · subst h; simp at hi'
    · exact h
  have hm : i % dim < dim := Nat.mod_lt _ hd
  have hdm : i / dim * dim + i % dim = i := by
    rw [Nat.mul_comm]; exact Nat.div_add_mod i dim
  rw [(fill_spec dim nv ne g0).2 (i / dim) (i % dim) hm (by omega), hdm]

/-- The characters chosen for the indices `0 .. n-1`: first `a` times `'.'`,
then `b` times `'e'`, then `'n'`. -/
theorem map_fill_char (a b n : Nat) (h : a + b ≤ n) :
    (List.range n).map (fun i => fill_char (a : Int) (b : Int) ((i : Nat) : Int)) =
      List.replicate a '.' ++ List.replicate b 'e' ++ List.replicate (n - a - b) 'n' := by
  have e : n = a + (b + (n - a - b)) := by omega
  conv_lhs => rw [e]
  simp only [List.range_add, List.map_append, List.map_map, List.append_assoc]
  congr 1
  · rw [List.eq_replicate_iff]
    refine ⟨by simp, ?_⟩
    intro x hx
    obtain ⟨i, hi, rfl⟩ := List.mem_map.1 hx
    have hi' : i < a := List.mem_range.1 hi
    unfold fill_char
    rw [if_pos (by exact_mod_cast hi')]
  · congr 1
    · rw [List.eq_replicate_iff]
      refine ⟨by simp, ?_⟩
      intro x hx
      obtain ⟨j, hj, rfl⟩ := List.mem_map.1 hx
      have hj' : j < b := List.mem_range.1 hj
      simp only [Function.comp, fill_char]
      rw [if_neg (by push_cast; omega), if_pos (by push_cast; omega)]
    · rw [List.eq_replicate_iff]
      refine ⟨by simp, ?_⟩
      intro x hx
      obtain ⟨k, hk, rfl⟩ := List.mem_map.1 hx
      simp only [Function.comp, fill_char]
      rw [if_neg (by push_cast; omega), if_neg (by push_cast; omega)]

/-- The grid left by the fill loops when the two numbers are non-negative and
fit in the grid. -/
theorem cells_fill_replicate (dim : Nat) (a b : Nat) (g0 : Grid) (h : a + b ≤ dim * dim) :
    cells dim (fill dim (a : Int) (b : Int) g0).1 =
      List.replicate a '.' ++ List.replicate b 'e' ++
        List.replicate (dim * dim - a - b) 'n' := by
  rw [cells_fill, map_fill_char a b (dim * dim) h]

theorem count_three (a b c : Nat) :
    (List.replicate a '.' ++ List.replicate b 'e' ++ List.replicate c 'n').count '.' = a ∧
    (List.replicate a '.' ++ List.replicate b 'e' ++ List.replicate c 'n').count 'e' = b ∧
    (List.replicate a '.' ++ List.replicate b 'e' ++ List.replicate c 'n').count 'n' = c := by
  simp [List.count_append, List.count_replicate]

/-- C9 (end-to-end counts). For `dim = 5`, `percent_vacant = 20`,
`percent_endline = 60` the program computes `num_vacant = 5` and
`num_endline = 12`, and the fill loops store, in row-major order, five `'.'`,
then twelve `'e'`, then eight `'n'`. -/
theorem C9_end_to_end_counts :
    num_vacant 5 20 = 5 ∧ num_endline 5 20 60 = 12 ∧
    ∀ g0 : Grid, cells 5 (fill 5 (num_vacant 5 20) (num_endline 5 20 60) g0).1 =
      List.replicate 5 '.' ++ List.replicate 12 'e' ++ List.replicate 8 'n' := by
  have h1 : num_vacant 5 20 = 5 := by decide
  have h2 : num_endline 5 20 60 = 12 := by decide
  refine ⟨h1, h2, ?_⟩
  intro g0
  rw [h1, h2]
  exact cells_fill_replicate 5 5 12 g0 (by decide)

/-! ## `get_initial_grid`: the shuffle -/

/-- The shuffle loops keep the count of every character. -/
theorem countCells_shuffle (dim : Nat) (rnd : Nat → Nat) (grid : Grid) (ch : Char) :
    countCells dim (shuffle dim rnd grid).1 ch = countCells dim grid ch := by
  unfold shuffle
  refine forLoop2_induction
    (fun _ (s : Grid × Nat) => countCells dim s.1 ch = countCells dim grid ch) dim
    (fun i j s => ((s.1.set i j (s.1 (rnd s.2 % dim) (rnd (s.2 + 1) % dim))).set
      (rnd s.2 % dim) (rnd (s.2 + 1) % dim) (s.1 i j), s.2 + 2)) (grid, 0) rfl ?_
  intro i j hi hj t ht
  rw [← ht]
  have hd : 0 < dim := by omega
  refine countCells_swap dim t.1 _ (i, j) (rnd t.2 % dim, rnd (t.2 + 1) % dim) ⟨hi, hj⟩
    ⟨Nat.mod_lt _ hd, Nat.mod_lt _ hd⟩ ?_ ?_ ?_ ch
  · simp only
    by_cases he : i = rnd t.2 % dim ∧ j = rnd (t.2 + 1) % dim
    · rw [← he.1, ← he.2, Grid.set_same]
    · rw [Grid.set_other _ _ _ _ _ _ he, Grid.set_same]
  · simp only
    rw [Grid.set_same]
  · intro x hx1 hx2
    simp only
    rw [Grid.set_other _ _ _ _ _ _ (fun hh => hx2 (Prod.ext hh.1 hh.2)),
      Grid.set_other _ _ _ _ _ _ (fun hh => hx1 (Prod.ext hh.1 hh.2))]

/-- C10 (the shuffle preserves counts). For every grid and every sequence of
values returned by `random()`, the grid left by the shuffle loops is a
rearrangement of the grid they start from: it has the same number of `'.'`,
of `'e'` and of `'n'` cells. -/
theorem C10_shuffle_preserves_counts (dim : Nat) (rnd : Nat → Nat) (grid : Grid) :
    (cells dim (shuffle dim rnd grid).1).Perm (cells dim grid) ∧
    countCells dim (shuffle dim rnd grid).1 '.' = countCells dim grid '.' ∧
    countCells dim (shuffle dim rnd grid).1 'e' = countCells dim grid 'e' ∧
    countCells dim (shuffle dim rnd grid).1 'n' = countCells dim grid 'n' :=
  ⟨cells_perm_of_count dim grid _ (countCells_shuffle dim rnd grid),
    countCells_shuffle dim rnd grid '.', countCells_shuffle dim rnd grid 'e',
    countCells_shuffle dim rnd grid 'n'⟩

/-! ## Rounding error -/

theorem log2Fuel_spec : ∀ (fuel n : Nat), n ≤ fuel →
    (1 ≤ n → 2 ^ log2Fuel fuel n ≤ n) ∧ n < 2 ^ (log2Fuel fuel n + 1) := by
  intro fuel
  induction fuel with
  | zero =>
    intro n hn
    have : n = 0 := by omega
    subst this
    exact ⟨fun h => absurd h (by decide), by simp [log2Fuel]⟩
  | succ f ih =>
    intro n hn
    unfold log2Fuel
    by_cases h2 : n < 2
    · rw [if_pos h2]
      exact ⟨fun h => by simpa using h, by simpa using h2⟩
    · rw [if_neg h2]
      obtain ⟨i1, i2⟩ := ih (n / 2) (by omega)
      have i1' := i1 (by omega)
      have e1 : 2 ^ (1 + log2Fuel f (n / 2)) = 2 * 2 ^ log2Fuel f (n / 2) := by
        rw [Nat.add_comm, Nat.pow_succ, Nat.mul_comm]
      have e2 : 2 ^ (1 + log2Fuel f (n / 2) + 1) = 2 * 2 ^ (log2Fuel f (n / 2) + 1) := by
        rw [Nat.add_comm 1, Nat.pow_succ, Nat.mul_comm]
      rw [e1, e2]
      exact ⟨fun _ => by omega, by omega⟩

theorem ilog2_le (n : Nat) (h : 1 ≤ n) : 2 ^ ilog2 n ≤ n :=
  (log2Fuel_spec n n (le_refl _)).1 h

theorem ilog2_lt (n : Nat) : n < 2 ^ (ilog2 n + 1) :=
  (log2Fuel_spec n n (le_refl _)).2

/-- The integer chosen by `rne` is within one half of the fraction. -/
theorem rne_spec (n d : Nat) (hd : 0 < d) :
    2 * (rne n d * d) ≤ 2 * n + d ∧ 2 * n ≤ 2 * (rne n d * d) + d := by
  have hdm : d * (n / d) + n % d = n := Nat.div_add_mod n d
  have hml : n % d < d := Nat.mod_lt n hd
  have e1 : (n / d + 1) * d = d * (n / d) + d := by ring
  have e2 : n / d * d = d * (n / d) := by ring
  unfold rne
  simp only
  split
  · rw [e2]; omega
  · split
    · rw [e1]; omega
    · split
      · rw [e2]; omega
      · rw [e1]; omega

/-- The scaling chosen by `roundPos` for a fraction below `2^p`: the scaled
fraction lies in `[2^(p-1), 2^p)`. -/
theorem roundPos_scale (p m d : Nat) (hp : 1 ≤ p) (hm : 0 < m) (hd : 0 < d)
    (hlt : m < 2 ^ p * d) :
    ∃ a : Nat, roundPos p m d = ⟨(rne (m * 2 ^ a) d : Nat), 2 ^ a⟩ ∧
      2 ^ (p - 1) * d ≤ m * 2 ^ a ∧ m * 2 ^ a < 2 ^ p * d := by
  have hpp : 2 ^ p = 2 * 2 ^ (p - 1) := by
    have : p = (p - 1) + 1 := by omega
    conv_lhs => rw [this]
    rw [Nat.pow_succ, Nat.mul_comm]
  unfold roundPos
  by_cases hdm : d ≤ m
  · rw [if_pos hdm]
    simp only
    have hq1 : 1 ≤ m / d := (Nat.one_le_div_iff hd).2 hdm
    have hlo : 2 ^ ilog2 (m / d) ≤ m / d := ilog2_le _ hq1
    have hhi : m / d < 2 ^ (ilog2 (m / d) + 1) := ilog2_lt _
    have hqp : m / d < 2 ^ p := (Nat.div_lt_iff_lt_mul hd).2 hlt
    have hep : ilog2 (m / d) < p := by
      by_contra hcon
      have : 2 ^ p ≤ 2 ^ ilog2 (m / d) := Nat.pow_le_pow_right (by decide) (by omega)
      omega
    rw [if_neg (by omega)]
    refine ⟨p - 1 - ilog2 (m / d), rfl, ?_, ?_⟩
    · have h1 : 2 ^ ilog2 (m / d) * d ≤ m :=
        le_trans (Nat.mul_le_mul_right d hlo) (Nat.div_mul_le_self m d)
      have h2 : 2 ^ (p - 1) = 2 ^ (p - 1 - ilog2 (m / d)) * 2 ^ ilog2 (m / d) := by
        rw [← Nat.pow_add]; congr 1; omega
      rw [h2, Nat.mul_assoc, Nat.mul_comm m]
      exact Nat.mul_le_mul_left _ h1
    · have h1 : m < 2 ^ (ilog2 (m / d) + 1) * d := (Nat.div_lt_iff_lt_mul hd).1 hhi
      have h2 : 2 ^ p = 2 ^ (p - 1 - ilog2 (m / d)) * 2 ^ (ilog2 (m / d) + 1) := by
        rw [← Nat.pow_add]; congr 1; omega
      rw [h2, Nat.mul_assoc, Nat.mul_comm m]
      exact Nat.mul_lt_mul_of_pos_left h1 (Nat.pos_pow_of_pos _ (by decide))
  · rw [if_neg hdm]
    simp only
    have hmd : m < d := by omega
    have hq1 : 1 ≤ d / m := (Nat.one_le_div_iff hm).2 (le_of_lt hmd)
    have hlo : 2 ^ ilog2 (d / m) ≤ d / m := ilog2_le _ hq1
    have hhi : d / m < 2 ^ (ilog2 (d / m) + 1) := ilog2_lt _
    have h1 : 2 ^ ilog2 (d / m) * m ≤ d :=
      le_trans (Nat.mul_le_mul_right m hlo) (Nat.div_mul_le_self d m)
    have h2 : d < 2 ^ (ilog2 (d / m) + 1) * m := (Nat.div_lt_iff_lt_mul hm).1 hhi
    have hP : 0 < 2 ^ (p - 1) := Nat.pos_pow_of_pos _ (by decide)
    by_cases hk : d ≤ m * 2 ^ ilog2 (d / m)
    · rw [if_pos hk]
      refine ⟨ilog2 (d / m) + (p - 1), rfl, ?_, ?_⟩
      · rw [Nat.pow_add, ← Nat.mul_assoc, Nat.mul_comm _ (2 ^ (p - 1))]
        exact Nat.mul_le_mul_left _ hk
      · have hk' : m * 2 ^ ilog2 (d / m) = d := by
          rw [Nat.mul_comm] at hk ⊢; omega
        rw [Nat.pow_add, ← Nat.mul_assoc, hk', hpp, Nat.mul_comm d]
        have : 0 < 2 ^ (p - 1) * d := Nat.mul_pos hP hd
        rw [Nat.mul_assoc]
        omega
    · rw [if_neg hk]
      refine ⟨ilog2 (d / m) + 1 + (p - 1), rfl, ?_, ?_⟩
      · rw [Nat.pow_add, ← Nat.mul_assoc, Nat.mul_comm _ (2 ^ (p - 1))]
        apply Nat.mul_le_mul_left
        rw [Nat.mul_comm]
        exact le_of_lt h2
      · have h3 : m * 2 ^ (ilog2 (d / m) + 1) < 2 * d := by
          rw [Nat.pow_succ, ← Nat.mul_assoc]
          omega
        rw [Nat.pow_add, ← Nat.mul_assoc, hpp]
        calc m * 2 ^ (ilog2 (d / m) + 1) * 2 ^ (p - 1)
            < 2 * d * 2 ^ (p - 1) := Nat.mul_lt_mul_of_pos_right h3 hP
          _ = 2 * 2 ^ (p - 1) * d := by ring

/-- Rounding a positive fraction below `2^p` to `p` bits changes it by at most
the fraction `2^(-p)` of itself. -/
theorem roundPos_error (p m d : Nat) (hp : 1 ≤ p) (hm : 0 < m) (hd : 0 < d)
    (hlt : m < 2 ^ p * d) :
    (roundPos p m d).toRat ≤ (m : ℚ) / d * (1 + 1 / 2 ^ p) ∧
      (m : ℚ) / d * (1 - 1 / 2 ^ p) ≤ (roundPos p m d).toRat := by
  obtain ⟨a, hr, h1, _⟩ := roundPos_scale p m d hp hm hd hlt
  obtain ⟨r1, r2⟩ := rne_spec (m * 2 ^ a) d hd
  rw [hr]
  unfold Fp.toRat
  simp only
  have hpp : (2 : ℚ) ^ p = 2 * 2 ^ (p - 1) := by
    have : p = (p - 1) + 1 := by omega
    conv_lhs => rw [this]
    rw [pow_succ, mul_comm]
  have hd' : (0 : ℚ) < d := by exact_mod_cast hd
  have hm' : (0 : ℚ) < m := by exact_mod_cast hm
  have hA : (0 : ℚ) < 2 ^ a := by positivity
  have hP : (0 : ℚ) < 2 ^ p := by positivity
  have q1 : (2 : ℚ) * ((rne (m * 2 ^ a) d : ℚ) * d) ≤ 2 * ((m : ℚ) * 2 ^ a) + d := by
    exact_mod_cast r1
  have q2 : (2 : ℚ) * ((m : ℚ) * 2 ^ a) ≤ 2 * ((rne (m * 2 ^ a) d : ℚ) * d) + d := by
    exact_mod_cast r2
  have q3 : (2 : ℚ) ^ (p - 1) * d ≤ (m : ℚ) * 2 ^ a := by exact_mod_cast h1
  have q3' : (2 : ℚ) ^ p * d ≤ 2 * ((m : ℚ) * 2 ^ a) := by rw [hpp]; linarith
  push_cast
  constructor
  · rw [div_le_iff₀ hA]
    have e : (m : ℚ) / d * (1 + 1 / 2 ^ p) * 2 ^ a =
        ((m : ℚ) * (2 ^ p + 1) * 2 ^ a) / (d * 2 ^ p) := by
      field_simp
    rw [e, le_div_iff₀ (by positivity)]
    nlinarith [mul_le_mul_of_nonneg_right q1 hP.le]
  · rw [le_div_iff₀ hA]
    have e : (m : ℚ) / d * (1 - 1 / 2 ^ p) * 2 ^ a =
        ((m : ℚ) * (2 ^ p - 1) * 2 ^ a) / (d * 2 ^ p) := by
      field_simp
    rw [e, div_le_iff₀ (by positivity)]
    nlinarith [mul_le_mul_of_nonneg_right q2 hP.le]

theorem Fp.round_num_nonneg (p : Nat) (n : Int) (d : Nat) (hn : 0 ≤ n) :
    0 ≤ (Fp.round p n d).num := by
  unfold Fp.round
  split
  · exact le_refl _
  · rw [if_neg (by omega)]
    exact roundPos_num_nonneg _ _ _

/-- The relative error of `round` on a non-negative fraction below `2^p`. -/
theorem Fp.round_error (p : Nat) (n : Int) (d : Nat) (hp : 1 ≤ p) (hn : 0 ≤ n)
    (hd : 0 < d) (hlt : n < 2 ^ p * (d : Int)) :
    (Fp.round p n d).toRat ≤ (n : ℚ) / d * (1 + 1 / 2 ^ p) ∧
      (n : ℚ) / d * (1 - 1 / 2 ^ p) ≤ (Fp.round p n d).toRat := by
  unfold Fp.round
  by_cases h0 : n = 0
  · subst h0
    simp [Fp.toRat]
  · rw [if_neg (by omega), if_neg (by omega)]
    have hm : 0 < n.natAbs := Int.natAbs_pos.2 h0
    have hcast : ((n.natAbs : Nat) : Int) = n := Int.natAbs_of_nonneg hn
    have hlt' : n.natAbs < 2 ^ p * d := by
      have : ((n.natAbs : Nat) : Int) < ((2 ^ p * d : Nat) : Int) := by
        rw [hcast]; push_cast; exact hlt
      exact_mod_cast this
    have h := roundPos_error p n.natAbs d hp hm hd hlt'
    have hq : ((n.natAbs : Nat) : ℚ) = (n : ℚ) := by
      rw [← Int.cast_natCast, hcast]
    rw [hq] at h
    exact h

theorem Fp.toRat_nonneg (a : Fp) (h : 0 ≤ a.num) : 0 ≤ a.toRat := by
  unfold Fp.toRat
  exact div_nonneg (by exact_mod_cast h) (Nat.cast_nonneg _)

/-- Conversion to `int` of a non-negative value: non-negative and not above
the value. -/
theorem Fp.toInt_le (a : Fp) (h : 0 ≤ a.num) (hd : 0 < a.den) :
    0 ≤ a.toInt ∧ (a.toInt : ℚ) ≤ a.toRat := by
  unfold Fp.toInt Fp.toRat
  have hd' : (0 : ℚ) < (a.den : ℚ) := by exact_mod_cast hd
  have e : Int.tdiv a.num a.den = a.num / (a.den : Int) :=
    Int.tdiv_eq_ediv h (Int.natCast_nonneg _)
  rw [e]
  refine ⟨Int.ediv_nonneg h (Int.natCast_nonneg _), ?_⟩
  rw [le_div_iff₀ hd']
  have := Int.ediv_mul_le a.num (show ((a.den : Nat) : Int) ≠ 0 by omega)
  exact_mod_cast this

/-- The product of two non-negative `double`s whose exact product is below
`2^53`. -/
theorem Fp.mul_upper (a b : Fp) (ha : 0 ≤ a.num) (hb : 0 ≤ b.num) (had : 0 < a.den)
    (hbd : 0 < b.den) (hlt : a.toRat * b.toRat < 2 ^ 53) :
    0 ≤ (Fp.mul DBL a b).num ∧ 0 < (Fp.mul DBL a b).den ∧
      (Fp.mul DBL a b).toRat ≤ a.toRat * b.toRat * (1 + 1 / 2 ^ 53) := by
  unfold Fp.mul
  have had' : (0 : ℚ) < (a.den : ℚ) := by exact_mod_cast had
  have hbd' : (0 : ℚ) < (b.den : ℚ) := by exact_mod_cast hbd
  have hlt' : a.num * b.num < 2 ^ DBL * ((a.den * b.den : Nat) : Int) := by
    unfold Fp.toRat at hlt
    rw [div_mul_div_comm, div_lt_iff₀ (by positivity)] at hlt
    have : ((a.num * b.num : Int) : ℚ) < ((2 ^ 53 * ((a.den * b.den : Nat) : Int) : Int) : ℚ) := by
      push_cast; exact hlt
    exact_mod_cast this
  have h := Fp.round_error DBL (a.num * b.num) (a.den * b.den) (by decide)
    (Int.mul_nonneg ha hb) (Nat.mul_pos had hbd) hlt'
  refine ⟨Fp.round_num_nonneg _ _ _ (Int.mul_nonneg ha hb), Fp.round_den_pos _ _ _, ?_⟩
  have e : (((a.num * b.num : Int)) : ℚ) / ((a.den * b.den : Nat) : ℚ) = a.toRat * b.toRat := by
    unfold Fp.toRat
    push_cast
    rw [div_mul_div_comm]
  rw [e] at h
  exact h.1

/-- The product of two non-negative `double`s whose exact product is below
`2^53` is not below the exact product by more than its fraction `2^(-53)`. -/
theorem Fp.mul_lower (a b : Fp) (ha : 0 ≤ a.num) (hb : 0 ≤ b.num) (had : 0 < a.den)
    (hbd : 0 < b.den) (hlt : a.toRat * b.toRat < 2 ^ 53) :
    a.toRat * b.toRat * (1 - 1 / 2 ^ 53) ≤ (Fp.mul DBL a b).toRat := by
  unfold Fp.mul
  have had' : (0 : ℚ) < (a.den : ℚ) := by exact_mod_cast had
  have hbd' : (0 : ℚ) < (b.den : ℚ) := by exact_mod_cast hbd
  have hlt' : a.num * b.num < 2 ^ DBL * ((a.den * b.den : Nat) : Int) := by
    unfold Fp.toRat at hlt
    rw [div_mul_div_comm, div_lt_iff₀ (by positivity)] at hlt
    have : ((a.num * b.num : Int) : ℚ) < ((2 ^ 53 * ((a.den * b.den : Nat) : Int) : Int) : ℚ) := by
      push_cast; exact hlt
    exact_mod_cast this
  have h := Fp.round_error DBL (a.num * b.num) (a.den * b.den) (by decide)
    (Int.mul_nonneg ha hb) (Nat.mul_pos had hbd) hlt'
  have e : (((a.num * b.num : Int)) : ℚ) / ((a.den * b.den : Nat) : ℚ) = a.toRat * b.toRat := by
    unfold Fp.toRat
    push_cast
    rw [div_mul_div_comm]
  rw [e] at h
  exact h.2

/-- Conversion to `int` of a non-negative value loses less than one. -/
theorem Fp.toInt_gt (a : Fp) (h : 0 ≤ a.num) (hd : 0 < a.den) :
    a.toRat < (a.toInt : ℚ) + 1 := by
  unfold Fp.toInt Fp.toRat
  have hd' : (0 : ℚ) < (a.den : ℚ) := by exact_mod_cast hd
  have e : Int.tdiv a.num a.den = a.num / (a.den : Int) :=
    Int.tdiv_eq_ediv h (Int.natCast_nonneg _)
  rw [e, div_lt_iff₀ hd']
  have hpos : (0 : Int) < (a.den : Int) := by exact_mod_cast hd
  have := Int.lt_ediv_add_one_mul_self a.num hpos
  exact_mod_cast this


/-! ## The two numbers of `get_initial_grid` in exact arithmetic -/

set_option maxRecDepth 100000 in
/-- A table of the `double`s `x = p/100.0` and `y = 1 - p/100.0` for
`p = 1 .. 99`: both lie in `[0, 1]`. -/
theorem percent_table : ∀ n : Nat, n < 99 →
    0 ≤ (percent ((n : Int) + 1)).num ∧
    (percent ((n : Int) + 1)).num ≤ ((percent ((n : Int) + 1)).den : Int) ∧
    0 ≤ (Fp.sub DBL (Fp.ofInt DBL 1) (percent ((n : Int) + 1))).num ∧
    (Fp.sub DBL (Fp.ofInt DBL 1) (percent ((n : Int) + 1))).num ≤
      ((Fp.sub DBL (Fp.ofInt DBL 1) (percent ((n : Int) + 1))).den : Int) := by
  decide

theorem percent_den_pos (p : Int) : 0 < (percent p).den := Fp.round_den_pos _ _ _

set_option maxRecDepth 100000 in
/-- A second table of the `double`s `x = p/100.0` and `y = 1 - p/100.0` for
`p = 1 .. 99`: `x` is within the fraction `2^(-45)` of `p/100` and `y` within
the fraction `2^(-45)` of `(100 - p)/100` (written without fractions). -/
theorem percent_table_exact : ∀ n : Nat, n < 99 →
    (percent ((n : Int) + 1)).num * (100 * 2 ^ 45) ≤
      ((n : Int) + 1) * (2 ^ 45 + 1) * ((percent ((n : Int) + 1)).den : Int) ∧
    ((n : Int) + 1) * (2 ^ 45 - 1) * ((percent ((n : Int) + 1)).den : Int) ≤
      (percent ((n : Int) + 1)).num * (100 * 2 ^ 45) ∧
    (Fp.sub DBL (Fp.ofInt DBL 1) (percent ((n : Int) + 1))).num * (100 * 2 ^ 45) ≤
      (100 - ((n : Int) + 1)) * (2 ^ 45 + 1) *
        ((Fp.sub DBL (Fp.ofInt DBL 1) (percent ((n : Int) + 1))).den : Int) ∧
    (100 - ((n : Int) + 1)) * (2 ^ 45 - 1) *
        ((Fp.sub DBL (Fp.ofInt DBL 1) (percent ((n : Int) + 1))).den : Int) ≤
      (Fp.sub DBL (Fp.ofInt DBL 1) (percent ((n : Int) + 1))).num * (100 * 2 ^ 45) := by
  decide

/-- A fraction within the fraction `2^(-45)` of `k/100`, from the
cross-multiplied inequalities. -/
theorem near_of_cross (a : Fp) (k : Int) (hd : 0 < a.den)
    (h1 : a.num * (100 * 2 ^ 45) ≤ k * (2 ^ 45 + 1) * (a.den : Int))
    (h2 : k * (2 ^ 45 - 1) * (a.den : Int) ≤ a.num * (100 * 2 ^ 45)) :
    a.toRat ≤ (k : ℚ) / 100 * (1 + 1 / 2 ^ 45) ∧ (k : ℚ) / 100 * (1 - 1 / 2 ^ 45) ≤ a.toRat := by
  unfold Fp.toRat
  have hd' : (0 : ℚ) < (a.den : ℚ) := by exact_mod_cast hd
  have q1 : (a.num : ℚ) * (100 * 2 ^ 45) ≤ (k : ℚ) * (2 ^ 45 + 1) * (a.den : ℚ) := by
    exact_mod_cast h1
  have q2 : (k : ℚ) * (2 ^ 45 - 1) * (a.den : ℚ) ≤ (a.num : ℚ) * (100 * 2 ^ 45) := by
    exact_mod_cast h2
  constructor
  · rw [div_le_iff₀ hd']
    have e : (k : ℚ) / 100 * (1 + 1 / 2 ^ 45) * (a.den : ℚ) =
        ((k : ℚ) * (2 ^ 45 + 1) * (a.den : ℚ)) / (100 * 2 ^ 45) := by
      field_simp
    rw [e, le_div_iff₀ (by positivity)]
    exact q1
  · rw [le_div_iff₀ hd']
    have e : (k : ℚ) / 100 * (1 - 1 / 2 ^ 45) * (a.den : ℚ) =
        ((k : ℚ) * (2 ^ 45 - 1) * (a.den : ℚ)) / (100 * 2 ^ 45) := by
      field_simp
    rw [e, div_le_iff₀ (by positivity)]
    exact q2

/-- The `double` made from `dim * dim`, for `dim ≤ 39`. -/
theorem dimsq_double (dim : Nat) (hdim : dim ≤ 39) :
    0 ≤ (Fp.ofInt DBL ((dim : Int) * dim)).num ∧
    0 < (Fp.ofInt DBL ((dim : Int) * dim)).den ∧
    (Fp.ofInt DBL ((dim : Int) * dim)).toRat ≤ (dim : ℚ) * dim * (1 + 1 / 2 ^ 53) ∧
    (dim : ℚ) * dim * (1 - 1 / 2 ^ 53) ≤ (Fp.ofInt DBL ((dim : Int) * dim)).toRat ∧
    (Fp.ofInt DBL ((dim : Int) * dim)).toRat ≤ 3042 := by
  have hdd : dim * dim ≤ 39 * 39 := Nat.mul_le_mul hdim hdim
  have hd2 : ((dim : ℚ)) * dim ≤ 1521 := by exact_mod_cast hdd
  have hdi : 0 ≤ (dim : Int) * dim := Int.mul_nonneg (Int.natCast_nonneg _) (Int.natCast_nonneg _)
  have hc0 : (0 : ℚ) < 1 + 1 / 2 ^ 53 := by positivity
  have hc2 : (1 : ℚ) + 1 / 2 ^ 53 ≤ 2 := by norm_num
  have h := Fp.round_error DBL ((dim : Int) * dim) 1 (by decide) hdi (by decide) (by
    have : (dim : Int) * dim ≤ 1521 := by exact_mod_cast hdd
    have e : (2 : Int) ^ DBL * ((1 : Nat) : Int) = 9007199254740992 := by decide
    rw [e]; omega)
  have h1 : (Fp.ofInt DBL ((dim : Int) * dim)).toRat ≤ (dim : ℚ) * dim * (1 + 1 / 2 ^ 53) := by
    simpa [DBL, Fp.ofInt] using h.1
  have h2 : (dim : ℚ) * dim * (1 - 1 / 2 ^ 53) ≤ (Fp.ofInt DBL ((dim : Int) * dim)).toRat := by
    simpa [DBL, Fp.ofInt] using h.2
  refine ⟨Fp.round_num_nonneg _ _ _ hdi, Fp.round_den_pos _ _ _, h1, h2, ?_⟩
  have a1 : (dim : ℚ) * dim * (1 + 1 / 2 ^ 53) ≤ 1521 * 2 :=
    mul_le_mul hd2 hc2 hc0.le (by norm_num)
  linarith

/-- In exact arithmetic `num_vacant` is the integer part of
`dim * dim * percent_vacant / 100`, or one less than it when that quotient is
an integer. -/
theorem num_vacant_exact (dim : Nat) (pv : Int) (hdim : dim ≤ 39)
    (hpv : 1 ≤ pv ∧ pv ≤ 99) :
    0 ≤ num_vacant dim pv ∧
    num_vacant dim pv ≤ ((dim * dim : Nat) : Int) * pv / 100 ∧
    ((dim * dim : Nat) : Int) * pv / 100 - 1 ≤ num_vacant dim pv ∧
    ((((dim * dim : Nat) : Int) * pv) % 100 ≠ 0 →
      num_vacant dim pv = ((dim * dim : Nat) : Int) * pv / 100) := by
  have hpv' : (((pv - 1).toNat : Nat) : Int) + 1 = pv := by omega
  have tv := percent_table (pv - 1).toNat (by omega)
  have tx := percent_table_exact (pv - 1).toNat (by omega)
  rw [hpv'] at tv tx
  obtain ⟨x0, x1, _, _⟩ := tv
  have hXd := percent_den_pos pv
  obtain ⟨hx0, hx1⟩ := Fp.toRat_unit _ x0 x1 hXd
  obtain ⟨nx1, nx2⟩ := near_of_cross (percent pv) pv hXd tx.1 tx.2.1
  obtain ⟨hDn, hDd, hD1, hD2, hD3⟩ := dimsq_double dim hdim
  have hD0 := Fp.toRat_nonneg _ hDn
  have hlt : (Fp.ofInt DBL ((dim : Int) * dim)).toRat * (percent pv).toRat < 2 ^ 53 := by
    have : (Fp.ofInt DBL ((dim : Int) * dim)).toRat * (percent pv).toRat ≤ 3042 * 1 :=
      mul_le_mul hD3 hx1 hx0 (by norm_num)
    exact lt_of_le_of_lt this (by norm_num)
  obtain ⟨v1, v2, v3⟩ := Fp.mul_upper _ (percent pv) hDn x0 hDd hXd hlt
  have v4 := Fp.mul_lower _ (percent pv) hDn x0 hDd hXd hlt
  obtain ⟨i1, i2⟩ := Fp.toInt_le _ v1 v2
  have i3 := Fp.toInt_gt _ v1 v2
  have hdd : dim * dim ≤ 39 * 39 := Nat.mul_le_mul hdim hdim
  have hd2 : ((dim : ℚ)) * dim ≤ 1521 := by exact_mod_cast hdd
  have hd0 : (0 : ℚ) ≤ (dim : ℚ) * dim := mul_nonneg (Nat.cast_nonneg _) (Nat.cast_nonneg _)
  have hp0 : (0 : ℚ) ≤ (pv : ℚ) / 100 := by
    have : (0 : ℚ) ≤ (pv : ℚ) := by exact_mod_cast (by omega : (0 : Int) ≤ pv)
    exact div_nonneg this (by norm_num)
  have hp1 : (pv : ℚ) / 100 ≤ 1 := by
    have : (pv : ℚ) ≤ 99 := by exact_mod_cast hpv.2
    linarith
  have hA0 : (0 : ℚ) ≤ (dim : ℚ) * dim * ((pv : ℚ) / 100) := mul_nonneg hd0 hp0
  have hA1 : (dim : ℚ) * dim * ((pv : ℚ) / 100) ≤ 1521 := by
    have := mul_le_mul hd2 hp1 hp0 (by norm_num : (0 : ℚ) ≤ 1521)
    linarith
  have hc0 : (0 : ℚ) ≤ 1 + 1 / 2 ^ 53 := by positivity
  have hc0' : (0 : ℚ) ≤ 1 - 1 / 2 ^ 53 := by norm_num
  have he0 : (0 : ℚ) ≤ 1 - 1 / 2 ^ 45 := by norm_num
  -- upper bound
  have up : (Fp.mul DBL (Fp.ofInt DBL ((dim : Int) * dim)) (percent pv)).toRat ≤
      (dim : ℚ) * dim * ((pv : ℚ) / 100) * (1 + 1 / 2 ^ 44) := by
    have s1 : (Fp.ofInt DBL ((dim : Int) * dim)).toRat * (percent pv).toRat ≤
        (dim : ℚ) * dim * (1 + 1 / 2 ^ 53) * ((pv : ℚ) / 100 * (1 + 1 / 2 ^ 45)) :=
      mul_le_mul hD1 nx1 hx0 (mul_nonneg hd0 hc0)
    have s2 := le_trans v3 (mul_le_mul_of_nonneg_right s1 hc0)
    have s3 : (dim : ℚ) * dim * (1 + 1 / 2 ^ 53) * ((pv : ℚ) / 100 * (1 + 1 / 2 ^ 45)) *
        (1 + 1 / 2 ^ 53) = (dim : ℚ) * dim * ((pv : ℚ) / 100) *
          ((1 + 1 / 2 ^ 45) * (1 + 1 / 2 ^ 53) ^ 2) := by ring
    rw [s3] at s2
    exact le_trans s2 (mul_le_mul_of_nonneg_left (by norm_num) hA0)
  have lo : (dim : ℚ) * dim * ((pv : ℚ) / 100) * (1 - 1 / 2 ^ 44) ≤
      (Fp.mul DBL (Fp.ofInt DBL ((dim : Int) * dim)) (percent pv)).toRat := by
    have s1 : (dim : ℚ) * dim * (1 - 1 / 2 ^ 53) * ((pv : ℚ) / 100 * (1 - 1 / 2 ^ 45)) ≤
        (Fp.ofInt DBL ((dim : Int) * dim)).toRat * (percent pv).toRat :=
      mul_le_mul hD2 nx2 (mul_nonneg hp0 he0) hD0
    have s2 := le_trans (mul_le_mul_of_nonneg_right s1 hc0') v4
    have s3 : (dim : ℚ) * dim * (1 - 1 / 2 ^ 53) * ((pv : ℚ) / 100 * (1 - 1 / 2 ^ 45)) *
        (1 - 1 / 2 ^ 53) = (dim : ℚ) * dim * ((pv : ℚ) / 100) *
          ((1 - 1 / 2 ^ 45) * (1 - 1 / 2 ^ 53) ^ 2) := by ring
    rw [s3] at s2
    exact le_trans (mul_le_mul_of_nonneg_left (by norm_num) hA0) s2
  have hk : (dim : ℚ) * dim * ((pv : ℚ) / 100) * 100 = (((dim * dim : Nat) : Int) * pv : Int) := by
    push_cast; ring
  have b1 : ((100 * num_vacant dim pv : Int) : ℚ) < ((((dim * dim : Nat) : Int) * pv + 1 : Int) : ℚ) := by
    have : ((num_vacant dim pv : Int) : ℚ) ≤
        (dim : ℚ) * dim * ((pv : ℚ) / 100) * (1 + 1 / 2 ^ 44) := le_trans i2 up
    rw [Int.cast_add, ← hk]
    push_cast
    have t : (dim : ℚ) * dim * ((pv : ℚ) / 100) * (1 / 2 ^ 44) ≤ 1521 * (1 / 2 ^ 44) :=
      mul_le_mul_of_nonneg_right hA1 (by norm_num)
    have t2 : (1521 : ℚ) * (1 / 2 ^ 44) < 1 / 200 := by norm_num
    linarith
  have b2 : ((((dim * dim : Nat) : Int) * pv - 101 : Int) : ℚ) < ((100 * num_vacant dim pv : Int) : ℚ) := by
    have : (dim : ℚ) * dim * ((pv : ℚ) / 100) * (1 - 1 / 2 ^ 44) <
        ((num_vacant dim pv : Int) : ℚ) + 1 := lt_of_le_of_lt lo i3
    rw [Int.cast_sub, ← hk]
    push_cast
    have t : (dim : ℚ) * dim * ((pv : ℚ) / 100) * (1 / 2 ^ 44) ≤ 1521 * (1 / 2 ^ 44) :=
      mul_le_mul_of_nonneg_right hA1 (by norm_num)
    have t2 : (1521 : ℚ) * (1 / 2 ^ 44) < 1 / 200 := by norm_num
    linarith
  have c1 : 100 * num_vacant dim pv < ((dim * dim : Nat) : Int) * pv + 1 := by exact_mod_cast b1
  have c2 : ((dim * dim : Nat) : Int) * pv - 101 < 100 * num_vacant dim pv := by exact_mod_cast b2
  refine ⟨i1, by omega, by omega, fun h => by omega⟩

/-- In exact arithmetic `num_endline` is the integer part of
`dim * dim * (100 - percent_vacant) * percent_endline / 10000`, or one less
than it when that quotient is an integer. -/
theorem num_endline_exact (dim : Nat) (pv pe : Int) (hdim : dim ≤ 39)
    (hpv : 1 ≤ pv ∧ pv ≤ 99) (hpe : 1 ≤ pe ∧ pe ≤ 99) :
    0 ≤ num_endline dim pv pe ∧
    num_endline dim pv pe ≤ ((dim * dim : Nat) : Int) * (100 - pv) * pe / 10000 ∧
    ((dim * dim : Nat) : Int) * (100 - pv) * pe / 10000 - 1 ≤ num_endline dim pv pe ∧
    ((((dim * dim : Nat) : Int) * (100 - pv) * pe) % 10000 ≠ 0 →
      num_endline dim pv pe = ((dim * dim : Nat) : Int) * (100 - pv) * pe / 10000) := by
  have hpv' : (((pv - 1).toNat : Nat) : Int) + 1 = pv := by omega
  have hpe' : (((pe - 1).toNat : Nat) : Int) + 1 = pe := by omega
  have tv := percent_table (pv - 1).toNat (by omega)
  have tx := percent_table_exact (pv - 1).toNat (by omega)
  have te := percent_table (pe - 1).toNat (by omega)
  have ty := percent_table_exact (pe - 1).toNat (by omega)
  rw [hpv'] at tv tx
  rw [hpe'] at te ty
  obtain ⟨_, _, y0, y1⟩ := tv
  obtain ⟨z0, z1, _, _⟩ := te
  have hYd : 0 < (Fp.sub DBL (Fp.ofInt DBL 1) (percent pv)).den := Fp.round_den_pos _ _ _
  have hZd := percent_den_pos pe
  obtain ⟨hy0, hy1⟩ := Fp.toRat_unit _ y0 y1 hYd
  obtain ⟨hz0, hz1⟩ := Fp.toRat_unit _ z0 z1 hZd
  obtain ⟨ny1, ny2⟩ := near_of_cross _ (100 - pv) hYd tx.2.2.1 tx.2.2.2
  obtain ⟨nz1, nz2⟩ := near_of_cross (percent pe) pe hZd ty.1 ty.2.1
  obtain ⟨hDn, hDd, hD1, hD2, hD3⟩ := dimsq_double dim hdim
  have hD0 := Fp.toRat_nonneg _ hDn
  have hc0 : (0 : ℚ) ≤ 1 + 1 / 2 ^ 53 := by norm_num
  have hc2 : (1 : ℚ) + 1 / 2 ^ 53 ≤ 2 := by norm_num
  have hc0' : (0 : ℚ) ≤ 1 - 1 / 2 ^ 53 := by norm_num
  have he0 : (0 : ℚ) ≤ 1 - 1 / 2 ^ 45 := by norm_num
  have he1 : (0 : ℚ) ≤ 1 + 1 / 2 ^ 45 := by norm_num
  have hlt : (Fp.ofInt DBL ((dim : Int) * dim)).toRat *
      (Fp.sub DBL (Fp.ofInt DBL 1) (percent pv)).toRat < 2 ^ 53 := by
    have : (Fp.ofInt DBL ((dim : Int) * dim)).toRat *
        (Fp.sub DBL (Fp.ofInt DBL 1) (percent pv)).toRat ≤ 3042 * 1 :=
      mul_le_mul hD3 hy1 hy0 (by norm_num)
    exact lt_of_le_of_lt this (by norm_num)
  obtain ⟨w1, w2, w3⟩ := Fp.mul_upper _ _ hDn y0 hDd hYd hlt
  have w4 := Fp.mul_lower _ _ hDn y0 hDd hYd hlt
  have w0 := Fp.toRat_nonneg _ w1
  have w5 : (Fp.mul DBL (Fp.ofInt DBL ((dim : Int) * dim))
      (Fp.sub DBL (Fp.ofInt DBL 1) (percent pv))).toRat ≤ 6084 := by
    have a1 : (Fp.ofInt DBL ((dim : Int) * dim)).toRat *
        (Fp.sub DBL (Fp.ofInt DBL 1) (percent pv)).toRat ≤ 3042 * 1 :=
      mul_le_mul hD3 hy1 hy0 (by norm_num)
    have a2 := mul_le_mul a1 hc2 hc0 (by norm_num : (0 : ℚ) ≤ 3042 * 1)
    linarith
  have hlt2 : (Fp.mul DBL (Fp.ofInt DBL ((dim : Int) * dim))
      (Fp.sub DBL (Fp.ofInt DBL 1) (percent pv))).toRat * (percent pe).toRat < 2 ^ 53 := by
    have : (Fp.mul DBL (Fp.ofInt DBL ((dim : Int) * dim))
        (Fp.sub DBL (Fp.ofInt DBL 1) (percent pv))).toRat * (percent pe).toRat ≤ 6084 * 1 :=
      mul_le_mul w5 hz1 hz0 (by norm_num)
    exact lt_of_le_of_lt this (by norm_num)
  obtain ⟨n1, n2, n3⟩ := Fp.mul_upper _ (percent pe) w1 z0 w2 hZd hlt2
  have n4 := Fp.mul_lower _ (percent pe) w1 z0 w2 hZd hlt2
  obtain ⟨i1, i2⟩ := Fp.toInt_le _ n1 n2
  have i3 := Fp.toInt_gt _ n1 n2
  -- the exact quantities
  have hdd : dim * dim ≤ 39 * 39 := Nat.mul_le_mul hdim hdim
  have hd2 : ((dim : ℚ)) * dim ≤ 1521 := by exact_mod_cast hdd
  have hd0 : (0 : ℚ) ≤ (dim : ℚ) * dim := mul_nonneg (Nat.cast_nonneg _) (Nat.cast_nonneg _)
  have hq0 : (0 : ℚ) ≤ ((100 - pv : Int) : ℚ) / 100 := by
    have : (0 : ℚ) ≤ ((100 - pv : Int) : ℚ) := by exact_mod_cast (by omega : (0 : Int) ≤ 100 - pv)
    exact div_nonneg this (by norm_num)
  have hq1 : ((100 - pv : Int) : ℚ) / 100 ≤ 1 := by
    have : ((100 - pv : Int) : ℚ) ≤ 99 := by exact_mod_cast (by omega : 100 - pv ≤ (99 : Int))
    linarith
  have hp0 : (0 : ℚ) ≤ (pe : ℚ) / 100 := by
    have : (0 : ℚ) ≤ (pe : ℚ) := by exact_mod_cast (by omega : (0 : Int) ≤ pe)
    exact div_nonneg this (by norm_num)
  have hp1 : (pe : ℚ) / 100 ≤ 1 := by
    have : (pe : ℚ) ≤ 99 := by exact_mod_cast hpe.2
    linarith
  have hB0 : (0 : ℚ) ≤ (dim : ℚ) * dim * (((100 - pv : Int) : ℚ) / 100) * ((pe : ℚ) / 100) :=
    mul_nonneg (mul_nonneg hd0 hq0) hp0
  have hB1 : (dim : ℚ) * dim * (((100 - pv : Int) : ℚ) / 100) * ((pe : ℚ) / 100) ≤ 1521 := by
    have a1 := mul_le_mul hd2 hq1 hq0 (by norm_num : (0 : ℚ) ≤ 1521)
    have a2 := mul_le_mul a1 hp1 hp0 (by norm_num : (0 : ℚ) ≤ 1521 * 1)
    linarith
  -- upper bound
  have up : (Fp.mul DBL (Fp.mul DBL (Fp.ofInt DBL ((dim : Int) * dim))
      (Fp.sub DBL (Fp.ofInt DBL 1) (percent pv))) (percent pe)).toRat ≤
      (dim : ℚ) * dim * (((100 - pv : Int) : ℚ) / 100) * ((pe : ℚ) / 100) * (1 + 1 / 2 ^ 43) := by
    have s1 : (Fp.ofInt DBL ((dim : Int) * dim)).toRat *
        (Fp.sub DBL (Fp.ofInt DBL 1) (percent pv)).toRat ≤
        (dim : ℚ) * dim * (1 + 1 / 2 ^ 53) * (((100 - pv : Int) : ℚ) / 100 * (1 + 1 / 2 ^ 45)) :=
      mul_le_mul hD1 ny1 hy0 (mul_nonneg hd0 hc0)
    have s2 := le_trans w3 (mul_le_mul_of_nonneg_right s1 hc0)
    have s3 := mul_le_mul s2 nz1 hz0
      (mul_nonneg (mul_nonneg (mul_nonneg hd0 hc0) (mul_nonneg hq0 he1)) hc0)
    have s4 := le_trans n3 (mul_le_mul_of_nonneg_right s3 hc0)
    have s5 : (dim : ℚ) * dim * (1 + 1 / 2 ^ 53) * (((100 - pv : Int) : ℚ) / 100 * (1 + 1 / 2 ^ 45)) *
        (1 + 1 / 2 ^ 53) * ((pe : ℚ) / 100 * (1 + 1 / 2 ^ 45)) * (1 + 1 / 2 ^ 53) =
        (dim : ℚ) * dim * (((100 - pv : Int) : ℚ) / 100) * ((pe : ℚ) / 100) *
          ((1 + 1 / 2 ^ 45) ^ 2 * (1 + 1 / 2 ^ 53) ^ 3) := by ring
    rw [s5] at s4
    exact le_trans s4 (mul_le_mul_of_nonneg_left (by norm_num) hB0)
  have lo : (dim : ℚ) * dim * (((100 - pv : Int) : ℚ) / 100) * ((pe : ℚ) / 100) * (1 - 1 / 2 ^ 43) ≤
      (Fp.mul DBL (Fp.mul DBL (Fp.ofInt DBL ((dim : Int) * dim))
        (Fp.sub DBL (Fp.ofInt DBL 1) (percent pv))) (percent pe)).toRat := by
    have s1 : (dim : ℚ) * dim * (1 - 1 / 2 ^ 53) * (((100 - pv : Int) : ℚ) / 100 * (1 - 1 / 2 ^ 45)) ≤
        (Fp.ofInt DBL ((dim : Int) * dim)).toRat *
          (Fp.sub DBL (Fp.ofInt DBL 1) (percent pv)).toRat :=
      mul_le_mul hD2 ny2 (mul_nonneg hq0 he0) hD0
    have s2 := le_trans (mul_le_mul_of_nonneg_right s1 hc0') w4
    have s3 := mul_le_mul s2 nz2 (mul_nonneg hp0 he0) w0
    have s4 := le_trans (mul_le_mul_of_nonneg_right s3 hc0') n4
    have s5 : (dim : ℚ) * dim * (1 - 1 / 2 ^ 53) * (((100 - pv : Int) : ℚ) / 100 * (1 - 1 / 2 ^ 45)) *
        (1 - 1 / 2 ^ 53) * ((pe : ℚ) / 100 * (1 - 1 / 2 ^ 45)) * (1 - 1 / 2 ^ 53) =
        (dim : ℚ) * dim * (((100 - pv : Int) : ℚ) / 100) * ((pe : ℚ) / 100) *
          ((1 - 1 / 2 ^ 45) ^ 2 * (1 - 1 / 2 ^ 53) ^ 3) := by ring
    rw [s5] at s4
    exact le_trans (mul_le_mul_of_nonneg_left (by norm_num) hB0) s4
  have hk : (dim : ℚ) * dim * (((100 - pv : Int) : ℚ) / 100) * ((pe : ℚ) / 100) * 10000 =
      (((dim * dim : Nat) : Int) * (100 - pv) * pe : Int) := by
    push_cast; ring
  have t : (dim : ℚ) * dim * (((100 - pv : Int) : ℚ) / 100) * ((pe : ℚ) / 100) * (1 / 2 ^ 43) ≤
      1521 * (1 / 2 ^ 43) :=
    mul_le_mul_of_nonneg_right hB1 (by norm_num)
  have t2 : (1521 : ℚ) * (1 / 2 ^ 43) < 1 / 20000 := by norm_num
  have b1 : ((10000 * num_endline dim pv pe : Int) : ℚ) <
      ((((dim * dim : Nat) : Int) * (100 - pv) * pe + 1 : Int) : ℚ) := by
    have := le_trans i2 up
    rw [Int.cast_add, ← hk]
    unfold num_endline
    push_cast
    push_cast at this
    linarith
  have b2 : ((((dim * dim : Nat) : Int) * (100 - pv) * pe - 10001 : Int) : ℚ) <
      ((10000 * num_endline dim pv pe : Int) : ℚ) := by
    have := lt_of_le_of_lt lo i3
    rw [Int.cast_sub, ← hk]
    unfold num_endline
    push_cast
    push_cast at this
    linarith
  have c1 : 10000 * num_endline dim pv pe < ((dim * dim : Nat) : Int) * (100 - pv) * pe + 1 := by
    exact_mod_cast b1
  have c2 : ((dim * dim : Nat) : Int) * (100 - pv) * pe - 10001 <
      10000 * num_endline dim pv pe := by exact_mod_cast b2
  refine ⟨i1, by omega, by omega, fun h => by omega⟩

/-- For `dim ≤ 39` and percentages in `[1, 99]` the two numbers computed by
`get_initial_grid` are non-negative and their sum is at most `dim * dim`. -/
theorem initial_counts_fit (dim : Nat) (pv pe : Int) (hdim : dim ≤ 39)
    (hpv : 1 ≤ pv ∧ pv ≤ 99) (hpe : 1 ≤ pe ∧ pe ≤ 99) :
    0 ≤ num_vacant dim pv ∧ 0 ≤ num_endline dim pv pe ∧
      num_vacant dim pv + num_endline dim pv pe ≤ ((dim * dim : Nat) : Int) := by
  obtain ⟨v0, v1, _, _⟩ := num_vacant_exact dim pv hdim hpv
  obtain ⟨e0, e1, _, _⟩ := num_endline_exact dim pv pe hdim hpv hpe
  refine ⟨v0, e0, ?_⟩
  have hD : (0 : Int) ≤ ((dim * dim : Nat) : Int) := Int.natCast_nonneg _
  have h1 : ((dim * dim : Nat) : Int) * (100 - pv) * pe ≤
      ((dim * dim : Nat) : Int) * (100 - pv) * 100 :=
    Int.mul_le_mul_of_nonneg_left (by omega) (Int.mul_nonneg hD (by omega))
  have h2 : ((dim * dim : Nat) : Int) * (100 - pv) * 100 =
      10000 * ((dim * dim : Nat) : Int) - 100 * (((dim * dim : Nat) : Int) * pv) := by ring
  omega

/-! ## Initial counts -/

/-- C8 fails for `dim = 5`, `percent_vacant = 3` (with `percent_endline = 60`):
rounding `25 · 3/100 = 0.75` gives `1`, but the conversion of the `double`
product to `int` truncates, `num_vacant` is `0` and the filled grid holds no
`'.'` at all. It also fails for `dim = 10`, `percent_vacant = 29`, where the
`double` product falls just below `29` and `num_vacant` is `28`. -/
theorem C8_counterexample :
    round ((5 : ℚ) ^ 2 * 3 / 100) = 1 ∧
    num_vacant 5 3 = 0 ∧
    countCells 5 (fill 5 (num_vacant 5 3) (num_endline 5 3 60) unwritten).1 '.' = 0 ∧
    round ((10 : ℚ) ^ 2 * 29 / 100) = 29 ∧
    num_vacant 10 29 = 28 := by
  refine ⟨?_, by decide, ?_, ?_, by decide⟩
  · rw [round_eq, Int.floor_eq_iff]
    norm_num
  · have h1 : num_vacant 5 3 = ((0 : Nat) : Int) := by decide
    have h2 : num_endline 5 3 60 = ((14 : Nat) : Int) := by decide
    unfold countCells
    rw [h1, h2, cells_fill_replicate 5 0 14 unwritten (by decide)]
    exact (count_three 0 14 _).1
  · rw [round_eq, Int.floor_eq_iff]
    norm_num

/-- C8, amended. For every valid configuration (`dim` in `[5, 39]`, both
percentages in `[1, 99]`) the numbers `num_vacant` and `num_endline`, which
are the `double` products of lines 71-72 truncated toward zero by the
conversion to `int`, are non-negative with a sum of at most `dim * dim`, and
the fill loops store, in row-major order, `num_vacant` times `'.'`, then
`num_endline` times `'e'`, then `'n'` in all remaining cells; so the filled
grid has exactly `num_vacant` cells `'.'`, exactly `num_endline` cells `'e'`
and `dim * dim - num_vacant - num_endline` cells `'n'`. In exact arithmetic
`num_vacant` is the integer part of `dim² · percent_vacant / 100` and
`num_endline` the integer part of
`dim² · (100 - percent_vacant) · percent_endline / 10000`, each possibly one
less when the quotient is an integer. -/
theorem C8_initial_counts (dim : Nat) (pv pe : Int) (g0 : Grid)
    (hdim : 5 ≤ dim ∧ dim ≤ 39) (hpv : 1 ≤ pv ∧ pv ≤ 99) (hpe : 1 ≤ pe ∧ pe ≤ 99) :
    (0 ≤ num_vacant dim pv ∧ 0 ≤ num_endline dim pv pe ∧
      num_vacant dim pv + num_endline dim pv pe ≤ ((dim * dim : Nat) : Int)) ∧
    cells dim (fill dim (num_vacant dim pv) (num_endline dim pv pe) g0).1 =
      List.replicate (num_vacant dim pv).toNat '.' ++
        List.replicate (num_endline dim pv pe).toNat 'e' ++
        List.replicate (dim * dim - (num_vacant dim pv).toNat -
          (num_endline dim pv pe).toNat) 'n' ∧
    ((countCells dim (fill dim (num_vacant dim pv) (num_endline dim pv pe) g0).1 '.' : Nat) : Int)
      = num_vacant dim pv ∧
    ((countCells dim (fill dim (num_vacant dim pv) (num_endline dim pv pe) g0).1 'e' : Nat) : Int)
      = num_endline dim pv pe ∧
    ((countCells dim (fill dim (num_vacant dim pv) (num_endline dim pv pe) g0).1 'n' : Nat) : Int)
      = ((dim * dim : Nat) : Int) - num_vacant dim pv - num_endline dim pv pe ∧
    (num_vacant dim pv ≤ ((dim * dim : Nat) : Int) * pv / 100 ∧
      ((dim * dim : Nat) : Int) * pv / 100 - 1 ≤ num_vacant dim pv ∧
      ((((dim * dim : Nat) : Int) * pv) % 100 ≠ 0 →
        num_vacant dim pv = ((dim * dim : Nat) : Int) * pv / 100)) ∧
    (num_endline dim pv pe ≤ ((dim * dim : Nat) : Int) * (100 - pv) * pe / 10000 ∧
      ((dim * dim : Nat) : Int) * (100 - pv) * pe / 10000 - 1 ≤ num_endline dim pv pe ∧
      ((((dim * dim : Nat) : Int) * (100 - pv) * pe) % 10000 ≠ 0 →
        num_endline dim pv pe = ((dim * dim : Nat) : Int) * (100 - pv) * pe / 10000)) := by
  have hfit := initial_counts_fit dim pv pe hdim.2 hpv hpe
  obtain ⟨h1, h2, h3⟩ := hfit
  have e1 : (((num_vacant dim pv).toNat : Nat) : Int) = num_vacant dim pv := Int.toNat_of_nonneg h1
  have e2 : (((num_endline dim pv pe).toNat : Nat) : Int) = num_endline dim pv pe :=
    Int.toNat_of_nonneg h2
  have hle : (num_vacant dim pv).toNat + (num_endline dim pv pe).toNat ≤ dim * dim := by
    omega
  have hc := cells_fill_replicate dim (num_vacant dim pv).toNat (num_endline dim pv pe).toNat
    g0 hle
  rw [e1, e2] at hc
  have h3c := count_three (num_vacant dim pv).toNat (num_endline dim pv pe).toNat
    (dim * dim - (num_vacant dim pv).toNat - (num_endline dim pv pe).toNat)
  refine ⟨⟨h1, h2, h3⟩, hc, ?_, ?_, ?_, (num_vacant_exact dim pv hdim.2 hpv).2,
    (num_endline_exact dim pv pe hdim.2 hpv hpe).2⟩
  · unfold countCells; rw [hc, h3c.1, e1]
  · unfold countCells; rw [hc, h3c.2.1, e2]
  · unfold countCells; rw [hc, h3c.2.2]; omega

/-- Witness of the amended C8 at `dim = 5`, `percent_vacant = 20`,
`percent_endline = 60`. -/
theorem C8_initial_counts_witness :
    ((5 ≤ 5 ∧ 5 ≤ 39) ∧ ((1 : Int) ≤ 20 ∧ (20 : Int) ≤ 99) ∧ ((1 : Int) ≤ 60 ∧ (60 : Int) ≤ 99)) ∧
    ((countCells 5 (fill 5 (num_vacant 5 20) (num_endline 5 20 60) unwritten).1 '.' : Nat) : Int)
      = num_vacant 5 20 ∧
    ((countCells 5 (fill 5 (num_vacant 5 20) (num_endline 5 20 60) unwritten).1 'e' : Nat) : Int)
      = num_endline 5 20 60 ∧
    ((countCells 5 (fill 5 (num_vacant 5 20) (num_endline 5 20 60) unwritten).1 'n' : Nat) : Int)
      = ((5 * 5 : Nat) : Int) - num_vacant 5 20 - num_endline 5 20 60 ∧
    num_vacant 5 20 ≤ ((5 * 5 : Nat) : Int) * 20 / 100 ∧
    num_endline 5 20 60 ≤ ((5 * 5 : Nat) : Int) * (100 - 20) * 60 / 10000 := by
  have h := C8_initial_counts 5 20 60 unwritten (by decide) (by decide) (by decide)
  exact ⟨⟨by decide, by decide, by decide⟩, h.2.2.1, h.2.2.2.1, h.2.2.2.2.1,
    h.2.2.2.2.2.1.1, h.2.2.2.2.2.2.1⟩

/-! ## `check_neighbors` and its reference definition -/

theorem offsets_eq : offsets =
    [(-1, -1), (-1, 0), (-1, 1), (0, -1), (0, 1), (1, -1), (1, 0), (1, 1)] := by
  decide


/-- The eight tallies of `check_neighbors` as one fold over the list of
`(guard, neighbour)` pairs. -/
theorem foldl_tally (value : Char) (l : List (Bool × Char)) : ∀ ts : Nat × Nat,
    l.foldl (fun ts x => tally value x.1 x.2 ts) ts =
      (ts.1 + l.countP (fun x => x.1 && decide (x.2 = 'e' ∨ x.2 = 'n')),
        ts.2 + l.countP (fun x => x.1 && decide ((x.2 = 'e' ∨ x.2 = 'n') ∧ x.2 = value))) := by
  induction l with
  | nil => intro ts; simp
  | cons x l ih =>
    intro ts
    rw [List.foldl_cons, ih, List.countP_cons, List.countP_cons]
    unfold tally
    by_cases h1 : x.1 = true ∧ (x.2 = 'e' ∨ x.2 = 'n')
    · rw [if_pos h1]
      have e1 : (x.1 && decide (x.2 = 'e' ∨ x.2 = 'n')) = true := by
        rw [h1.1, Bool.true_and]; exact decide_eq_true h1.2
      rw [e1]
      by_cases h2 : x.2 = value
      · have e2 : (x.1 && decide ((x.2 = 'e' ∨ x.2 = 'n') ∧ x.2 = value)) = true := by
          rw [h1.1, Bool.true_and]; exact decide_eq_true ⟨h1.2, h2⟩
        rw [e2, if_pos h2]
        simp only [if_true]
        refine Prod.ext ?_ ?_ <;> simp only <;> omega
      · have e2 : (x.1 && decide ((x.2 = 'e' ∨ x.2 = 'n') ∧ x.2 = value)) = false := by
          rw [h1.1, Bool.true_and]; exact decide_eq_false (fun h => h2 h.2)
        rw [e2, if_neg h2]
        simp only [if_true]
        refine Prod.ext ?_ ?_ <;> simp
        omega
    · rw [if_neg h1]
      have e1 : (x.1 && decide (x.2 = 'e' ∨ x.2 = 'n')) = false := by
        by_cases hx : x.1 = true
        · have : ¬ (x.2 = 'e' ∨ x.2 = 'n') := fun h => h1 ⟨hx, h⟩
          simp [this]
        · simp [hx]
      have e2 : (x.1 && decide ((x.2 = 'e' ∨ x.2 = 'n') ∧ x.2 = value)) = false := by
        by_cases hx : x.1 = true
        · have : ¬ (x.2 = 'e' ∨ x.2 = 'n') := fun h => h1 ⟨hx, h⟩
          simp [this]
        · simp [hx]
      rw [e1, e2]
      simp

/-- Counting over the in-bounds neighbours is counting over all eight offsets
with the bounds test added to the condition. -/
theorem countP_ref (dim row col : Nat) (grid : Grid) (P : Char → Bool) :
    (ref_neighbours dim row col).countP (fun p => P (grid p.1.toNat p.2.toNat)) =
      (offsets.map (fun d => (decide (0 ≤ (row : Int) + d.1 ∧ (row : Int) + d.1 < (dim : Int) ∧
          0 ≤ (col : Int) + d.2 ∧ (col : Int) + d.2 < (dim : Int)),
        grid ((row : Int) + d.1).toNat ((col : Int) + d.2).toNat))).countP
        (fun x => x.1 && P x.2) := by
  unfold ref_neighbours
  rw [List.countP_filter, List.countP_map, List.countP_map]
  congr 1
  funext d
  simp only [Function.comp]
  rw [Bool.and_comm]

/-- The guards and cells of the eight `if` statements are the in-bounds tests
and cells of the eight offsets, in the same order. -/
theorem code_pairs (dim row col : Nat) (grid : Grid) (hrow : row < dim) (hcol : col < dim) :
    [(decide (1 ≤ row ∧ 1 ≤ col), grid (row - 1) (col - 1)),
     (decide (1 ≤ row), grid (row - 1) col),
     (decide (1 ≤ row ∧ col + 1 < dim), grid (row - 1) (col + 1)),
     (decide (1 ≤ col), grid row (col - 1)),
     (decide (col + 1 < dim), grid row (col + 1)),
     (decide (row + 1 < dim ∧ 1 ≤ col), grid (row + 1) (col - 1)),
     (decide (row + 1 < dim), grid (row + 1) col),
     (decide (row + 1 < dim ∧ col + 1 < dim), grid (row + 1) (col + 1))] =
    offsets.map (fun d => (decide (0 ≤ (row : Int) + d.1 ∧ (row : Int) + d.1 < (dim : Int) ∧
          0 ≤ (col : Int) + d.2 ∧ (col : Int) + d.2 < (dim : Int)),
        grid ((row : Int) + d.1).toNat ((col : Int) + d.2).toNat)) := by
  rw [offsets_eq]
  simp only [List.map_cons, List.map_nil]
  have t1 : ((row : Int) + -1).toNat = row - 1 := by omega
  have t2 : ((row : Int) + 0).toNat = row := by omega
  have t3 : ((row : Int) + 1).toNat = row + 1 := by omega
  have u1 : ((col : Int) + -1).toNat = col - 1 := by omega
  have u2 : ((col : Int) + 0).toNat = col := by omega
  have u3 : ((col : Int) + 1).toNat = col + 1 := by omega
  rw [t1, t2, t3, u1, u2, u3]
  have g1 : decide (1 ≤ row ∧ 1 ≤ col) = decide (0 ≤ (row : Int) + -1 ∧
      (row : Int) + -1 < (dim : Int) ∧ 0 ≤ (col : Int) + -1 ∧ (col : Int) + -1 < (dim : Int)) :=
    decide_eq_decide.2 (by omega)
  have g2 : decide (1 ≤ row) = decide (0 ≤ (row : Int) + -1 ∧
      (row : Int) + -1 < (dim : Int) ∧ 0 ≤ (col : Int) + 0 ∧ (col : Int) + 0 < (dim : Int)) :=
    decide_eq_decide.2 (by omega)
  have g3 : decide (1 ≤ row ∧ col + 1 < dim) = decide (0 ≤ (row : Int) + -1 ∧
      (row : Int) + -1 < (dim : Int) ∧ 0 ≤ (col : Int) + 1 ∧ (col : Int) + 1 < (dim : Int)) :=
    decide_eq_decide.2 (by omega)
  have g4 : decide (1 ≤ col) = decide (0 ≤ (row : Int) + 0 ∧
      (row : Int) + 0 < (dim : Int) ∧ 0 ≤ (col : Int) + -1 ∧ (col : Int) + -1 < (dim : Int)) :=
    decide_eq_decide.2 (by omega)
  have g5 : decide (col + 1 < dim) = decide (0 ≤ (row : Int) + 0 ∧
      (row : Int) + 0 < (dim : Int) ∧ 0 ≤ (col : Int) + 1 ∧ (col : Int) + 1 < (dim : Int)) :=
    decide_eq_decide.2 (by omega)
  have g6 : decide (row + 1 < dim ∧ 1 ≤ col) = decide (0 ≤ (row : Int) + 1 ∧
      (row : Int) + 1 < (dim : Int) ∧ 0 ≤ (col : Int) + -1 ∧ (col : Int) + -1 < (dim : Int)) :=
    decide_eq_decide.2 (by omega)
  have g7 : decide (row + 1 < dim) = decide (0 ≤ (row : Int) + 1 ∧
      (row : Int) + 1 < (dim : Int) ∧ 0 ≤ (col : Int) + 0 ∧ (col : Int) + 0 < (dim : Int)) :=
    decide_eq_decide.2 (by omega)
  have g8 : decide (row + 1 < dim ∧ col + 1 < dim) = decide (0 ≤ (row : Int) + 1 ∧
      (row : Int) + 1 < (dim : Int) ∧ 0 ≤ (col : Int) + 1 ∧ (col : Int) + 1 < (dim : Int)) :=
    decide_eq_decide.2 (by omega)
  rw [g1, g2, g3, g4, g5, g6, g7, g8]

/-- The counts of `check_neighbors` are the reference counts. -/
theorem neighbor_counts_eq_ref (dim : Nat) (grid : Grid) (row col : Nat)
    (hrow : row < dim) (hcol : col < dim) :
    neighbor_counts dim grid row col =
      (ref_total dim grid row col, ref_same dim grid row col) := by
  have h1 : neighbor_counts dim grid row col =
      [(decide (1 ≤ row ∧ 1 ≤ col), grid (row - 1) (col - 1)),
       (decide (1 ≤ row), grid (row - 1) col),
       (decide (1 ≤ row ∧ col + 1 < dim), grid (row - 1) (col + 1)),
       (decide (1 ≤ col), grid row (col - 1)),
       (decide (col + 1 < dim), grid row (col + 1)),
       (decide (row + 1 < dim ∧ 1 ≤ col), grid (row + 1) (col - 1)),
       (decide (row + 1 < dim), grid (row + 1) col),
       (decide (row + 1 < dim ∧ col + 1 < dim), grid (row + 1) (col + 1))].foldl
        (fun ts x => tally (grid row col) x.1 x.2 ts) (0, 0) := rfl
  rw [h1, code_pairs dim row col grid hrow hcol, foldl_tally]
  unfold ref_total ref_same
  rw [countP_ref dim row col grid (fun ch => decide (ch = 'e' ∨ ch = 'n')),
    countP_ref dim row col grid
      (fun ch => decide ((ch = 'e' ∨ ch = 'n') ∧ ch = grid row col))]
  simp

/-- The `float` quotient of two counts `same ≤ total ≤ 8` is the binary32
value nearest to the exact quotient. -/
theorem quotient_round : ∀ t : Nat, t < 9 → ∀ s : Nat, s < 9 → s ≤ t → t ≠ 0 →
    Fp.div FLT (Fp.ofInt FLT s) (Fp.ofInt FLT t) = Fp.round FLT s t := by
  decide

/-- C11 (happiness equals its reference definition). For every grid and every
in-bounds cell, the counts `total` and `same` of `check_neighbors` are the
numbers of in-bounds neighbours among the eight offsets that hold `'e'` or
`'n'`, respectively that and the character of the cell; `check_neighbors`
returns `1` when `total = 0` and otherwise the `float` quotient
`(float)same/total`, which is the binary32 value nearest to `same/total` and
within its fraction `2^(-24)`. -/
theorem C11_happiness_reference (dim : Nat) (grid : Grid) (row col : Nat)
    (hrow : row < dim) (hcol : col < dim) :
    neighbor_counts dim grid row col =
      (ref_total dim grid row col, ref_same dim grid row col) ∧
    ref_same dim grid row col ≤ ref_total dim grid row col ∧
    (ref_total dim grid row col = 0 →
      check_neighbors dim grid row col = Fp.ofInt FLT 1 ∧
      (check_neighbors dim grid row col).toRat = 1) ∧
    (0 < ref_total dim grid row col →
      check_neighbors dim grid row col =
        Fp.div FLT (Fp.ofInt FLT (ref_same dim grid row col))
          (Fp.ofInt FLT (ref_total dim grid row col)) ∧
      check_neighbors dim grid row col =
        Fp.round FLT (ref_same dim grid row col) (ref_total dim grid row col) ∧
      (check_neighbors dim grid row col).toRat ≤
        (ref_same dim grid row col : ℚ) / (ref_total dim grid row col : ℚ) *
          (1 + 1 / 2 ^ 24) ∧
      (ref_same dim grid row col : ℚ) / (ref_total dim grid row col : ℚ) *
          (1 - 1 / 2 ^ 24) ≤ (check_neighbors dim grid row col).toRat) := by
  have hn := neighbor_counts_eq_ref dim grid row col hrow hcol
  have hb := neighbor_counts_bounds dim grid row col
  rw [hn] at hb
  simp only at hb
  refine ⟨hn, hb.1, ?_, ?_⟩
  · intro h0
    have : check_neighbors dim grid row col = Fp.ofInt FLT 1 := by
      unfold check_neighbors
      simp only [hn, h0, if_true]
    exact ⟨this, by rw [this]; exact one_toRat⟩
  · intro hpos
    have hd : check_neighbors dim grid row col =
        Fp.div FLT (Fp.ofInt FLT (ref_same dim grid row col))
          (Fp.ofInt FLT (ref_total dim grid row col)) := by
      unfold check_neighbors
      simp only [hn]
      rw [if_neg (by omega)]
    have hr := quotient_round (ref_total dim grid row col) (by omega)
      (ref_same dim grid row col) (by omega) hb.1 (by omega)
    have he := Fp.round_error FLT (ref_same dim grid row col) (ref_total dim grid row col)
      (by decide) (Int.natCast_nonneg _) hpos (by
        have e : (2 : Int) ^ FLT = 16777216 := by decide
        rw [e]
        have : ((ref_same dim grid row col : Nat) : Int) ≤ (ref_total dim grid row col : Nat) := by
          exact_mod_cast hb.1
        have h1 : (0 : Int) < (ref_total dim grid row col : Nat) := by exact_mod_cast hpos
        omega)
    refine ⟨hd, hd.trans hr, ?_, ?_⟩
    · rw [hd, hr]
      have := he.1
      simpa [FLT] using this
    · rw [hd, hr]
      have := he.2
      simpa [FLT] using this

/-- Witness of C11 on `half_happy`: the centre agent has two occupied
neighbours, one of its own type, and its happiness is the `float` `1/2`. -/
theorem C11_happiness_reference_witness :
    (1 < 3 ∧ 1 < 3 ∧ 0 < ref_total 3 half_happy 1 1) ∧
    neighbor_counts 3 half_happy 1 1 = (ref_total 3 half_happy 1 1, ref_same 3 half_happy 1 1) ∧
    ref_total 3 half_happy 1 1 = 2 ∧ ref_same 3 half_happy 1 1 = 1 ∧
    check_neighbors 3 half_happy 1 1 =
      Fp.round FLT (ref_same 3 half_happy 1 1) (ref_total 3 half_happy 1 1) := by
  have h := C11_happiness_reference 3 half_happy 1 1 (by decide) (by decide)
  exact ⟨⟨by decide, by decide, by decide⟩, h.1, by decide, by decide,
    (h.2.2.2 (by decide)).2.1⟩

/-! ## The threshold test -/

set_option maxRecDepth 100000 in
/-- A table of the `float` thresholds `(float)strength/100` for
`strength = 0 .. 100`: each is within the fraction `2^(-23)` of
`strength/100` (written without fractions) and none exceeds `1`. -/
theorem threshold_table : ∀ n : Nat, n < 101 →
    (threshold (n : Int)).num * (100 * 2 ^ 23) ≤
      (n : Int) * (2 ^ 23 + 1) * ((threshold (n : Int)).den : Int) ∧
    (n : Int) * (2 ^ 23 - 1) * ((threshold (n : Int)).den : Int) ≤
      (threshold (n : Int)).num * (100 * 2 ^ 23) ∧
    Fp.lt (Fp.ofInt FLT 1) (threshold (n : Int)) = false := by
  decide

set_option maxRecDepth 100000 in
/-- When `same/total` equals `strength/100` exactly, the two `float`s are
equal and the comparison `<` is false. -/
theorem threshold_tie : ∀ t : Nat, t < 9 → ∀ s : Nat, s < 9 → s ≤ t → t ≠ 0 →
    (100 * s) % t = 0 →
    Fp.lt (Fp.div FLT (Fp.ofInt FLT s) (Fp.ofInt FLT t))
      (threshold ((100 * s / t : Nat) : Int)) = false := by
  decide

/-- A fraction within the fraction `2^(-23)` of `k/100`, from the
cross-multiplied inequalities. -/
theorem near_of_cross23 (a : Fp) (k : Int) (hd : 0 < a.den)
    (h1 : a.num * (100 * 2 ^ 23) ≤ k * (2 ^ 23 + 1) * (a.den : Int))
    (h2 : k * (2 ^ 23 - 1) * (a.den : Int) ≤ a.num * (100 * 2 ^ 23)) :
    a.toRat ≤ (k : ℚ) / 100 * (1 + 1 / 2 ^ 23) ∧ (k : ℚ) / 100 * (1 - 1 / 2 ^ 23) ≤ a.toRat := by
  unfold Fp.toRat
  have hd' : (0 : ℚ) < (a.den : ℚ) := by exact_mod_cast hd
  have q1 : (a.num : ℚ) * (100 * 2 ^ 23) ≤ (k : ℚ) * (2 ^ 23 + 1) * (a.den : ℚ) := by
    exact_mod_cast h1
  have q2 : (k : ℚ) * (2 ^ 23 - 1) * (a.den : ℚ) ≤ (a.num : ℚ) * (100 * 2 ^ 23) := by
    exact_mod_cast h2
  constructor
  · rw [div_le_iff₀ hd']
    have e : (k : ℚ) / 100 * (1 + 1 / 2 ^ 23) * (a.den : ℚ) =
        ((k : ℚ) * (2 ^ 23 + 1) * (a.den : ℚ)) / (100 * 2 ^ 23) := by
      field_simp
    rw [e, le_div_iff₀ (by positivity)]
    exact q1
  · rw [le_div_iff₀ hd']
    have e : (k : ℚ) / 100 * (1 - 1 / 2 ^ 23) * (a.den : ℚ) =
        ((k : ℚ) * (2 ^ 23 - 1) * (a.den : ℚ)) / (100 * 2 ^ 23) := by
      field_simp
    rw [e, div_le_iff₀ (by positivity)]
    exact q2

/-- Two fractions `s/t` (with `t ≤ 8`) and `k/100` that differ are at least
`1/800` apart, more than the rounding errors of the two `float`s. -/
theorem float_gap (s t k : Int) (q T : ℚ) (ht0 : 0 < t) (ht8 : t ≤ 8) (hs : 0 ≤ s)
    (hst : s ≤ t) (hk0 : 0 ≤ k) (hk : k ≤ 100)
    (hq1 : q ≤ (s : ℚ) / t * (1 + 1 / 2 ^ 24)) (hq2 : (s : ℚ) / t * (1 - 1 / 2 ^ 24) ≤ q)
    (hT1 : T ≤ (k : ℚ) / 100 * (1 + 1 / 2 ^ 23)) (hT2 : (k : ℚ) / 100 * (1 - 1 / 2 ^ 23) ≤ T) :
    (s * 100 < k * t → q < T) ∧ (k * t < s * 100 → T < q) := by
  have ht0' : (0 : ℚ) < (t : ℚ) := by exact_mod_cast ht0
  have ht8' : (t : ℚ) ≤ 8 := by exact_mod_cast ht8
  have hs' : (0 : ℚ) ≤ (s : ℚ) := by exact_mod_cast hs
  have hst' : (s : ℚ) ≤ (t : ℚ) := by exact_mod_cast hst
  have hk0' : (0 : ℚ) ≤ (k : ℚ) := by exact_mod_cast hk0
  have hk' : (k : ℚ) ≤ 100 := by exact_mod_cast hk
  have hx0 : (0 : ℚ) ≤ (s : ℚ) / t := div_nonneg hs' ht0'.le
  have hx1 : (s : ℚ) / t ≤ 1 := (div_le_one ht0').2 hst'
  have hy0 : (0 : ℚ) ≤ (k : ℚ) / 100 := div_nonneg hk0' (by norm_num)
  have hy1 : (k : ℚ) / 100 ≤ 1 := by linarith
  have e24 : (1 : ℚ) / 2 ^ 24 < 1 / 3200 := by norm_num
  have e23 : (1 : ℚ) / 2 ^ 23 < 1 / 3200 := by norm_num
  have p24 : (0 : ℚ) ≤ 1 / 2 ^ 24 := by norm_num
  have p23 : (0 : ℚ) ≤ 1 / 2 ^ 23 := by norm_num
  have a1 : (s : ℚ) / t * (1 / 2 ^ 24) ≤ 1 / 2 ^ 24 := by
    have := mul_le_mul_of_nonneg_right hx1 p24
    linarith
  have a2 : (k : ℚ) / 100 * (1 / 2 ^ 23) ≤ 1 / 2 ^ 23 := by
    have := mul_le_mul_of_nonneg_right hy1 p23
    linarith
  have a3 : (0 : ℚ) ≤ (s : ℚ) / t * (1 / 2 ^ 24) := mul_nonneg hx0 p24
  have a4 : (0 : ℚ) ≤ (k : ℚ) / 100 * (1 / 2 ^ 23) := mul_nonneg hy0 p23
  constructor
  · intro h
    have h' : (s : ℚ) * 100 + 1 ≤ (k : ℚ) * t := by exact_mod_cast (by omega : s * 100 + 1 ≤ k * t)
    have g : (s : ℚ) / t + 1 / 800 ≤ (k : ℚ) / 100 := by
      rw [div_add_div _ _ (ne_of_gt ht0') (by norm_num), div_le_div_iff₀ (by positivity) (by norm_num)]
      nlinarith
    linarith
  · intro h
    have h' : (k : ℚ) * t + 1 ≤ (s : ℚ) * 100 := by exact_mod_cast (by omega : k * t + 1 ≤ s * 100)
    have g : (k : ℚ) / 100 + 1 / 800 ≤ (s : ℚ) / t := by
      rw [div_add_div _ _ (by norm_num) (by norm_num), div_le_div_iff₀ (by norm_num) ht0']
      nlinarith
    linarith

/-- The `float` quotient of two counts `s ≤ t ≤ 8`, `t ≠ 0`, is within the
fraction `2^(-24)` of `s/t`. -/
theorem quotient_near (t s : Nat) (ht : t < 9) (hst : s ≤ t) (h0 : t ≠ 0) :
    (Fp.div FLT (Fp.ofInt FLT s) (Fp.ofInt FLT t)).toRat ≤
      ((s : Int) : ℚ) / ((t : Int) : ℚ) * (1 + 1 / 2 ^ 24) ∧
    ((s : Int) : ℚ) / ((t : Int) : ℚ) * (1 - 1 / 2 ^ 24) ≤
      (Fp.div FLT (Fp.ofInt FLT s) (Fp.ofInt FLT t)).toRat := by
  have hr := quotient_round t ht s (by omega) hst h0
  have he := Fp.round_error FLT s t (by decide) (Int.natCast_nonneg _) (by omega) (by
    have e : (2 : Int) ^ FLT = 16777216 := by decide
    rw [e]
    omega)
  rw [hr]
  constructor
  · have := he.1
    simpa [FLT] using this
  · have := he.2
    simpa [FLT] using this

/-- The test `check_neighbors(grid, j, k) < (float)strength/100` of line 291
in whole numbers: it holds exactly when the cell has an occupied neighbour
and `same * 100 < strength * total`. -/
theorem lt_threshold_iff (dim : Nat) (strength : Int) (grid : Grid) (j k : Nat)
    (h0 : 0 ≤ strength) (h100 : strength ≤ 100) :
    Fp.lt (check_neighbors dim grid j k) (threshold strength) = true ↔
      0 < (neighbor_counts dim grid j k).1 ∧
      ((neighbor_counts dim grid j k).2 : Int) * 100 <
        strength * ((neighbor_counts dim grid j k).1 : Int) := by
  have hb := neighbor_counts_bounds dim grid j k
  obtain ⟨n, rfl⟩ : ∃ n : Nat, strength = (n : Int) := ⟨strength.toNat, by omega⟩
  have hn : n < 101 := by omega
  have htab := threshold_table n hn
  by_cases ht : (neighbor_counts dim grid j k).1 = 0
  · have hc : check_neighbors dim grid j k = Fp.ofInt FLT 1 := by
      unfold check_neighbors
      simp only [ht, if_true]
    rw [hc, htab.2.2]
    constructor
    · intro h; exact absurd h (by decide)
    · intro h; omega
  · have hc : check_neighbors dim grid j k =
        Fp.div FLT (Fp.ofInt FLT (neighbor_counts dim grid j k).2)
          (Fp.ofInt FLT (neighbor_counts dim grid j k).1) := by
      unfold check_neighbors
      simp only
      rw [if_neg ht]
    generalize (neighbor_counts dim grid j k).1 = t at *
    generalize (neighbor_counts dim grid j k).2 = s at *
    have hq := quotient_near t s (by omega) hb.1 ht
    have hT := near_of_cross23 (threshold (n : Int)) n (threshold_den_pos _) htab.1 htab.2.1
    have hgap := float_gap s t n _ _ (by omega) (by omega) (by omega) (by omega) (by omega)
      (by omega) hq.1 hq.2 hT.1 hT.2
    have hdq : 0 < (Fp.div FLT (Fp.ofInt FLT s) (Fp.ofInt FLT t)).den := Fp.round_den_pos _ _ _
    rw [hc]
    rcases lt_trichotomy ((s : Int) * 100) ((n : Int) * (t : Int)) with h | h | h
    · constructor
      · intro _; exact ⟨by omega, h⟩
      · intro _
        exact (Fp.lt_iff _ _ hdq (threshold_den_pos _)).2 (hgap.1 h)
    · have h' : 100 * s = n * t := by
        have : ((100 * s : Nat) : Int) = ((n * t : Nat) : Int) := by
          push_cast
          omega
        exact_mod_cast this
      have hmod : (100 * s) % t = 0 := by
        rw [h']
        exact Nat.mul_mod_left n t
      have hdiv : 100 * s / t = n := by
        rw [h']
        exact Nat.mul_div_cancel n (by omega)
      have htie := threshold_tie t (by omega) s (by omega) hb.1 ht hmod
      rw [hdiv] at htie
      rw [htie]
      constructor
      · intro h2; exact absurd h2 (by decide)
      · intro h2; omega
    · constructor
      · intro h2
        have := (Fp.lt_iff _ _ hdq (threshold_den_pos _)).1 h2
        have := hgap.2 h
        linarith
      · intro h2; omega

/-- C12 (strict threshold). For `strength` in `[0, 100]` (the program accepts
`1 .. 99`), the loop body of a cycle calls `move` for the cell `(j, k)`
exactly when the cell holds `'e'` or `'n'` and its happiness is strictly less
than the `float` `strength/100`; in whole numbers, exactly when it has an
occupied neighbour and `same * 100 < strength * total`. An agent whose
happiness equals the threshold (`same * 100 = strength * total`), or that has
no occupied neighbour, is not moved. -/
theorem C12_strict_threshold (dim : Nat) (strength : Int) (grid : Grid) (j k : Nat)
    (h0 : 0 ≤ strength) (h100 : strength ≤ 100) :
    (∀ s : Nat × MoveState, visit dim strength grid j k s =
      if unhappy dim strength grid j k = true then
        (s.1 + (move dim grid s.2 j k).1, (move dim grid s.2 j k).2)
      else s) ∧
    (unhappy dim strength grid j k = true ↔
      (grid j k = 'e' ∨ grid j k = 'n') ∧
        (check_neighbors dim grid j k).toRat < (threshold strength).toRat) ∧
    (unhappy dim strength grid j k = true ↔
      (grid j k = 'e' ∨ grid j k = 'n') ∧ 0 < (neighbor_counts dim grid j k).1 ∧
        ((neighbor_counts dim grid j k).2 : Int) * 100 <
          strength * ((neighbor_counts dim grid j k).1 : Int)) ∧
    (((neighbor_counts dim grid j k).2 : Int) * 100 =
        strength * ((neighbor_counts dim grid j k).1 : Int) →
      unhappy dim strength grid j k = false) ∧
    ((neighbor_counts dim grid j k).1 = 0 → unhappy dim strength grid j k = false) := by
  have hiff := lt_threshold_iff dim strength grid j k h0 h100
  have hu : unhappy dim strength grid j k = true ↔
      (grid j k = 'e' ∨ grid j k = 'n') ∧
        Fp.lt (check_neighbors dim grid j k) (threshold strength) = true := by
    unfold unhappy
    rw [decide_eq_true_iff]
    constructor
    · rintro ⟨h1, h2⟩; exact ⟨h1.symm, h2⟩
    · rintro ⟨h1, h2⟩; exact ⟨h1.symm, h2⟩
  have hint : unhappy dim strength grid j k = true ↔
      (grid j k = 'e' ∨ grid j k = 'n') ∧ 0 < (neighbor_counts dim grid j k).1 ∧
        ((neighbor_counts dim grid j k).2 : Int) * 100 <
          strength * ((neighbor_counts dim grid j k).1 : Int) := by
    rw [hu, hiff]
  refine ⟨fun s => rfl, ?_, hint, ?_, ?_⟩
  · rw [hu, Fp.lt_iff _ _ (check_neighbors_den_pos _ _ _ _) (threshold_den_pos _)]
  · intro he
    rw [Bool.eq_false_iff]
    intro h
    have := (hint.1 h).2.2
    omega
  · intro he
    rw [Bool.eq_false_iff]
    intro h
    have := (hint.1 h).2.1
    omega

/-- Witness of C12 on `half_happy` with `strength = 50`: the centre agent has
one neighbour of its own type among two, its happiness equals the threshold,
and it is not moved. -/
theorem C12_strict_threshold_witness :
    ((0 : Int) ≤ 50 ∧ (50 : Int) ≤ 100) ∧ neighbor_counts 3 half_happy 1 1 = (2, 1) ∧
      unhappy 3 50 half_happy 1 1 = false :=
  ⟨by decide, by decide,
    (C12_strict_threshold 3 50 half_happy 1 1 (by decide) (by decide)).2.2.2.1 (by decide)⟩

/-! ## Exhaustion -/

/-- The scan of `move` finds nothing exactly when `grid` has no vacant cell at
or after the cursor. -/
theorem move_target_none_iff (dim : Nat) (grid : Grid) (st : MoveState) :
    move_target dim grid st = none ↔
      ∀ r c, r < dim → c < dim →
        at_or_after st.last_checked_row st.last_checked_col r c → grid r c ≠ '.' := by
  constructor
  · intro h r c hr hc ha
    unfold move_target at h
    cases hs : scanRows grid dim (dim - st.last_checked_row) st.last_checked_row
        st.last_checked_col with
    | found r0 c0 => rw [hs] at h; simp at h
    | exhausted r0 c0 =>
      obtain ⟨_, h2⟩ := scanRows_exhausted grid dim _ _ _ _ _ hs
      by_cases hlt : st.last_checked_row ≤ dim
      · exact h2 r c hc (by omega) ha
      · exfalso
        rcases ha with ha | ⟨ha, _⟩ <;> omega
  · intro h
    cases ht : move_target dim grid st with
    | none => rfl
    | some t =>
      obtain ⟨r, c⟩ := t
      obtain ⟨h1, h2, h3, h4, _⟩ := move_target_spec dim grid st r c ht
      exact absurd h3 (h r c h1 h2 h4)

/-- After a call of `move` that found nothing, the scan finds nothing again:
the cursor row has reached `dim`. -/
theorem move_target_none_stable (dim : Nat) (grid : Grid) (st : MoveState)
    (old_row old_col : Nat) (h : move_target dim grid st = none) :
    move_target dim grid (move dim grid st old_row old_col).2 = none := by
  unfold move_target at h
  unfold move
  cases hs : scanRows grid dim (dim - st.last_checked_row) st.last_checked_row
      st.last_checked_col with
  | found r0 c0 => rw [hs] at h; simp at h
  | exhausted r0 c0 =>
    obtain ⟨h1, _⟩ := scanRows_exhausted grid dim _ _ _ _ _ hs
    simp only
    unfold move_target
    simp only
    have e : dim - r0 = 0 := by
      rcases h1 with ⟨h1, h2, _⟩ | ⟨h1, h2, _⟩ <;> omega
    rw [e]
    rfl

/-- Any number of calls of `move` after one that found nothing return `0`
and leave `grid2` as it is. -/
theorem move_calls_exhausted (dim : Nat) (grid : Grid) (calls : List (Nat × Nat)) :
    ∀ st : MoveState, move_target dim grid st = none →
      (calls.foldl (fun s p => (move dim grid s p.1 p.2).2) st).grid2 = st.grid2 ∧
      move_target dim grid (calls.foldl (fun s p => (move dim grid s p.1 p.2).2) st) = none := by
  induction calls with
  | nil => intro st h; exact ⟨rfl, h⟩
  | cons p rest ih =>
    intro st h
    have h1 := move_of_target_none dim grid st p.1 p.2 h
    have h2 := move_target_none_stable dim grid st p.1 p.2 h
    have h3 := ih _ h2
    simp only [List.foldl_cons]
    exact ⟨h3.1.trans h1.2, h3.2⟩

/-- Visiting any further cells after a call of `move` that found nothing
leaves `moves` and `grid2` as they are. -/
theorem visits_exhausted (dim : Nat) (strength : Int) (grid : Grid)
    (later : List (Nat × Nat)) :
    ∀ s : Nat × MoveState, move_target dim grid s.2 = none →
      (later.foldl (fun s p => visit dim strength grid p.1 p.2 s) s).1 = s.1 ∧
      (later.foldl (fun s p => visit dim strength grid p.1 p.2 s) s).2.grid2 = s.2.grid2 ∧
      move_target dim grid (later.foldl (fun s p => visit dim strength grid p.1 p.2 s) s).2 =
        none := by
  induction later with
  | nil => intro s h; exact ⟨rfl, rfl, h⟩
  | cons p rest ih =>
    intro s h
    simp only [List.foldl_cons]
    have hv : (visit dim strength grid p.1 p.2 s).1 = s.1 ∧
        (visit dim strength grid p.1 p.2 s).2.grid2 = s.2.grid2 ∧
        move_target dim grid (visit dim strength grid p.1 p.2 s).2 = none := by
      unfold visit
      by_cases hu : unhappy dim strength grid p.1 p.2 = true
      · rw [if_pos hu]
        have h1 := move_of_target_none dim grid s.2 p.1 p.2 h
        have h2 := move_target_none_stable dim grid s.2 p.1 p.2 h
        simp only
        exact ⟨by rw [h1.1]; rfl, h1.2, h2⟩
      · rw [if_neg hu]
        exact ⟨rfl, rfl, h⟩
    have h3 := ih _ hv.2.2
    exact ⟨h3.1.trans hv.1, h3.2.1.trans hv.2.1, h3.2.2⟩

theorem crowded_cursor :
    crowded_state.last_checked_row = 1 ∧ crowded_state.last_checked_col = 2 := by
  decide

/-- C13 (exhaustion is a no-op and is final). If `grid` has no vacant cell
between the cursor and the end of the grid, a call of `move` returns `0` and
leaves `grid2` unchanged; after any number of later calls of `move` in the
same cycle (same `grid`, cursor not reset) a call again returns `0` and
`grid2` is still unchanged; and visiting any further cells of the cycle
leaves the count of moves and `grid2` unchanged. -/
theorem C13_exhaustion_final (dim : Nat) (grid : Grid) (st : MoveState)
    (old_row old_col : Nat)
    (hno : ∀ r c, r < dim → c < dim →
      at_or_after st.last_checked_row st.last_checked_col r c → grid r c ≠ '.') :
    (move dim grid st old_row old_col).1 = 0 ∧
    (move dim grid st old_row old_col).2.grid2 = st.grid2 ∧
    (∀ (calls : List (Nat × Nat)) (a b : Nat),
      (move dim grid (calls.foldl (fun s p => (move dim grid s p.1 p.2).2)
        (move dim grid st old_row old_col).2) a b).1 = 0 ∧
      (move dim grid (calls.foldl (fun s p => (move dim grid s p.1 p.2).2)
        (move dim grid st old_row old_col).2) a b).2.grid2 = st.grid2) ∧
    (∀ (strength : Int) (later : List (Nat × Nat)) (m : Nat),
      (later.foldl (fun s p => visit dim strength grid p.1 p.2 s)
        (m + (move dim grid st old_row old_col).1, (move dim grid st old_row old_col).2)).1 = m ∧
      (later.foldl (fun s p => visit dim strength grid p.1 p.2 s)
        (m + (move dim grid st old_row old_col).1,
          (move dim grid st old_row old_col).2)).2.grid2 = st.grid2) := by
  have hn := (move_target_none_iff dim grid st).2 hno
  have h1 := move_of_target_none dim grid st old_row old_col hn
  have h2 := move_target_none_stable dim grid st old_row old_col hn
  refine ⟨h1.1, h1.2, ?_, ?_⟩
  · intro calls a b
    have h3 := move_calls_exhausted dim grid calls _ h2
    have h4 := move_of_target_none dim grid _ a b h3.2
    exact ⟨h4.1, h4.2.trans (h3.1.trans h1.2)⟩
  · intro strength later m
    have h3 := visits_exhausted dim strength grid later
      (m + (move dim grid st old_row old_col).1, (move dim grid st old_row old_col).2) h2
    refine ⟨?_, ?_⟩
    · rw [h3.1]
      simp only
      rw [h1.1]
      rfl
    · rw [h3.2.1]
      exact h1.2

/-- Witness of C13 on `crowded` with `strength = 60`: the agent of `(0, 0)`
takes the only vacancy, and the call of `move` for the agent of `(0, 1)`
returns `0`. -/
theorem C13_exhaustion_final_witness :
    (∀ r c, r < 2 → c < 2 →
      at_or_after crowded_state.last_checked_row crowded_state.last_checked_col r c →
        crowded r c ≠ '.') ∧
    unhappy 2 60 crowded 0 1 = true ∧
    (move 2 crowded crowded_state 0 1).1 = 0 ∧
    (move 2 crowded crowded_state 0 1).2.grid2 = crowded_state.grid2 := by
  have hno : ∀ r c, r < 2 → c < 2 →
      at_or_after crowded_state.last_checked_row crowded_state.last_checked_col r c →
        crowded r c ≠ '.' := by
    intro r c hr hc ha
    rw [crowded_cursor.1, crowded_cursor.2] at ha
    unfold at_or_after at ha
    omega
  have h := C13_exhaustion_final 2 crowded crowded_state 0 1 hno
  exact ⟨hno, by decide, h.1, h.2.1⟩

/-! ## Option processing -/

theorem getopt_loop_append (pre rest : List Opt) :
    ∀ cfg cfg1 : Config, getopt_loop cfg pre = Except.ok cfg1 →
      getopt_loop cfg (pre ++ rest) = getopt_loop cfg1 rest := by
  induction pre with
  | nil =>
    intro cfg cfg1 h
    simp only [getopt_loop, Except.ok.injEq] at h
    subst h
    rfl
  | cons o pre ih =>
    intro cfg cfg1 h
    simp only [List.cons_append, getopt_loop] at h ⊢
    cases hc : option_case cfg o with
    | error st => rw [hc] at h; simp at h
    | ok cfg2 =>
      rw [hc] at h
      simp only at h ⊢
      exact ih cfg2 cfg1 h

/-- The cast `(int)` keeps a value that is representable as an `int`. -/
theorem wrap32_of_fits (x : Int) (h : -2147483648 ≤ x ∧ x ≤ 2147483647) : wrap32 x = x := by
  unfold wrap32
  omega

theorem narrow_of_fits (o : Opt) (h : fits_int o = true) : o.narrow = o := by
  cases o with
  | h => rfl
  | unknown => rfl
  | t a => cases a with
    | none => rfl
    | some x =>
      simp only [fits_int, decide_eq_true_eq] at h
      simp only [Opt.narrow, wrap32_of_fits x h]
  | c a => cases a with
    | none => rfl
    | some x =>
      simp only [fits_int, decide_eq_true_eq] at h
      simp only [Opt.narrow, wrap32_of_fits x h]
  | d a => cases a with
    | none => rfl
    | some x =>
      simp only [fits_int, decide_eq_true_eq] at h
      simp only [Opt.narrow, wrap32_of_fits x h]
  | s a => cases a with
    | none => rfl
    | some x =>
      simp only [fits_int, decide_eq_true_eq] at h
      simp only [Opt.narrow, wrap32_of_fits x h]
  | v a => cases a with
    | none => rfl
    | some x =>
      simp only [fits_int, decide_eq_true_eq] at h
      simp only [Opt.narrow, wrap32_of_fits x h]
  | e a => cases a with
    | none => rfl
    | some x =>
      simp only [fits_int, decide_eq_true_eq] at h
      simp only [Opt.narrow, wrap32_of_fits x h]

/-- An option whose converted value is out of range makes its case return
`1 + EXIT_FAILURE`. -/
theorem option_case_out_of_range (cfg : Config) (o : Opt)
    (h : out_of_range o.narrow = true) : option_case cfg o = Except.error 2 := by
  cases o with
  | h => simp [out_of_range, Opt.narrow] at h
  | unknown => simp [out_of_range, Opt.narrow] at h
  | t a => cases a with
    | none => simp [out_of_range, Opt.narrow] at h
    | some x => simp [out_of_range, Opt.narrow] at h
  | c a => cases a with
    | none => simp [out_of_range, Opt.narrow] at h
    | some x =>
      simp only [Opt.narrow, out_of_range, decide_eq_true_eq] at h
      simp only [option_case, EXIT_FAILURE]
      rw [if_pos (by omega)]
  | d a => cases a with
    | none => simp [out_of_range, Opt.narrow] at h
    | some x =>
      simp only [Opt.narrow, out_of_range, decide_eq_true_eq] at h
      simp only [option_case, EXIT_FAILURE]
      rw [if_pos (by omega)]
  | s a => cases a with
    | none => simp [out_of_range, Opt.narrow] at h
    | some x =>
      simp only [Opt.narrow, out_of_range, decide_eq_true_eq] at h
      simp only [option_case, EXIT_FAILURE]
      rw [if_pos (by omega)]
  | v a => cases a with
    | none => simp [out_of_range, Opt.narrow] at h
    | some x =>
      simp only [Opt.narrow, out_of_range, decide_eq_true_eq] at h
      simp only [option_case, EXIT_FAILURE]
      rw [if_pos (by omega)]
  | e a => cases a with
    | none => simp [out_of_range, Opt.narrow] at h
    | some x =>
      simp only [Opt.narrow, out_of_range, decide_eq_true_eq] at h
      simp only [option_case, EXIT_FAILURE]
      rw [if_pos (by omega)]

/-- An option whose converted value is in range is accepted: its case stores
the converted value and ends in `break`, and the ranges of the globals are
kept. -/
theorem option_case_in_range (cfg : Config) (o : Opt) (h : in_range o.narrow = true) :
    ∃ cfg1, option_case cfg o = Except.ok cfg1 ∧
      (cfg.valid → cfg1.valid) ∧
      (∀ x, o = Opt.t (some x) →
        cfg1.delay = if wrap32 x < 0 then DEFAULT_DELAY else wrap32 x) ∧
      (∀ x, o = Opt.c (some x) → cfg1.max_cycle = wrap32 x ∧ cfg1.use_infinite_mode = false) ∧
      (∀ x, o = Opt.d (some x) → cfg1.dim = wrap32 x) ∧
      (∀ x, o = Opt.s (some x) → cfg1.strength = wrap32 x) ∧
      (∀ x, o = Opt.v (some x) → cfg1.percent_vacant = wrap32 x) ∧
      (∀ x, o = Opt.e (some x) → cfg1.percent_endline = wrap32 x) := by
  cases o with
  | h => simp [in_range, Opt.narrow] at h
  | unknown => simp [in_range, Opt.narrow] at h
  | t a =>
    cases a with
    | none => simp [in_range, Opt.narrow] at h
    | some x =>
      refine ⟨_, rfl, ?_, ?_⟩
      · unfold Config.valid
        simp only
        intro hv
        refine ⟨?_, hv.2⟩
        split
        · decide
        · omega
      · simp
  | c a =>
    cases a with
    | none => simp [in_range, Opt.narrow] at h
    | some x =>
      simp only [Opt.narrow, in_range, decide_eq_true_eq] at h
      simp only [option_case]
      rw [if_neg (by omega)]
      refine ⟨_, rfl, ?_, ?_⟩
      · unfold Config.valid
        simp only
        intro hv
        exact ⟨hv.1, h, hv.2.2⟩
      · simp
  | d a =>
    cases a with
    | none => simp [in_range, Opt.narrow] at h
    | some x =>
      simp only [Opt.narrow, in_range, decide_eq_true_eq] at h
      simp only [option_case]
      rw [if_neg (by omega)]
      refine ⟨_, rfl, ?_, ?_⟩
      · unfold Config.valid
        simp only
        intro hv
        exact ⟨hv.1, hv.2.1, h.1, h.2, hv.2.2.2.2⟩
      · simp
  | s a =>
    cases a with
    | none => simp [in_range, Opt.narrow] at h
    | some x =>
      simp only [Opt.narrow, in_range, decide_eq_true_eq] at h
      simp only [option_case]
      rw [if_neg (by omega)]
      refine ⟨_, rfl, ?_, ?_⟩
      · unfold Config.valid
        simp only
        intro hv
        exact ⟨hv.1, hv.2.1, hv.2.2.1, hv.2.2.2.1, h.1, h.2, hv.2.2.2.2.2.2⟩
      · simp
  | v a =>
    cases a with
    | none => simp [in_range, Opt.narrow] at h
    | some x =>
      simp only [Opt.narrow, in_range, decide_eq_true_eq] at h
      simp only [option_case]
      rw [if_neg (by omega)]
      refine ⟨_, rfl, ?_, ?_⟩
      · unfold Config.valid
        simp only
        intro hv
        exact ⟨hv.1, hv.2.1, hv.2.2.1, hv.2.2.2.1, hv.2.2.2.2.1, hv.2.2.2.2.2.1, h.1, h.2,
          hv.2.2.2.2.2.2.2.2⟩
      · simp
  | e a =>
    cases a with
    | none => simp [in_range, Opt.narrow] at h
    | some x =>
      simp only [Opt.narrow, in_range, decide_eq_true_eq] at h
      simp only [option_case]
      rw [if_neg (by omega)]
      refine ⟨_, rfl, ?_, ?_⟩
      · unfold Config.valid
        simp only
        intro hv
        exact ⟨hv.1, hv.2.1, hv.2.2.1, hv.2.2.2.1, hv.2.2.2.2.1, hv.2.2.2.2.2.1,
          hv.2.2.2.2.2.2.1, hv.2.2.2.2.2.2.2.1, h.1, h.2⟩
      · simp

theorem defaults_valid : defaults.valid := by
  unfold Config.valid defaults DEFAULT_DELAY
  simp

/-- An option is accepted only when it is a numeric option whose converted
value is in range. -/
theorem option_case_ok (cfg cfg1 : Config) (o : Opt) (h : option_case cfg o = Except.ok cfg1) :
    in_range o.narrow = true := by
  cases o with
  | h => simp [option_case] at h
  | unknown => simp [option_case] at h
  | t a => cases a with
    | none => simp [option_case] at h
    | some x => rfl
  | c a => cases a with
    | none => simp [option_case] at h
    | some x =>
      simp only [option_case] at h
      simp only [Opt.narrow, in_range, decide_eq_true_eq]
      by_contra hx
      rw [if_pos (by omega)] at h
      simp at h
  | d a => cases a with
    | none => simp [option_case] at h
    | some x =>
      simp only [option_case] at h
      simp only [Opt.narrow, in_range, decide_eq_true_eq]
      by_contra hx
      rw [if_pos (by omega)] at h
      simp at h
  | s a => cases a with
    | none => simp [option_case] at h
    | some x =>
      simp only [option_case] at h
      simp only [Opt.narrow, in_range, decide_eq_true_eq]
      by_contra hx
      rw [if_pos (by omega)] at h
      simp at h
  | v a => cases a with
    | none => simp [option_case] at h
    | some x =>
      simp only [option_case] at h
      simp only [Opt.narrow, in_range, decide_eq_true_eq]
      by_contra hx
      rw [if_pos (by omega)] at h
      simp at h
  | e a => cases a with
    | none => simp [option_case] at h
    | some x =>
      simp only [option_case] at h
      simp only [Opt.narrow, in_range, decide_eq_true_eq]
      by_contra hx
      rw [if_pos (by omega)] at h
      simp at h

/-- The option loop keeps the ranges of the globals. -/
theorem getopt_loop_valid (opts : List Opt) :
    ∀ cfg cfg1 : Config, cfg.valid → getopt_loop cfg opts = Except.ok cfg1 → cfg1.valid := by
  induction opts with
  | nil =>
    intro cfg cfg1 hv h
    simp only [getopt_loop, Except.ok.injEq] at h
    subst h
    exact hv
  | cons o rest ih =>
    intro cfg cfg1 hv h
    simp only [getopt_loop] at h
    cases hc : option_case cfg o with
    | error st => rw [hc] at h; simp at h
    | ok cfg2 =>
      rw [hc] at h
      simp only at h
      obtain ⟨cfg3, h3, h4, _⟩ := option_case_in_range cfg o (option_case_ok cfg cfg2 o hc)
      rw [hc] at h3
      simp only [Except.ok.injEq] at h3
      subst h3
      exact ih cfg2 cfg1 (h4 hv) h

/-- For a value representable as an `int`, an option in range is accepted and
the value itself is stored. -/
theorem option_case_in_range_fits (cfg : Config) (o : Opt) (hf : fits_int o = true)
    (h : in_range o = true) :
    ∃ cfg1, option_case cfg o = Except.ok cfg1 ∧
      (∀ x, o = Opt.t (some x) → cfg1.delay = if x < 0 then DEFAULT_DELAY else x) ∧
      (∀ x, o = Opt.c (some x) → cfg1.max_cycle = x ∧ cfg1.use_infinite_mode = false) ∧
      (∀ x, o = Opt.d (some x) → cfg1.dim = x) ∧
      (∀ x, o = Opt.s (some x) → cfg1.strength = x) ∧
      (∀ x, o = Opt.v (some x) → cfg1.percent_vacant = x) ∧
      (∀ x, o = Opt.e (some x) → cfg1.percent_endline = x) := by
  have hn := narrow_of_fits o hf
  obtain ⟨cfg1, h1, _, ht, hc, hd, hs, hv, he⟩ :=
    option_case_in_range cfg o (by rw [hn]; exact h)
  have hw : ∀ (x : Int) (o2 : Opt), o2 = o → o2.narrow = o2 → fits_int o2 = true →
      (o2 = Opt.t (some x) ∨ o2 = Opt.c (some x) ∨ o2 = Opt.d (some x) ∨ o2 = Opt.s (some x) ∨
        o2 = Opt.v (some x) ∨ o2 = Opt.e (some x)) → wrap32 x = x := by
    intro x o2 _ _ hf2 hcase
    rcases hcase with e | e | e | e | e | e <;>
    · subst e
      simp only [fits_int, decide_eq_true_eq] at hf2
      exact wrap32_of_fits x hf2
  refine ⟨cfg1, h1, ?_, ?_, ?_, ?_, ?_, ?_⟩
  · intro x hx
    have := hw x o rfl hn hf (Or.inl hx)
    rw [ht x hx, this]
  · intro x hx
    have := hw x o rfl hn hf (Or.inr (Or.inl hx))
    rw [(hc x hx).1, this]
    exact ⟨rfl, (hc x hx).2⟩
  · intro x hx
    have := hw x o rfl hn hf (Or.inr (Or.inr (Or.inl hx)))
    rw [hd x hx, this]
  · intro x hx
    have := hw x o rfl hn hf (Or.inr (Or.inr (Or.inr (Or.inl hx))))
    rw [hs x hx, this]
  · intro x hx
    have := hw x o rfl hn hf (Or.inr (Or.inr (Or.inr (Or.inr (Or.inl hx)))))
    rw [hv x hx, this]
  · intro x hx
    have := hw x o rfl hn hf (Or.inr (Or.inr (Or.inr (Or.inr (Or.inr hx)))))
    rw [he x hx, this]

/-- C14 (range validation). Each numeric case of the option loop of `main`
stores `(int)strtol(optarg, NULL, 10)` and tests the stored `int`. When the
value of the option is representable as an `int`, the claim holds: out of
range (`-c` negative, `-d` outside `[5, 39]`, `-s`, `-v` or `-e` outside
`[1, 99]`) `main` returns `1 + EXIT_FAILURE = 2` whatever follows, without
calling `get_initial_grid` or a mode function, and in range the value is
stored and the loop goes on; `-d 4` and `-d 40` give status `2`, `-d 5` and
`-d 39` run. In general it is the converted value that decides, and the
claim fails: `-d 4294967301` is outside `[5, 39]`, yet it is converted to `5`
and the program runs with `dim = 5`; `-c 2147483648` is not negative, yet it
is converted to `-2147483648` and `main` returns `2`. -/
theorem C14_range_validation (pre rest : List Opt) (o : Opt) (cfg : Config)
    (hpre : getopt_loop defaults pre = Except.ok cfg) :
    (fits_int o = true → out_of_range o = true →
      main (pre ++ o :: rest) = (1 + EXIT_FAILURE, none)) ∧
    (fits_int o = true → in_range o = true → ∃ cfg1,
      getopt_loop defaults (pre ++ [o]) = Except.ok cfg1 ∧
      getopt_loop defaults (pre ++ o :: rest) = getopt_loop cfg1 rest ∧
      main (pre ++ [o]) = (EXIT_SUCCESS, some cfg1) ∧
      (∀ x, o = Opt.t (some x) → cfg1.delay = if x < 0 then DEFAULT_DELAY else x) ∧
      (∀ x, o = Opt.c (some x) → cfg1.max_cycle = x ∧ cfg1.use_infinite_mode = false) ∧
      (∀ x, o = Opt.d (some x) → cfg1.dim = x) ∧
      (∀ x, o = Opt.s (some x) → cfg1.strength = x) ∧
      (∀ x, o = Opt.v (some x) → cfg1.percent_vacant = x) ∧
      (∀ x, o = Opt.e (some x) → cfg1.percent_endline = x)) ∧
    (out_of_range o.narrow = true → main (pre ++ o :: rest) = (1 + EXIT_FAILURE, none)) ∧
    (in_range o.narrow = true → ∃ cfg1,
      getopt_loop defaults (pre ++ [o]) = Except.ok cfg1 ∧
      getopt_loop defaults (pre ++ o :: rest) = getopt_loop cfg1 rest ∧
      main (pre ++ [o]) = (EXIT_SUCCESS, some cfg1)) ∧
    (main [Opt.d (some 4)] = (2, none) ∧ main [Opt.d (some 40)] = (2, none) ∧
      main [Opt.d (some 5)] = (0, some ⟨900000, 0, true, 5, 50, 20, 60⟩) ∧
      main [Opt.d (some 39)] = (0, some ⟨900000, 0, true, 39, 50, 20, 60⟩)) ∧
    (out_of_range (Opt.d (some 4294967301)) = true ∧
      main [Opt.d (some 4294967301)] = (0, some ⟨900000, 0, true, 5, 50, 20, 60⟩)) ∧
    (in_range (Opt.c (some 2147483648)) = true ∧
      main [Opt.c (some 2147483648)] = (2, none)) := by
  have hout : out_of_range o.narrow = true →
      main (pre ++ o :: rest) = (1 + EXIT_FAILURE, none) := by
    intro h
    unfold main
    rw [getopt_loop_append pre (o :: rest) defaults cfg hpre]
    simp only [getopt_loop]
    rw [option_case_out_of_range cfg o h]
    rfl
  have hacc : ∀ cfg1, option_case cfg o = Except.ok cfg1 →
      getopt_loop defaults (pre ++ [o]) = Except.ok cfg1 ∧
      getopt_loop defaults (pre ++ o :: rest) = getopt_loop cfg1 rest ∧
      main (pre ++ [o]) = (EXIT_SUCCESS, some cfg1) := by
    intro cfg1 h1
    have e1 : getopt_loop defaults (pre ++ [o]) = Except.ok cfg1 := by
      rw [getopt_loop_append pre [o] defaults cfg hpre]
      simp only [getopt_loop]
      rw [h1]
    have e2 : getopt_loop defaults (pre ++ o :: rest) = getopt_loop cfg1 rest := by
      rw [getopt_loop_append pre (o :: rest) defaults cfg hpre]
      simp only [getopt_loop]
      rw [h1]
    refine ⟨e1, e2, ?_⟩
    unfold main
    rw [e1]
  refine ⟨?_, ?_, hout, ?_, ⟨rfl, rfl, rfl, rfl⟩, ⟨rfl, rfl⟩, ⟨rfl, rfl⟩⟩
  · intro hf h
    exact hout (by rw [narrow_of_fits o hf]; exact h)
  · intro hf h
    obtain ⟨cfg1, h1, h2⟩ := option_case_in_range_fits cfg o hf h
    obtain ⟨a1, a2, a3⟩ := hacc cfg1 h1
    exact ⟨cfg1, a1, a2, a3, h2⟩
  · intro h
    obtain ⟨cfg1, h1, _⟩ := option_case_in_range cfg o h
    exact ⟨cfg1, hacc cfg1 h1⟩

/-- Witness of C14: after `-s 30` is accepted, `-d 40` makes `main` return
`2` although a valid `-v 10` follows. -/
theorem C14_range_validation_witness :
    getopt_loop defaults [Opt.s (some 30)] = Except.ok ⟨900000, 0, true, 15, 30, 20, 60⟩ ∧
    fits_int (Opt.d (some 40)) = true ∧ out_of_range (Opt.d (some 40)) = true ∧
    main ([Opt.s (some 30)] ++ Opt.d (some 40) :: [Opt.v (some 10)]) = (2, none) :=
  ⟨rfl, rfl, rfl, (C14_range_validation [Opt.s (some 30)] [Opt.v (some 10)] (Opt.d (some 40))
    ⟨900000, 0, true, 15, 30, 20, 60⟩ rfl).1 rfl rfl⟩

/-! ## The cycle loop of `print_mode` -/

/-- While the index stays below `INT_MAX`, the loop standing at index `k` with
`r` iterations to go renders the frames `k, ..., k + r - 1` and ends. -/
theorem print_loop_frames (dim : Nat) (strength : Int) (grid : Grid) (N : Nat)
    (hN : (N : Int) < INT_MAX) :
    ∀ (r k fuel : Nat), k + r = N + 1 → r < fuel →
      print_loop dim strength N fuel k (shown_moves dim strength grid k)
        (grid_at dim strength grid k) =
        ((List.range' k r).map (frame_at dim strength grid), true) := by
  intro r
  induction r with
  | zero =>
    intro k fuel hk hf
    obtain ⟨f, rfl⟩ : ∃ f, fuel = f + 1 := ⟨fuel - 1, by omega⟩
    unfold print_loop
    rw [if_neg (by omega)]
    rfl
  | succ r ih =>
    intro k fuel hk hf
    obtain ⟨f, rfl⟩ : ∃ f, fuel = f + 1 := ⟨fuel - 1, by omega⟩
    unfold print_loop
    rw [if_pos (by omega)]
    have hw : wrap32 ((k : Int) + 1) = ((k + 1 : Nat) : Int) := by
      unfold wrap32
      unfold INT_MAX at hN
      push_cast
      omega
    have h := ih (k + 1) f (by omega) (by omega)
    simp only [hw]
    have e1 : moves dim strength (grid_at dim strength grid k) =
        shown_moves dim strength grid (k + 1) := rfl
    have e2 : next_grid dim strength (grid_at dim strength grid k) =
        grid_at dim strength grid (k + 1) := rfl
    rw [e1, e2, h]
    rfl

/-- With `max_cycle = INT_MAX` the condition `i <= max_cycle` holds for every
`int`: the loop never ends, and the indices it renders wrap around. -/
theorem print_loop_int_max (dim : Nat) (strength : Int) :
    ∀ (fuel : Nat) (i : Int) (shown : Nat) (grid : Grid),
      -2147483648 ≤ i → i ≤ 2147483647 →
      (print_loop dim strength INT_MAX fuel i shown grid).2 = false ∧
      (print_loop dim strength INT_MAX fuel i shown grid).1.map Frame.cycle =
        (List.range fuel).map (fun k : Nat => wrap32 (i + (k : Int))) := by
  intro fuel
  induction fuel with
  | zero => intro i shown grid _ _; exact ⟨rfl, rfl⟩
  | succ f ih =>
    intro i shown grid h1 h2
    unfold print_loop
    rw [if_pos (by unfold INT_MAX; omega)]
    have hr : -2147483648 ≤ wrap32 (i + 1) ∧ wrap32 (i + 1) ≤ 2147483647 := by
      unfold wrap32
      omega
    have h := ih (wrap32 (i + 1)) (moves dim strength grid) (next_grid dim strength grid)
      hr.1 hr.2
    simp only
    refine ⟨h.1, ?_⟩
    rw [List.map_cons, h.2, List.range_succ_eq_map, List.map_cons, List.map_map]
    congr 1
    · unfold wrap32
      simp only [Nat.cast_zero, add_zero]
      omega
    · apply List.map_congr_left
      intro k _
      simp only [Function.comp]
      unfold wrap32
      push_cast
      omega

/-- C15 (bounded mode length). For every `N` with `0 ≤ N < INT_MAX`,
`print_mode` with `max_cycle = N` renders exactly the `N + 1` frames of the
cycles `0, 1, ..., N`, in that order, and returns (any allowance of more than
`N + 1` iterations is enough). With `max_cycle = INT_MAX = 2147483647`, which
`-c` accepts, the loop condition `i <= max_cycle` never fails: whatever the
number of iterations allowed, the loop has not ended and has rendered one
frame per iteration, the index wrapping from `2147483647` to `-2147483648`. -/
theorem C15_bounded_mode_length (dim : Nat) (strength : Int) (grid : Grid) :
    (∀ N : Nat, (N : Int) < INT_MAX → ∀ fuel : Nat, N + 1 < fuel →
      print_mode dim strength N fuel grid =
        ((List.range (N + 1)).map (frame_at dim strength grid), true)) ∧
    (∀ fuel : Nat,
      (print_mode dim strength INT_MAX fuel grid).2 = false ∧
      (print_mode dim strength INT_MAX fuel grid).1.length = fuel ∧
      (print_mode dim strength INT_MAX fuel grid).1.map Frame.cycle =
        (List.range fuel).map (fun k : Nat => wrap32 (k : Int))) := by
  constructor
  · intro N hN fuel hf
    have h := print_loop_frames dim strength grid N hN (N + 1) 0 fuel (by omega) hf
    rw [List.range_eq_range']
    exact h
  · intro fuel
    have h := print_loop_int_max dim strength fuel 0 0 grid (by decide) (by decide)
    have e : (fun k : Nat => wrap32 (0 + (k : Int))) = (fun k : Nat => wrap32 (k : Int)) := by
      funext k
      rw [zero_add]
    rw [e] at h
    refine ⟨h.1, ?_, h.2⟩
    have hl := congrArg List.length h.2
    simpa using hl

/-- Witness of C15: with `-c 1` on the grid `two_movers`, three iterations
allowed are enough for `print_mode` to render the cycles `0` and `1` and
return. -/
theorem C15_bounded_mode_length_witness :
    print_mode 2 50 1 3 two_movers = ((List.range 2).map (frame_at 2 50 two_movers), true) :=
  (C15_bounded_mode_length 2 50 two_movers).1 1 (by decide) 3 (by decide)

/-! ## The frozen pre-cycle grid -/

theorem cell_idx (dim j k : Nat) (hk : k < dim) : cell dim (j * dim + k) = (j, k) := by
  unfold cell
  have hpos : 0 < dim := by omega
  have e : j * dim + k = k + j * dim := by ring
  rw [e, Nat.add_mul_div_right _ _ hpos, Nat.add_mul_mod_self_right, Nat.div_eq_of_lt hk,
    Nat.mod_eq_of_lt hk, zero_add]

theorem positions_succ (dim j k : Nat) (hk : k < dim) :
    positions dim (j * dim + k + 1) = positions dim (j * dim + k) ++ [(j, k)] := by
  unfold positions
  rw [List.range_succ, List.map_append, List.map_singleton, cell_idx dim j k hk]

/-- The part of the memory that `move` of the cycle model works on. -/
theorem move_mem_eq (dim : Nat) (m : Mem) (old_row old_col : Nat) :
    (move_mem dim m old_row old_col).2.grid = m.grid ∧
    ((move_mem dim m old_row old_col).1,
      (⟨(move_mem dim m old_row old_col).2.grid2,
        (move_mem dim m old_row old_col).2.last_checked_row,
        (move_mem dim m old_row old_col).2.last_checked_col⟩ : MoveState)) =
      move dim m.grid ⟨m.grid2, m.last_checked_row, m.last_checked_col⟩ old_row old_col := by
  unfold move_mem move
  simp only
  cases scanRows m.grid dim (dim - m.last_checked_row) m.last_checked_row
      m.last_checked_col with
  | found r c => exact ⟨rfl, rfl⟩
  | exhausted r c => exact ⟨rfl, rfl⟩

theorem memInv_step (dim : Nat) (strength : Int) (grid : Grid) (j k : Nat) (hk : k < dim)
    (s : (Nat × Mem) × Trace) (t : Nat × MoveState)
    (h : MemInv dim strength grid (j * dim + k) s t) :
    MemInv dim strength grid (j * dim + k + 1) (visit_mem dim strength j k s)
      (visit dim strength grid j k t) := by
  obtain ⟨h1, h2, h3, h4, h5, h6, h7⟩ := h
  have hp := positions_succ dim j k hk
  unfold visit_mem visit
  simp only
  rw [h1]
  by_cases hocc : grid j k = 'n' ∨ grid j k = 'e'
  · rw [if_pos hocc]
    by_cases hlt : Fp.lt (check_neighbors dim grid j k) (threshold strength) = true
    · have hu : unhappy dim strength grid j k = true := by
        unfold unhappy
        exact decide_eq_true ⟨hocc, hlt⟩
      rw [if_pos hlt, if_pos hu]
      have hm := move_mem_eq dim s.1.2 j k
      rw [h1, h3, h4, h5] at hm
      have hm2 := hm.2
      have e1 := congrArg Prod.fst hm2
      have e2 := congrArg (fun x => x.2.grid2) hm2
      have e3 := congrArg (fun x => x.2.last_checked_row) hm2
      have e4 := congrArg (fun x => x.2.last_checked_col) hm2
      simp only at e1 e2 e3 e4
      refine ⟨hm.1, ?_, e2, e3, e4, ?_, ?_⟩
      · simp only
        rw [h2, e1]
      · simp only
        rw [hp, List.filter_append, h6]
        simp [hu]
      · simp only
        rw [hp, List.filter_append, List.map_append, h7]
        simp [hocc]
    · have hu : ¬ unhappy dim strength grid j k = true := by
        unfold unhappy
        rw [decide_eq_true_iff]
        exact fun hh => hlt hh.2
      rw [if_neg hlt, if_neg hu]
      refine ⟨h1, h2, h3, h4, h5, ?_, ?_⟩
      · simp only
        rw [hp, List.filter_append, h6]
        simp [hu]
      · simp only
        rw [hp, List.filter_append, List.map_append, h7]
        simp [hocc]
  · have hu : ¬ unhappy dim strength grid j k = true := by
      unfold unhappy
      rw [decide_eq_true_iff]
      exact fun hh => hocc hh.1
    rw [if_neg hocc, if_neg hu]
    refine ⟨h1, h2, h3, h4, h5, ?_, ?_⟩
    · rw [hp, List.filter_append, h6]
      simp [hu]
    · rw [hp, List.filter_append, List.map_append, h7]
      simp [hocc]

/-- Invariant rule for two row-major double loops run side by side. -/
theorem forLoop2_rel {σ τ : Type} (R : Nat → σ → τ → Prop) (dim : Nat)
    (body : Nat → Nat → σ → σ) (body2 : Nat → Nat → τ → τ) (s : σ) (t : τ) (h0 : R 0 s t)
    (hstep : ∀ j k, j < dim → k < dim → ∀ u v, R (j * dim + k) u v →
      R (j * dim + k + 1) (body j k u) (body2 j k v)) :
    R (dim * dim) (forLoop dim (fun j u => forLoop dim (fun k u => body j k u) u) s)
      (forLoop dim (fun j v => forLoop dim (fun k v => body2 j k v) v) t) := by
  have h := forLoop2_induction (fun i (p : σ × τ) => R i p.1 p.2) dim
    (fun j k p => (body j k p.1, body2 j k p.2)) (s, t) h0
    (fun j k hj hk p hp => hstep j k hj hk p.1 p.2 hp)
  have e1 : ∀ (n : Nat) (j : Nat) (p : σ × τ),
      forLoop n (fun k (p : σ × τ) => (body j k p.1, body2 j k p.2)) p =
        (forLoop n (fun k u => body j k u) p.1, forLoop n (fun k v => body2 j k v) p.2) := by
    intro n j p
    induction n with
    | zero => rfl
    | succ m ih => simp only [forLoop]; rw [ih]
  have e2 : ∀ (n : Nat) (p : σ × τ),
      forLoop n (fun j (p : σ × τ) =>
          forLoop dim (fun k (p : σ × τ) => (body j k p.1, body2 j k p.2)) p) p =
        (forLoop n (fun j u => forLoop dim (fun k u => body j k u) u) p.1,
          forLoop n (fun j v => forLoop dim (fun k v => body2 j k v) v) p.2) := by
    intro n p
    induction n with
    | zero => rfl
    | succ m ih => simp only [forLoop]; rw [ih, e1]
  rw [e2] at h
  exact h

theorem memInv_resolve (dim : Nat) (strength : Int) (grid : Grid) :
    MemInv dim strength grid (dim * dim) (resolve_mem dim strength grid)
      (resolve dim strength grid) := by
  unfold resolve_mem resolve
  refine forLoop2_rel (MemInv dim strength grid) dim _ _ _ _ ?_ ?_
  · exact ⟨rfl, rfl, rfl, rfl, rfl, rfl, rfl⟩
  · intro j k _ hk u v h
    exact memInv_step dim strength grid j k hk u v h

/-- C16 (frozen pre-cycle grid). `move` writes only `grid2` and the cursor,
and at the end of the move loops of a cycle the block of the pre-cycle grid
is as it was. The happiness computed at line 291 for each occupied cell, read
from the memory when the loops reach the cell, is the happiness of the cell
in the pre-cycle grid; `move` is called for exactly the cells that are
unhappy in the pre-cycle grid, in row-major order; and the memory model gives
the same count of moves and the same new grid as `resolve`. -/
theorem C16_frozen_grid (dim : Nat) (strength : Int) (grid : Grid) :
    (∀ (m : Mem) (old_row old_col : Nat), (move_mem dim m old_row old_col).2.grid = m.grid) ∧
    (resolve_mem dim strength grid).1.2.grid = grid ∧
    (resolve_mem dim strength grid).2.readings =
      ((positions dim (dim * dim)).filter
        (fun p => decide (grid p.1 p.2 = 'n' ∨ grid p.1 p.2 = 'e'))).map
        (fun p => (p, check_neighbors dim grid p.1 p.2)) ∧
    (resolve_mem dim strength grid).2.attempts =
      (positions dim (dim * dim)).filter (fun p => unhappy dim strength grid p.1 p.2) ∧
    (resolve_mem dim strength grid).1.1 = moves dim strength grid ∧
    (resolve_mem dim strength grid).1.2.grid2 = next_grid dim strength grid := by
  have h := memInv_resolve dim strength grid
  exact ⟨fun m a b => (move_mem_eq dim m a b).1, h.frozen, h.readings_eq, h.attempts_eq,
    h.moves_eq, h.grid2_eq⟩

/-! ## The closed form of a cycle -/

theorem positions_succ_cell (dim n : Nat) :
    positions dim (n + 1) = positions dim n ++ [cell dim n] := by
  unfold positions
  rw [List.range_succ, List.map_append, List.map_singleton]

/-- A longer prefix of the cells is the shorter one followed by more cells. -/
theorem positions_split (dim a : Nat) :
    ∀ b, a ≤ b → ∃ rest, positions dim b = positions dim a ++ rest ∧
      ∀ p ∈ rest, ∃ x, a ≤ x ∧ x < b ∧ p = cell dim x := by
  intro b hab
  induction b, hab using Nat.le_induction with
  | base => exact ⟨[], by simp, by simp⟩
  | succ b hab ih =>
    obtain ⟨rest, h1, h2⟩ := ih
    refine ⟨rest ++ [cell dim b], ?_, ?_⟩
    · rw [positions_succ_cell, h1, List.append_assoc]
    · intro p hp
      rcases List.mem_append.1 hp with hp | hp
      · obtain ⟨x, hx1, hx2, hx3⟩ := h2 p hp
        exact ⟨x, hx1, by omega, hx3⟩
      · rw [List.mem_singleton] at hp
        exact ⟨b, hab, by omega, hp⟩

/-- Cells that fail the test add nothing to the filtered prefix. -/
theorem filter_positions_extend (dim : Nat) (P : Nat × Nat → Bool) (a b : Nat) (hab : a ≤ b)
    (h : ∀ x, a ≤ x → x < b → P (cell dim x) = false) :
    (positions dim b).filter P = (positions dim a).filter P := by
  obtain ⟨rest, h1, h2⟩ := positions_split dim a b hab
  rw [h1, List.filter_append]
  have : rest.filter P = [] := by
    rw [List.filter_eq_nil_iff]
    intro p hp
    obtain ⟨x, hx1, hx2, hx3⟩ := h2 p hp
    rw [hx3, h x hx1 hx2]
    decide
  rw [this, List.append_nil]

theorem zip_append_of_length_le {α β : Type} (l l2 : List α) :
    ∀ v : List β, v.length ≤ l.length → List.zip (l ++ l2) v = List.zip l v := by
  induction l with
  | nil =>
    intro v hv
    have : v = [] := List.length_eq_zero.1 (by simpa using hv)
    subst this
    simp
  | cons a l ih =>
    intro v hv
    cases v with
    | nil => simp
    | cons b v =>
      simp only [List.cons_append, List.zip_cons_cons]
      rw [ih v (by simpa using hv)]

theorem cell_facts (dim x : Nat) (hx : x < dim * dim) :
    (cell dim x).1 < dim ∧ (cell dim x).2 < dim ∧ (cell dim x).1 * dim + (cell dim x).2 = x := by
  have hpos : 0 < dim := by
    rcases Nat.eq_zero_or_pos dim with h | h
    · subst h; simp at hx
    · exact h
  unfold cell
  exact ⟨Nat.div_lt_of_lt_mul hx, Nat.mod_lt _ hpos, Nat.div_add_mod' x dim⟩

/-- The cursor after a call of `move` that found nothing: where it was, or at
the end of the grid. -/
theorem move_none_cursor_cases (dim : Nat) (grid : Grid) (st : MoveState)
    (old_row old_col : Nat) (h : move_target dim grid st = none) :
    ((move dim grid st old_row old_col).2.last_checked_row = st.last_checked_row ∧
      (move dim grid st old_row old_col).2.last_checked_col = st.last_checked_col) ∨
    ((move dim grid st old_row old_col).2.last_checked_row = dim ∧
      (move dim grid st old_row old_col).2.last_checked_col = 0) := by
  unfold move_target at h
  unfold move
  cases hs : scanRows grid dim (dim - st.last_checked_row) st.last_checked_row
      st.last_checked_col with
  | found r0 c0 => rw [hs] at h; simp at h
  | exhausted r0 c0 =>
    obtain ⟨h1, _⟩ := scanRows_exhausted grid dim _ _ _ _ _ hs
    simp only
    rcases h1 with ⟨_, h2, h3⟩ | ⟨h1, h2, h3⟩
    · exact Or.inl ⟨h2, h3⟩
    · exact Or.inr ⟨by omega, h3⟩

theorem zip_prefix {α β : Type} (l : List α) :
    ∀ (b x : List β), l.length = b.length → List.zip l (b ++ x) = List.zip l b := by
  induction l with
  | nil => intro b x _; simp
  | cons a l ih =>
    intro b x h
    cases b with
    | nil => simp at h
    | cons y b =>
      simp only [List.cons_append, List.zip_cons_cons]
      rw [ih b x (by simpa using h)]

theorem zip_snoc {α β : Type} (l : List α) (a : α) :
    ∀ (b x : List β) (y : β), l.length = b.length →
      List.zip (l ++ [a]) (b ++ y :: x) = List.zip l b ++ [(a, y)] := by
  induction l with
  | nil =>
    intro b x y h
    have : b = [] := List.length_eq_zero.1 (by simpa using h.symm)
    subst this
    simp
  | cons a0 l ih =>
    intro b x y h
    cases b with
    | nil => simp at h
    | cons y0 b =>
      simp only [List.cons_append, List.zip_cons_cons]
      rw [ih b x y (by simpa using h)]

theorem zipInv_step (dim : Nat) (strength : Int) (grid : Grid) (j k : Nat)
    (hk : k < dim) (s : (Nat × MoveState) × List Reloc)
    (h : ZipInv dim strength grid (j * dim + k) s) :
    ZipInv dim strength grid (j * dim + k + 1) (visit_log dim strength grid j k s) := by
  have hp := positions_succ dim j k hk
  obtain ⟨h1, h2, h3, h4⟩ := h
  obtain ⟨U, hU⟩ : ∃ U, U = (positions dim (j * dim + k)).filter
      (fun p => unhappy dim strength grid p.1 p.2) := ⟨_, rfl⟩
  obtain ⟨B, hB⟩ : ∃ B, B = (positions dim
      (s.1.2.last_checked_row * dim + s.1.2.last_checked_col)).filter
      (fun p => decide (grid p.1 p.2 = '.')) := ⟨_, rfl⟩
  rw [← hU] at h1
  rw [← hB] at h2
  unfold visit_log visit
  by_cases hu : unhappy dim strength grid j k = true
  · simp only [hu, if_true]
    have hfilt : (positions dim (j * dim + k + 1)).filter
        (fun p => unhappy dim strength grid p.1 p.2) = U ++ [(j, k)] := by
      rw [hp, List.filter_append, ← hU]
      simp [hu]
    cases ht : move_target dim grid s.1.2 with
    | none =>
      obtain ⟨m1, m2⟩ := move_of_target_none dim grid s.1.2 j k ht
      have hno := (move_target_none_iff dim grid s.1.2).1 ht
      have hVB : vacant_cells dim grid = B := by
        unfold vacant_cells
        rw [hB]
        refine filter_positions_extend dim _ _ (dim * dim) h3 ?_
        intro x hx1 hx2
        obtain ⟨c1, c2, c3⟩ := cell_facts dim x hx2
        have := hno _ _ c1 c2 (at_or_after_of_idx_le dim s.1.2.last_checked_row
          s.1.2.last_checked_col (cell dim x).1 (cell dim x).2 c2 (by omega))
        simpa using this
      have hlen : (vacant_cells dim grid).length ≤ U.length := by
        have l1 := congrArg List.length h1
        rw [List.length_zip, hVB] at l1
        rw [hVB]
        omega
      have hcur := move_none_cursor_cases dim grid s.1.2 j k ht
      refine ⟨?_, ?_, ?_, ?_⟩
      · simp only
        rw [hfilt, zip_append_of_length_le _ _ _ hlen]
        exact h1
      · simp only
        rcases hcur with ⟨e1, e2⟩ | ⟨e1, e2⟩
        · rw [e1, e2, ← hB]
          exact h2
        · rw [e1, e2, Nat.add_zero]
          have := hVB
          unfold vacant_cells at this
          rw [this]
          exact h2
      · simp only
        rcases hcur with ⟨e1, e2⟩ | ⟨e1, e2⟩
        · rw [e1, e2]; exact h3
        · rw [e1, e2]; omega
      · simp only
        rcases hcur with ⟨e1, e2⟩ | ⟨e1, e2⟩
        · rw [e2]; exact h4
        · rw [e2]; omega
    | some t =>
      obtain ⟨r, c⟩ := t
      have hm := move_of_target_some dim grid s.1.2 j k r c ht
      obtain ⟨t1, t2, t3, t4, t5⟩ := move_target_spec dim grid s.1.2 r c ht
      have hle := idx_le_of_at_or_after dim _ _ r c h4 t4
      have ht_lt : r * dim + c + 1 ≤ dim * dim := by
        have : (r + 1) * dim ≤ dim * dim := Nat.mul_le_mul_right dim (by omega)
        have e : (r + 1) * dim = r * dim + dim := by ring
        omega
      have hB1 : (positions dim (r * dim + c)).filter (fun p => decide (grid p.1 p.2 = '.')) =
          B := by
        rw [hB]
        refine filter_positions_extend dim _ _ _ hle ?_
        intro x hx1 hx2
        obtain ⟨c1, c2, c3⟩ := cell_facts dim x (by omega)
        have := t5 _ _ c2 (at_or_after_of_idx_le dim s.1.2.last_checked_row
          s.1.2.last_checked_col (cell dim x).1 (cell dim x).2 c2 (by omega))
          (before_of_idx_lt dim r c (cell dim x).1 (cell dim x).2 t2 (by omega))
        simpa using this
      have hB2 : (positions dim (r * dim + c + 1)).filter
          (fun p => decide (grid p.1 p.2 = '.')) = B ++ [(r, c)] := by
        rw [positions_succ dim r c t2, List.filter_append, hB1]
        simp [t3]
      obtain ⟨rest, hr1, _⟩ := positions_split dim (r * dim + c + 1) (dim * dim) ht_lt
      have hV : vacant_cells dim grid =
          B ++ (r, c) :: rest.filter (fun p => decide (grid p.1 p.2 = '.')) := by
        unfold vacant_cells
        rw [hr1, List.filter_append, hB2]
        simp
      have hUB : U.length = B.length := by
        have l1 := congrArg List.length h1
        rw [List.length_zip, hV] at l1
        simp only [List.length_append, List.length_cons] at l1
        omega
      simp only [hm]
      refine ⟨?_, ?_, ?_, ?_⟩
      · simp only
        rw [hfilt, h1, hV, zip_snoc U (j, k) B _ (r, c) hUB, zip_prefix U B _ hUB]
      · simp only
        have e : r * dim + (c + 1) = r * dim + c + 1 := rfl
        rw [e, hB2]
        simp only [List.length_append, List.length_singleton]
        rw [h2]
      · simp only
        omega
      · simp only
        omega
  · rw [if_neg hu, if_neg hu]
    refine ⟨?_, ?_, h3, h4⟩
    · rw [hp, List.filter_append, ← hU]
      simp only [hu, Bool.false_eq_true, List.filter_cons_of_neg, not_false_eq_true,
        List.filter_nil, List.append_nil]
      exact h1
    · rw [← hB]
      exact h2

/-- The relocations of a cycle are the naive pairing. -/
theorem relocations_eq_naive (dim : Nat) (strength : Int) (grid : Grid) :
    relocations dim strength grid = naive_pairing dim strength grid := by
  have h : ZipInv dim strength grid (dim * dim) (resolve_log dim strength grid) := by
    unfold resolve_log
    refine forLoop2_induction (ZipInv dim strength grid) dim
      (fun j k s => visit_log dim strength grid j k s) _ ?_ ?_
    · refine ⟨?_, ?_, ?_, ?_⟩
      · simp [positions]
      · simp [positions]
      · simp
      · simp
    · intro j k _ hk t ht
      exact zipInv_step dim strength grid j k hk t ht
  exact h.log_eq

theorem mem_positions (dim : Nat) (p : Nat × Nat) :
    p ∈ positions dim (dim * dim) ↔ p.1 < dim ∧ p.2 < dim := by
  unfold positions
  rw [List.mem_map]
  constructor
  · rintro ⟨x, hx, rfl⟩
    rw [List.mem_range] at hx
    exact ⟨(cell_facts dim x hx).1, (cell_facts dim x hx).2.1⟩
  · rintro ⟨h1, h2⟩
    refine ⟨p.1 * dim + p.2, ?_, cell_idx dim p.1 p.2 h2⟩
    rw [List.mem_range]
    have : (p.1 + 1) * dim ≤ dim * dim := Nat.mul_le_mul_right dim (by omega)
    have e : (p.1 + 1) * dim = p.1 * dim + dim := by ring
    omega

theorem positions_sorted (dim : Nat) :
    (positions dim (dim * dim)).Pairwise (fun a b => idx dim a < idx dim b) := by
  unfold positions
  rw [List.pairwise_map]
  refine List.Pairwise.imp_of_mem ?_ (List.pairwise_lt_range (dim * dim))
  intro a b ha hb hab
  rw [List.mem_range] at ha hb
  unfold idx
  rw [(cell_facts dim a ha).2.2, (cell_facts dim b hb).2.2]
  exact hab

theorem naive_pairing_two_movers :
    naive_pairing 2 50 two_movers = [((0, 1), (0, 0)), ((1, 0), (1, 1))] := by
  decide

/-- C17 (closed form of a cycle). The lists `unhappy_cells` and `vacant_cells`
hold the unhappy cells and the vacant cells of the pre-cycle grid, each in
increasing row-major order. The relocations performed by the cursor-driven
move loops are the naive pairing of the `i`-th unhappy cell with the `i`-th
vacant cell; the count of moves is the smaller of the two lengths; in
`next_grid` the `i`-th vacant cell holds the agent of the `i`-th unhappy cell
and the `i`-th unhappy cell is vacant, for every `i` below both lengths; and
every other cell is as in the pre-cycle grid. -/
theorem C17_closed_form (dim : Nat) (strength : Int) (grid : Grid) :
    (∀ p, p ∈ unhappy_cells dim strength grid ↔
      p.1 < dim ∧ p.2 < dim ∧ unhappy dim strength grid p.1 p.2 = true) ∧
    (unhappy_cells dim strength grid).Pairwise (fun a b => idx dim a < idx dim b) ∧
    (∀ p, p ∈ vacant_cells dim grid ↔ p.1 < dim ∧ p.2 < dim ∧ grid p.1 p.2 = '.') ∧
    (vacant_cells dim grid).Pairwise (fun a b => idx dim a < idx dim b) ∧
    relocations dim strength grid = naive_pairing dim strength grid ∧
    moves dim strength grid =
      min (unhappy_cells dim strength grid).length (vacant_cells dim grid).length ∧
    (∀ (i : Nat) (h1 : i < (unhappy_cells dim strength grid).length)
        (h2 : i < (vacant_cells dim grid).length),
      next_grid dim strength grid ((vacant_cells dim grid).get ⟨i, h2⟩).1
          ((vacant_cells dim grid).get ⟨i, h2⟩).2 =
        grid ((unhappy_cells dim strength grid).get ⟨i, h1⟩).1
          ((unhappy_cells dim strength grid).get ⟨i, h1⟩).2 ∧
      next_grid dim strength grid ((unhappy_cells dim strength grid).get ⟨i, h1⟩).1
          ((unhappy_cells dim strength grid).get ⟨i, h1⟩).2 = '.') ∧
    (∀ r c, (∀ e ∈ naive_pairing dim strength grid, (r, c) ≠ e.1 ∧ (r, c) ≠ e.2) →
      next_grid dim strength grid r c = grid r c) := by
  have hrel := relocations_eq_naive dim strength grid
  have hok := relocations_logOK dim strength grid
  refine ⟨?_, ?_, ?_, ?_, hrel, ?_, ?_, ?_⟩
  · intro p
    unfold unhappy_cells
    rw [List.mem_filter, mem_positions, and_assoc]
  · exact (positions_sorted dim).sublist (List.filter_sublist _)
  · intro p
    unfold vacant_cells
    rw [List.mem_filter, mem_positions, and_assoc, decide_eq_true_iff]
  · exact (positions_sorted dim).sublist (List.filter_sublist _)
  · rw [moves_eq_length, hrel]
    unfold naive_pairing
    rw [List.length_zip]
  · intro i h1 h2
    have hmem : ((unhappy_cells dim strength grid).get ⟨i, h1⟩,
        (vacant_cells dim grid).get ⟨i, h2⟩) ∈ relocations dim strength grid := by
      rw [hrel]
      unfold naive_pairing
      rw [List.mem_iff_getElem]
      refine ⟨i, by rw [List.length_zip]; exact lt_min h1 h2, ?_⟩
      rw [List.getElem_zip]
      rfl
    rw [next_grid_eq_apply_log]
    exact ⟨apply_log_target dim grid _ grid hok _ hmem,
      apply_log_origin dim grid _ grid hok _ hmem⟩
  · intro r c hrc
    rw [next_grid_eq_apply_log, hrel]
    exact apply_log_other grid _ r c grid hrc

/-! ## Fixed points -/

/-- A cycle without relocations leaves the grid as it is. -/
theorem next_grid_of_moves_zero (dim : Nat) (strength : Int) (grid : Grid)
    (h : moves dim strength grid = 0) : next_grid dim strength grid = grid := by
  rw [moves_eq_length] at h
  have hnil : relocations dim strength grid = [] := List.length_eq_zero.1 h
  rw [next_grid_eq_apply_log, hnil]
  rfl

/-- A cycle with a relocation changes an in-bounds cell. -/
theorem next_grid_ne_of_moves_pos (dim : Nat) (strength : Int) (grid : Grid)
    (h : moves dim strength grid ≠ 0) :
    ∃ r c, r < dim ∧ c < dim ∧ next_grid dim strength grid r c ≠ grid r c := by
  rw [moves_eq_length] at h
  have hok := relocations_logOK dim strength grid
  cases hl : relocations dim strength grid with
  | nil => rw [hl] at h; exact absurd rfl h
  | cons e l =>
    have he : e ∈ relocations dim strength grid := by rw [hl]; exact List.mem_cons_self _ _
    obtain ⟨o1, o2, o3⟩ := hok.origin e he
    refine ⟨e.1.1, e.1.2, o1, o2, ?_⟩
    rw [next_grid_eq_apply_log, apply_log_origin dim grid _ grid hok e he]
    exact fun hh => occupied_ne_vacant o3 hh.symm

/-- C18 (fixed point). For every grid, the count of moves of a cycle is `0`
exactly when `next_grid` equals the pre-cycle grid at every cell of the
`dim × dim` grid (and then the two are equal as grids); once a cycle of a run
performs no relocation, the grid of every later cycle is the same grid and
every later cycle performs no relocation. -/
theorem C18_fixed_point (dim : Nat) (strength : Int) (grid : Grid) :
    (moves dim strength grid = 0 ↔
      ∀ r c, r < dim → c < dim → next_grid dim strength grid r c = grid r c) ∧
    (moves dim strength grid = 0 → next_grid dim strength grid = grid) ∧
    (∀ i : Nat, moves dim strength (grid_at dim strength grid i) = 0 →
      ∀ j : Nat, i ≤ j →
        grid_at dim strength grid j = grid_at dim strength grid i ∧
        moves dim strength (grid_at dim strength grid j) = 0) := by
  refine ⟨⟨?_, ?_⟩, next_grid_of_moves_zero dim strength grid, ?_⟩
  · intro h r c _ _
    rw [next_grid_of_moves_zero dim strength grid h]
  · intro h
    by_contra hne
    obtain ⟨r, c, hr, hc, hd⟩ := next_grid_ne_of_moves_pos dim strength grid hne
    exact hd (h r c hr hc)
  · intro i hi j hij
    induction j, hij using Nat.le_induction with
    | base => exact ⟨rfl, hi⟩
    | succ j _ ih =>
      have e : grid_at dim strength grid (j + 1) = grid_at dim strength grid i := by
        show next_grid dim strength (grid_at dim strength grid j) = _
        rw [next_grid_of_moves_zero dim strength _ ih.2]
        exact ih.1
      exact ⟨e, by rw [e]; exact hi⟩

/-! ## The population -/

theorem mem_cells (dim : Nat) (g : Grid) (ch : Char) :
    ch ∈ cells dim g ↔ ∃ r c, r < dim ∧ c < dim ∧ g r c = ch := by
  unfold cells
  simp only [List.mem_flatMap, List.mem_map, List.mem_range]
  constructor
  · rintro ⟨r, hr, c, hc, h⟩
    exact ⟨r, c, hr, hc, h⟩
  · rintro ⟨r, c, hr, hc, h⟩
    exact ⟨r, hr, c, hc, h⟩

/-- The counts of the three characters after the fill loops. -/
theorem countCells_fill (dim : Nat) (pv pe : Int) (g0 : Grid) (hdim : dim ≤ 39)
    (hpv : 1 ≤ pv ∧ pv ≤ 99) (hpe : 1 ≤ pe ∧ pe ≤ 99) :
    countCells dim (fill dim (num_vacant dim pv) (num_endline dim pv pe) g0).1 '.' =
      (num_vacant dim pv).toNat ∧
    countCells dim (fill dim (num_vacant dim pv) (num_endline dim pv pe) g0).1 'e' =
      (num_endline dim pv pe).toNat ∧
    countCells dim (fill dim (num_vacant dim pv) (num_endline dim pv pe) g0).1 'n' =
      dim * dim - (num_vacant dim pv).toNat - (num_endline dim pv pe).toNat := by
  obtain ⟨h1, h2, h3⟩ := initial_counts_fit dim pv pe hdim hpv hpe
  have e1 : (((num_vacant dim pv).toNat : Nat) : Int) = num_vacant dim pv := Int.toNat_of_nonneg h1
  have e2 : (((num_endline dim pv pe).toNat : Nat) : Int) = num_endline dim pv pe :=
    Int.toNat_of_nonneg h2
  have hle : (num_vacant dim pv).toNat + (num_endline dim pv pe).toNat ≤ dim * dim := by
    omega
  have hc := cells_fill_replicate dim (num_vacant dim pv).toNat (num_endline dim pv pe).toNat
    g0 hle
  rw [e1, e2] at hc
  have h3c := count_three (num_vacant dim pv).toNat (num_endline dim pv pe).toNat
    (dim * dim - (num_vacant dim pv).toNat - (num_endline dim pv pe).toNat)
  unfold countCells
  rw [hc]
  exact h3c

/-- Less than the whole grid is vacant. -/
theorem num_vacant_lt (dim : Nat) (pv : Int) (hdim : 1 ≤ dim ∧ dim ≤ 39)
    (hpv : 1 ≤ pv ∧ pv ≤ 99) : num_vacant dim pv < ((dim * dim : Nat) : Int) := by
  obtain ⟨_, h1, _, _⟩ := num_vacant_exact dim pv hdim.2 hpv
  have hD : (0 : Int) < ((dim * dim : Nat) : Int) := by
    have : 0 < dim * dim := Nat.mul_pos hdim.1 hdim.1
    exact_mod_cast this
  have h2 : ((dim * dim : Nat) : Int) * pv ≤ ((dim * dim : Nat) : Int) * 99 :=
    Int.mul_le_mul_of_nonneg_left hpv.2 (le_of_lt hD)
  omega

/-- The printing loops count the cells that are not `'.'`. -/
theorem total_people_eq (dim : Nat) (grid : Grid) :
    total_people dim grid = (cells dim grid).countP (fun ch => decide (ch ≠ '.')) := by
  unfold total_people stats
  rw [cells_eq_map_range]
  refine forLoop2_induction
    (fun i (s : Fp × Nat) => s.2 =
      ((List.range i).map (fun x => grid (x / dim) (x % dim))).countP
        (fun ch => decide (ch ≠ '.')))
    dim (fun j k s => stats_body dim grid j k s) _ rfl ?_
  intro j k _ hk t ht
  have hc := cell_idx dim j k hk
  unfold cell at hc
  simp only [Prod.mk.injEq] at hc
  show (stats_body dim grid j k t).2 = _
  rw [List.range_succ, List.map_append, List.countP_append, List.map_singleton, hc.1, hc.2]
  unfold stats_body
  by_cases hv : grid j k ≠ '.'
  · rw [if_pos hv]
    simp only
    rw [ht]
    simp [hv]
  · rw [if_neg hv]
    rw [ht]
    simp [hv]

/-- Every cell is either counted by `total_people` or vacant. -/
theorem total_people_add (dim : Nat) (grid : Grid) :
    total_people dim grid + countCells dim grid '.' = dim * dim := by
  rw [total_people_eq]
  unfold countCells
  have hl : (cells dim grid).length = dim * dim := by
    rw [cells_eq_map_range, List.length_map, List.length_range]
  have h := List.length_eq_countP_add_countP (fun ch => decide (ch ≠ '.')) (cells dim grid)
  have e : (cells dim grid).countP (fun a => decide ¬(decide (a ≠ '.') = true)) =
      (cells dim grid).count '.' := by
    unfold List.count
    apply List.countP_congr
    intro a _
    simp
  rw [e] at h
  omega

/-- The count of vacant cells of every grid of a run is `num_vacant`. -/
theorem countCells_run (dim : Nat) (pv pe strength : Int) (rnd : Nat → Nat) (g0 : Grid)
    (i : Nat) (hdim : dim ≤ 39) (hpv : 1 ≤ pv ∧ pv ≤ 99) (hpe : 1 ≤ pe ∧ pe ≤ 99) :
    countCells dim (grid_at dim strength (get_initial_grid dim pv pe rnd g0) i) '.' =
      (num_vacant dim pv).toNat ∧
    countCells dim (grid_at dim strength (get_initial_grid dim pv pe rnd g0) i) 'e' =
      (num_endline dim pv pe).toNat ∧
    countCells dim (grid_at dim strength (get_initial_grid dim pv pe rnd g0) i) 'n' =
      dim * dim - (num_vacant dim pv).toNat - (num_endline dim pv pe).toNat := by
  have h := countCells_fill dim pv pe g0 hdim hpv hpe
  unfold get_initial_grid
  rw [countCells_grid_at, countCells_grid_at, countCells_grid_at, countCells_shuffle,
    countCells_shuffle, countCells_shuffle]
  exact h

/-- C19 (non-empty population). For every valid configuration (`dim` in
`[5, 39]`, `percent_vacant` and `percent_endline` in `[1, 99]`),
`0 ≤ num_vacant`, `0 ≤ num_endline`, `num_vacant + num_endline ≤ dim^2` and
`num_vacant < dim^2`; the initial grid and the grid of every later cycle hold
exactly `num_vacant` vacant cells and at least one agent; `total_people` is
`dim^2 - num_vacant`, not `0`, when the mean happiness is computed, so the
quotient `total_happiness/total_people` is printed and never the `0.0` of the
`else` branch. -/
theorem C19_nonempty_population (dim : Nat) (pv pe strength : Int) (rnd : Nat → Nat)
    (g0 : Grid) (i : Nat) (hdim : 5 ≤ dim ∧ dim ≤ 39) (hpv : 1 ≤ pv ∧ pv ≤ 99)
    (hpe : 1 ≤ pe ∧ pe ≤ 99) :
    (0 ≤ num_vacant dim pv ∧ 0 ≤ num_endline dim pv pe ∧
      num_vacant dim pv + num_endline dim pv pe ≤ ((dim * dim : Nat) : Int) ∧
      num_vacant dim pv < ((dim * dim : Nat) : Int)) ∧
    countCells dim (grid_at dim strength (get_initial_grid dim pv pe rnd g0) i) '.' =
      (num_vacant dim pv).toNat ∧
    (∃ r c, r < dim ∧ c < dim ∧
      (grid_at dim strength (get_initial_grid dim pv pe rnd g0) i r c = 'e' ∨
        grid_at dim strength (get_initial_grid dim pv pe rnd g0) i r c = 'n')) ∧
    total_people dim (grid_at dim strength (get_initial_grid dim pv pe rnd g0) i) =
      dim * dim - (num_vacant dim pv).toNat ∧
    0 < total_people dim (grid_at dim strength (get_initial_grid dim pv pe rnd g0) i) ∧
    happiness_line dim (grid_at dim strength (get_initial_grid dim pv pe rnd g0) i) =
      Happiness.mean (Fp.div FLT
        (stats dim (grid_at dim strength (get_initial_grid dim pv pe rnd g0) i)).1
        (Fp.ofInt FLT
          (total_people dim (grid_at dim strength (get_initial_grid dim pv pe rnd g0) i)))) ∧
    happiness_line dim (grid_at dim strength (get_initial_grid dim pv pe rnd g0) i) ≠
      Happiness.zero := by
  obtain ⟨f1, f2, f3⟩ := initial_counts_fit dim pv pe hdim.2 hpv hpe
  have flt := num_vacant_lt dim pv ⟨by omega, hdim.2⟩ hpv
  obtain ⟨c1, c2, c3⟩ := countCells_run dim pv pe strength rnd g0 i hdim.2 hpv hpe
  have hadd := total_people_add dim (grid_at dim strength (get_initial_grid dim pv pe rnd g0) i)
  rw [c1] at hadd
  have htp : total_people dim (grid_at dim strength (get_initial_grid dim pv pe rnd g0) i) =
      dim * dim - (num_vacant dim pv).toNat := by omega
  have hpos : 0 < total_people dim
      (grid_at dim strength (get_initial_grid dim pv pe rnd g0) i) := by omega
  have hline : happiness_line dim (grid_at dim strength (get_initial_grid dim pv pe rnd g0) i) =
      Happiness.mean (Fp.div FLT
        (stats dim (grid_at dim strength (get_initial_grid dim pv pe rnd g0) i)).1
        (Fp.ofInt FLT
          (total_people dim (grid_at dim strength (get_initial_grid dim pv pe rnd g0) i)))) := by
    unfold happiness_line
    rw [if_pos (by unfold total_people at hpos; omega)]
    rfl
  refine ⟨⟨f1, f2, f3, flt⟩, c1, ?_, htp, hpos, hline, ?_⟩
  · have hsum : 0 < countCells dim
          (grid_at dim strength (get_initial_grid dim pv pe rnd g0) i) 'e' +
        countCells dim (grid_at dim strength (get_initial_grid dim pv pe rnd g0) i) 'n' := by
      rw [c2, c3]
      omega
    have hor : 0 < countCells dim
          (grid_at dim strength (get_initial_grid dim pv pe rnd g0) i) 'e' ∨
        0 < countCells dim (grid_at dim strength (get_initial_grid dim pv pe rnd g0) i) 'n' := by
      omega
    rcases hor with h | h
    · unfold countCells at h
      obtain ⟨r, c, hr, hc, hg⟩ := (mem_cells dim _ 'e').1 (List.count_pos_iff.1 h)
      exact ⟨r, c, hr, hc, Or.inl hg⟩
    · unfold countCells at h
      obtain ⟨r, c, hr, hc, hg⟩ := (mem_cells dim _ 'n').1 (List.count_pos_iff.1 h)
      exact ⟨r, c, hr, hc, Or.inr hg⟩
  · rw [hline]
    exact fun hh => Happiness.noConfusion hh

/-- Witness of C19 at `dim = 5`, `percent_vacant = 20`, `percent_endline = 60`,
`strength = 50`, with `random()` returning `0` at every call: in cycle `3`
five cells are vacant and twenty hold agents. -/
theorem C19_nonempty_population_witness :
    ((5 ≤ 5 ∧ 5 ≤ 39) ∧ ((1 : Int) ≤ 20 ∧ (20 : Int) ≤ 99) ∧ ((1 : Int) ≤ 60 ∧ (60 : Int) ≤ 99)) ∧
    num_vacant 5 20 = 5 ∧
    total_people 5 (grid_at 5 50 (get_initial_grid 5 20 60 (fun _ => 0) unwritten) 3) =
      5 * 5 - (num_vacant 5 20).toNat ∧
    happiness_line 5 (grid_at 5 50 (get_initial_grid 5 20 60 (fun _ => 0) unwritten) 3) ≠
      Happiness.zero := by
  have h := C19_nonempty_population 5 20 60 50 (fun _ => 0) unwritten 3 (by decide) (by decide)
    (by decide)
  exact ⟨⟨by decide, by decide, by decide⟩, by decide, h.2.2.2.1, h.2.2.2.2.2.2⟩

/-! ## Index safety -/

theorem grid_read_in (dim : Nat) (grid : Grid) (r c : Nat) (hr : r < dim) (hc : c < dim) :
    grid_read dim grid r c = some (grid r c) := by
  unfold grid_read
  rw [if_pos (by omega)]
  rfl

theorem grid_write_in (dim : Nat) (grid : Grid) (r c : Nat) (v : Char) (hr : r < dim)
    (hc : c < dim) : grid_write dim grid r c v = some (grid.set r c v) := by
  unfold grid_write
  rw [if_pos (by omega)]
  rfl

theorem tally_checked_eq (dim : Nat) (grid : Grid) (value : Char) (guard guard2 : Bool)
    (r c : Int) (rn cn : Nat) (ts : Nat × Nat) (hg : guard = guard2)
    (h : guard = true → r = (rn : Int) ∧ c = (cn : Int) ∧ rn < dim ∧ cn < dim) :
    tally_checked dim grid value guard r c ts = some (tally value guard2 (grid rn cn) ts) := by
  subst hg
  unfold tally_checked tally
  by_cases hgd : guard = true
  · obtain ⟨h1, h2, h3, h4⟩ := h hgd
    subst h1; subst h2
    rw [if_pos hgd, grid_read_in dim grid rn cn h3 h4]
    simp only [hgd, true_and]
  · rw [if_neg hgd, if_neg (fun hh => hgd hh.1)]

/-- With `row` and `col` inside the grid, no read of `check_neighbors` is out
of bounds. -/
theorem neighbor_counts_checked_eq (dim : Nat) (grid : Grid) (row col : Nat)
    (hrow : row < dim) (hcol : col < dim) :
    neighbor_counts_checked dim grid row col = some (neighbor_counts dim grid row col) := by
  have h1 : ∀ ts, tally_checked dim grid (grid row col)
      (decide ((row : Int) - 1 ≥ 0 ∧ (col : Int) - 1 ≥ 0)) ((row : Int) - 1) ((col : Int) - 1) ts =
      some (tally (grid row col) (decide (1 ≤ row ∧ 1 ≤ col)) (grid (row - 1) (col - 1)) ts) :=
    fun ts => tally_checked_eq dim grid _ _ _ _ _ (row - 1) (col - 1) ts
      (decide_eq_decide.2 (by omega))
      (fun hg => by rw [decide_eq_true_iff] at hg; omega)
  have h2 : ∀ ts, tally_checked dim grid (grid row col)
      (decide ((row : Int) - 1 ≥ 0)) ((row : Int) - 1) (col : Int) ts =
      some (tally (grid row col) (decide (1 ≤ row)) (grid (row - 1) col) ts) :=
    fun ts => tally_checked_eq dim grid _ _ _ _ _ (row - 1) col ts
      (decide_eq_decide.2 (by omega))
      (fun hg => by rw [decide_eq_true_iff] at hg; omega)
  have h3 : ∀ ts, tally_checked dim grid (grid row col)
      (decide ((row : Int) - 1 ≥ 0 ∧ (col : Int) + 1 < (dim : Int))) ((row : Int) - 1)
      ((col : Int) + 1) ts =
      some (tally (grid row col) (decide (1 ≤ row ∧ col + 1 < dim))
        (grid (row - 1) (col + 1)) ts) :=
    fun ts => tally_checked_eq dim grid _ _ _ _ _ (row - 1) (col + 1) ts
      (decide_eq_decide.2 (by omega))
      (fun hg => by rw [decide_eq_true_iff] at hg; omega)
  have h4 : ∀ ts, tally_checked dim grid (grid row col)
      (decide ((col : Int) - 1 ≥ 0)) (row : Int) ((col : Int) - 1) ts =
      some (tally (grid row col) (decide (1 ≤ col)) (grid row (col - 1)) ts) :=
    fun ts => tally_checked_eq dim grid _ _ _ _ _ row (col - 1) ts
      (decide_eq_decide.2 (by omega))
      (fun hg => by rw [decide_eq_true_iff] at hg; omega)
  have h5 : ∀ ts, tally_checked dim grid (grid row col)
      (decide ((col : Int) + 1 < (dim : Int))) (row : Int) ((col : Int) + 1) ts =
      some (tally (grid row col) (decide (col + 1 < dim)) (grid row (col + 1)) ts) :=
    fun ts => tally_checked_eq dim grid _ _ _ _ _ row (col + 1) ts
      (decide_eq_decide.2 (by omega))
      (fun hg => by rw [decide_eq_true_iff] at hg; omega)
  have h6 : ∀ ts, tally_checked dim grid (grid row col)
      (decide ((row : Int) + 1 < (dim : Int) ∧ (col : Int) - 1 ≥ 0)) ((row : Int) + 1)
      ((col : Int) - 1) ts =
      some (tally (grid row col) (decide (row + 1 < dim ∧ 1 ≤ col))
        (grid (row + 1) (col - 1)) ts) :=
    fun ts => tally_checked_eq dim grid _ _ _ _ _ (row + 1) (col - 1) ts
      (decide_eq_decide.2 (by omega))
      (fun hg => by rw [decide_eq_true_iff] at hg; omega)
  have h7 : ∀ ts, tally_checked dim grid (grid row col)
      (decide ((row : Int) + 1 < (dim : Int))) ((row : Int) + 1) (col : Int) ts =
      some (tally (grid row col) (decide (row + 1 < dim)) (grid (row + 1) col) ts) :=
    fun ts => tally_checked_eq dim grid _ _ _ _ _ (row + 1) col ts
      (decide_eq_decide.2 (by omega))
      (fun hg => by rw [decide_eq_true_iff] at hg; omega)
  have h8 : ∀ ts, tally_checked dim grid (grid row col)
      (decide ((row : Int) + 1 < (dim : Int) ∧ (col : Int) + 1 < (dim : Int))) ((row : Int) + 1)
      ((col : Int) + 1) ts =
      some (tally (grid row col) (decide (row + 1 < dim ∧ col + 1 < dim))
        (grid (row + 1) (col + 1)) ts) :=
    fun ts => tally_checked_eq dim grid _ _ _ _ _ (row + 1) (col + 1) ts
      (decide_eq_decide.2 (by omega))
      (fun hg => by rw [decide_eq_true_iff] at hg; omega)
  unfold neighbor_counts_checked neighbor_counts
  rw [grid_read_in dim grid row col hrow hcol]
  simp only [Option.some_bind, h1, h2, h3, h4, h5, h6, h7, h8]

theorem check_neighbors_checked_eq (dim : Nat) (grid : Grid) (row col : Nat)
    (hrow : row < dim) (hcol : col < dim) :
    check_neighbors_checked dim grid row col = some (check_neighbors dim grid row col) := by
  unfold check_neighbors_checked check_neighbors
  rw [neighbor_counts_checked_eq dim grid row col hrow hcol]
  rfl

theorem scanCols_checked_eq (dim : Nat) (grid : Grid) (row : Nat) (hrow : row < dim) :
    ∀ (n col : Nat), n ≤ dim - col →
      scanCols_checked dim grid row n col = some (scanCols grid row n col) := by
  intro n
  induction n with
  | zero => intro col _; rfl
  | succ m ih =>
    intro col h
    unfold scanCols_checked scanCols
    rw [grid_read_in dim grid row col hrow (by omega)]
    simp only
    by_cases hv : grid row col = '.'
    · rw [if_pos hv, if_pos hv]
    · rw [if_neg hv, if_neg hv]
      exact ih (col + 1) (by omega)

theorem scanRows_checked_eq (dim : Nat) (grid : Grid) :
    ∀ (n row col : Nat), n ≤ dim - row →
      scanRows_checked dim grid n row col = some (scanRows grid dim n row col) := by
  intro n
  induction n with
  | zero => intro row col _; rfl
  | succ m ih =>
    intro row col h
    unfold scanRows_checked scanRows
    rw [scanCols_checked_eq dim grid row (by omega) (dim - col) col (le_refl _)]
    cases scanCols grid row (dim - col) col with
    | some c => rfl
    | none => exact ih (row + 1) 0 (by omega)

/-- With `old_row` and `old_col` inside the grid, no read or write of `move`
is out of bounds, whatever the cursor. -/
theorem move_checked_eq (dim : Nat) (grid : Grid) (st : MoveState) (old_row old_col : Nat)
    (hrow : old_row < dim) (hcol : old_col < dim) :
    move_checked dim grid st old_row old_col = some (move dim grid st old_row old_col) := by
  unfold move_checked move
  rw [scanRows_checked_eq dim grid _ _ _ (le_refl _)]
  cases hs : scanRows grid dim (dim - st.last_checked_row) st.last_checked_row
      st.last_checked_col with
  | found r c =>
    obtain ⟨_, h2, h3, _⟩ := scanRows_found grid dim _ _ _ _ _ hs
    simp only
    rw [grid_read_in dim grid old_row old_col hrow hcol, Option.some_bind,
      grid_write_in dim _ r c _ (by omega) h3, Option.some_bind,
      grid_write_in dim _ old_row old_col _ hrow hcol, Option.some_bind]
  | exhausted r c => rfl

/-- A call of `move` keeps the cursor in `[0, dim] × [0, dim]`. -/
theorem move_cursor_ok (dim : Nat) (grid : Grid) (st : MoveState) (old_row old_col : Nat)
    (h : cursor_ok dim st = true) :
    cursor_ok dim (move dim grid st old_row old_col).2 = true := by
  unfold cursor_ok at h ⊢
  rw [decide_eq_true_iff] at h ⊢
  cases ht : move_target dim grid st with
  | none =>
    rcases move_none_cursor_cases dim grid st old_row old_col ht with ⟨e1, e2⟩ | ⟨e1, e2⟩
    · rw [e1, e2]; exact h
    · rw [e1, e2]; omega
  | some t =>
    obtain ⟨r, c⟩ := t
    obtain ⟨t1, t2, _⟩ := move_target_spec dim grid st r c ht
    rw [move_of_target_some dim grid st old_row old_col r c ht]
    simp only
    omega

theorem visit_checked_eq (dim : Nat) (strength : Int) (grid : Grid) (j k : Nat)
    (hj : j < dim) (hk : k < dim) (s : Nat × MoveState) (h : cursor_ok dim s.2 = true) :
    visit_checked dim strength grid j k s = some (visit dim strength grid j k s) ∧
      cursor_ok dim (visit dim strength grid j k s).2 = true := by
  unfold visit_checked visit
  rw [grid_read_in dim grid j k hj hk, Option.some_bind]
  by_cases hocc : grid j k = 'n' ∨ grid j k = 'e'
  · rw [if_pos hocc, check_neighbors_checked_eq dim grid j k hj hk, Option.some_bind]
    by_cases hlt : Fp.lt (check_neighbors dim grid j k) (threshold strength) = true
    · have hu : unhappy dim strength grid j k = true := by
        unfold unhappy
        exact decide_eq_true ⟨hocc, hlt⟩
      have hm := move_cursor_ok dim grid s.2 j k h
      rw [if_pos hlt, if_pos h, move_checked_eq dim grid s.2 j k hj hk, Option.some_bind,
        if_pos hm, if_pos hu]
      exact ⟨rfl, hm⟩
    · have hu : ¬ unhappy dim strength grid j k = true := by
        unfold unhappy
        rw [decide_eq_true_iff]
        exact fun hh => hlt hh.2
      rw [if_neg hlt, if_neg hu]
      exact ⟨rfl, h⟩
  · have hu : ¬ unhappy dim strength grid j k = true := by
      unfold unhappy
      rw [decide_eq_true_iff]
      exact fun hh => hocc hh.1
    rw [if_neg hocc, if_neg hu]
    exact ⟨rfl, h⟩

/-- The checked cycle never fails: it is the cycle `resolve`, and the cursor
ends in `[0, dim] × [0, dim]`. -/
theorem resolve_checked_eq (dim : Nat) (strength : Int) (grid : Grid) :
    resolve_checked dim strength grid = some (resolve dim strength grid) ∧
      cursor_ok dim (resolve dim strength grid).2 = true := by
  unfold resolve_checked resolve
  refine forLoop2_rel
    (fun _ (s : Option (Nat × MoveState)) (t : Nat × MoveState) =>
      s = some t ∧ cursor_ok dim t.2 = true) dim
    (fun j k s => s.bind (visit_checked dim strength grid j k))
    (fun j k t => visit dim strength grid j k t) _ _ ⟨rfl, by simp [cursor_ok]⟩ ?_
  intro j k hj hk u v huv
  obtain ⟨h1, h2⟩ := huv
  subst h1
  show (some v).bind (visit_checked dim strength grid j k) =
      some (visit dim strength grid j k v) ∧
    cursor_ok dim (visit dim strength grid j k v).2 = true
  rw [Option.some_bind]
  exact visit_checked_eq dim strength grid j k hj hk v h2

/-- The checks are not vacuous: a read one row below the grid, and a call of
`move` for a cell outside the grid, fail. -/
theorem checked_detects :
    check_neighbors_checked 2 all_e 2 0 = none ∧
    check_neighbors_checked 2 all_e (-1) 0 = none ∧
    move_checked 2 two_movers ⟨two_movers, 0, 0⟩ 2 0 = none ∧
    tally_checked 2 all_e 'e' true (-1) 0 (0, 0) = none := by
  refine ⟨rfl, rfl, rfl, rfl⟩

/-- C20 (index safety). For every cell `(row, col)` inside the grid,
`check_neighbors` run with bounds-checked reads never reads outside
`[0, dim) × [0, dim)` and returns what `check_neighbors` returns; `move` run
with bounds-checked reads and writes for a cell inside the grid never reads
`grid` or writes `grid2` out of bounds, whatever the cursor, and keeps the
cursor in `[0, dim] × [0, dim]`; and the move loops of a cycle run with all
accesses checked, and the cursor checked at every entry to and exit from
`move`, never fail and give the result of `resolve`. -/
theorem C20_index_safety (dim : Nat) (strength : Int) (grid : Grid) :
    (∀ row col, row < dim → col < dim →
      check_neighbors_checked dim grid row col = some (check_neighbors dim grid row col)) ∧
    (∀ (st : MoveState) (old_row old_col : Nat), old_row < dim → old_col < dim →
      move_checked dim grid st old_row old_col = some (move dim grid st old_row old_col)) ∧
    (∀ (st : MoveState) (old_row old_col : Nat),
      st.last_checked_row ≤ dim ∧ st.last_checked_col ≤ dim →
      (move dim grid st old_row old_col).2.last_checked_row ≤ dim ∧
        (move dim grid st old_row old_col).2.last_checked_col ≤ dim) ∧
    (∀ (st : MoveState) (r c : Nat), move_target dim grid st = some (r, c) →
      r < dim ∧ c < dim) ∧
    resolve_checked dim strength grid = some (resolve dim strength grid) ∧
    (resolve dim strength grid).2.last_checked_row ≤ dim ∧
    (resolve dim strength grid).2.last_checked_col ≤ dim := by
  have hres := resolve_checked_eq dim strength grid
  have hcur := hres.2
  unfold cursor_ok at hcur
  rw [decide_eq_true_iff] at hcur
  refine ⟨fun row col hr hc => check_neighbors_checked_eq dim grid row col hr hc,
    fun st a b ha hb => move_checked_eq dim grid st a b ha hb, ?_, ?_, hres.1, hcur.1, hcur.2⟩
  · intro st a b hst
    have h := move_cursor_ok dim grid st a b (by unfold cursor_ok; exact decide_eq_true hst)
    unfold cursor_ok at h
    exact of_decide_eq_true h
  · intro st r c ht
    obtain ⟨t1, t2, _⟩ := move_target_spec dim grid st r c ht
    exact ⟨t1, t2⟩

end BraceTopia
